import Mathlib

/-!
# KinematicVisualizer: cursor interpolation, selection and guide broadcast

A shallow embedding of `src/KinematicVisualizer.cpp`.

* In the state model `double` values are exact rationals (`ℚ`), which is faithful where
  finite values are compared, stored or passed on. The two methods that compute with them,
  `getYValueFromSignal` and `visualizeSignal`, are embedded a second time with the arithmetic
  of IEEE 754 binary64 (rounding to nearest, infinities, NaN); statements on computed
  values are made on that embedding.
* Pixel coordinates (`QPoint`) are integers.
* Pointers to plot surfaces and to overlay items are natural numbers; the static members of
  the class (`customPlots`, `vLinesMap`, `selectionRect`) live in one shared `World`.
* A method that dereferences a pointer returns `Option`: `none` stands for the dereference of
  a null pointer or of an item that is no longer alive.
* The plotting backend (`QCustomPlot`, `QCPRange`, `QCPAxis`) is not part of the sources; the
  few operations the code calls on it are modelled from section 6 of the specification.
-/

/-! ## Backend values -/

/-- Screen-space point of a pointer event (`QPoint`). -/
structure QPoint where
  x : Int
  y : Int
deriving DecidableEq, Repr

/-- Data-space point (`QPointF`, the result of `coords()`). -/
structure QPointF where
  x : ℚ
  y : ℚ
deriving DecidableEq, Repr

/-- Axis range with its two bounds, as read through `range().lower` and `range().upper`. -/
structure QCPRange where
  lower : ℚ
  upper : ℚ
deriving DecidableEq, Repr

/-- Modelled from the spec: the backend constructor `QCPRange(lower, upper)`, which is not
under `src/`. The specification describes the value built by `getSelectionRange` and stored by
`setRange` as the pair normalized to `(min, max)`, so the constructor orders its arguments. -/
def QCPRange.make (lower upper : ℚ) : QCPRange :=
  if lower > upper then { lower := upper, upper := lower } else { lower := lower, upper := upper }

/-- Pixel rectangle (`QRect`), used for `viewport()`. -/
structure QRect where
  left : Int
  top : Int
  width : Int
  height : Int
deriving DecidableEq, Repr

/-- Hit test `QRect::contains(QPoint)`. -/
def QRect.contains (r : QRect) (p : QPoint) : Bool :=
  decide (r.left ≤ p.x) && decide (p.x < r.left + r.width) &&
    decide (r.top ≤ p.y) && decide (p.y < r.top + r.height)

/-- Line overlay item (`QCPItemLine`): two end points in plot coordinates and a visibility
flag. -/
structure QCPItemLine where
  start : QPointF
  end_ : QPointF
  visible : Bool
deriving DecidableEq, Repr

/-- Rectangle overlay item (`QCPItemRect`) used as the selection rectangle. -/
structure QCPItemRect where
  parentPlot : Option Nat
  topLeft : QPointF
  bottomRight : QPointF
deriving DecidableEq, Repr

/-- Modelled from the spec: the plot surface (`QCustomPlot`), which is not under `src/`:
its two axis ranges, the pixel-to-coordinate mapping of each axis (a function of the current
range), its viewport, its height, the `isSpectrogram` property, the `blockSignals` flag and
its line graphs, each with its name and its data points. -/
structure QCustomPlot where
  xRange : QCPRange
  yRange : QCPRange
  xPixelToCoord : QCPRange → Int → ℚ
  yPixelToCoord : QCPRange → Int → ℚ
  viewport : QRect
  height : Int
  isSpectrogram : Bool
  signalsBlocked : Bool
  graphs : List (String × List (ℚ × ℚ))

/-- Value of `plot->xAxis->pixelToCoord(px)`. -/
def QCustomPlot.xAxis_pixelToCoord (p : QCustomPlot) (px : Int) : ℚ :=
  p.xPixelToCoord p.xRange px

/-- Value of `plot->yAxis->pixelToCoord(px)`. -/
def QCustomPlot.yAxis_pixelToCoord (p : QCustomPlot) (px : Int) : ℚ :=
  p.yPixelToCoord p.yRange px

/-! ## Per-instance and shared state -/

/-- Non-static members of `KinematicVisualizer` that the modelled methods read or write. The
text of `coordText` is kept as the pair of numbers substituted into `"X: %1\nY: %2"`. -/
structure KinematicVisualizer where
  customPlot : Nat
  selecting : Bool
  cursorPos : QPoint
  trackedParameter : String
  signalDataX : List (ℚ × ℚ)
  signalDataY : List (ℚ × ℚ)
  signalDataZ : List (ℚ × ℚ)
  signalOffsets : String → Option ℚ
  hLine : QCPItemLine
  coordText : ℚ × ℚ
  coordTextVisible : Bool
  coordFrameVisible : Bool

/-- Shared state: the heap of plot surfaces and visualizer instances, the static members
`customPlots`, `vLinesMap` and `selectionRect`, and the selection rectangle items that are
alive (`items`, each with the surface that owns it). -/
structure World where
  plots : Nat → QCustomPlot
  visualizers : Nat → KinematicVisualizer
  customPlots : List Nat
  vLinesMap : Nat → Option QCPItemLine
  selectionRect : Option Nat
  items : List (Nat × QCPItemRect)
  nextId : Nat

/-! ## Signal store: `getYValueFromSignal` -/

/-- Loop of `std::lower_bound` over the samples with the comparator of the source,
`a.first < value`. `first` and `len` are the loop variables; the first argument bounds the
number of iterations and is started at the length of the range, which the loop halves. -/
def lowerBoundLoop (v : List (ℚ × ℚ)) (value : ℚ) : Nat → Nat → Nat → Nat
  | 0, first, _ => first
  | fuel + 1, first, len =>
    if 0 < len then
      let half := len / 2
      let middle := first + half
      if (v.getD middle (0, 0)).1 < value then
        lowerBoundLoop v value fuel (middle + 1) (len - half - 1)
      else
        lowerBoundLoop v value fuel first half
    else first

/-- Index returned by `std::lower_bound(begin, end, x, comp)`; `v.length` stands for `end`. -/
def lower_bound (v : List (ℚ × ℚ)) (value : ℚ) : Nat :=
  lowerBoundLoop v value v.length 0 v.length

/-- Channel picked by the `trackedParameter` chain; `none` is the null `signalData`. -/
def trackedSignalData (kv : KinematicVisualizer) : Option (List (ℚ × ℚ)) :=
  if kv.trackedParameter = "X" then some kv.signalDataX
  else if kv.trackedParameter = "Y" then some kv.signalDataY
  else if kv.trackedParameter = "Z" then some kv.signalDataZ
  else none

/-- Body of `getYValueFromSignal` once the channel is known to be present and non-empty. -/
def interpolateAt (signalData : List (ℚ × ℚ)) (x : ℚ) : ℚ :=
  let it := lower_bound signalData x
  if it = signalData.length then
    (signalData.getD (signalData.length - 1) (0, 0)).2
  else if it = 0 then
    (signalData.getD 0 (0, 0)).2
  else
    let x1 := (signalData.getD (it - 1) (0, 0)).1
    let y1 := (signalData.getD (it - 1) (0, 0)).2
    let x2 := (signalData.getD it (0, 0)).1
    let y2 := (signalData.getD it (0, 0)).2
    if x2 - x1 = 0 then y1
    else y1 + (y2 - y1) * (x - x1) / (x2 - x1)

/-- The method `KinematicVisualizer::getYValueFromSignal`. It assigns no member, so it is a
function of the instance and of `x`. -/
def getYValueFromSignal (kv : KinematicVisualizer) (x : ℚ) : ℚ :=
  match trackedSignalData kv with
  | none => 0
  | some signalData =>
    if signalData.isEmpty then 0 else interpolateAt signalData x

/-- Samples ordered by non-decreasing x (repeated x-values allowed). -/
def SortedByX (v : List (ℚ × ℚ)) : Prop := v.Pairwise fun a b => a.1 ≤ b.1

/-- An instance whose tracked channel `"X"` holds the given samples. -/
def visualizerTracking (samples : List (ℚ × ℚ)) : KinematicVisualizer :=
  { customPlot := 0
    selecting := false
    cursorPos := { x := 0, y := 0 }
    trackedParameter := "X"
    signalDataX := samples
    signalDataY := []
    signalDataZ := []
    signalOffsets := fun _ => none
    hLine := { start := { x := 0, y := 0 }, end_ := { x := 1, y := 1 }, visible := false }
    coordText := (0, 0)
    coordTextVisible := false
    coordFrameVisible := false }

/-! ## Multi-plot registry: vertical guides -/

/-- One iteration of the loop of `hideAllVerticalLines`: `vLinesMap[plot]`, guarded by
`if (vLine)`. -/
def hideVerticalLineStep (w : World) (plot : Nat) : World :=
  match w.vLinesMap plot with
  | some vLine =>
    { w with vLinesMap := Function.update w.vLinesMap plot (some { vLine with visible := false }) }
  | none => w

/-- The method `hideAllVerticalLines`: a loop over the static list `customPlots`. -/
def hideAllVerticalLines (w : World) : World :=
  w.customPlots.foldl hideVerticalLineStep w

/-- One iteration of the loop of `updateVerticalLineInAllPlots`. -/
def updateVerticalLineStep (x : ℚ) (w : World) (plot : Nat) : World :=
  match w.vLinesMap plot with
  | some _ =>
    let vLine : QCPItemLine :=
      { start := { x := x, y := (w.plots plot).yRange.lower }
        end_ := { x := x, y := (w.plots plot).yRange.upper }
        visible := true }
    { w with vLinesMap := Function.update w.vLinesMap plot (some vLine) }
  | none => w

/-- The method `updateVerticalLineInAllPlots`. The redraw of the overlay layer changes no
modelled state. -/
def updateVerticalLineInAllPlots (x : ℚ) (w : World) : World :=
  w.customPlots.foldl (updateVerticalLineStep x) w

/-- The method `setupCursorItems(plot)` of instance `this`: a hidden vertical line with the
default end points of a new `QCPItemLine` is stored in `vLinesMap[plot]`; for the instance's
own surface the horizontal line, the text and the frame are created hidden. -/
def setupCursorItems (this : Nat) (plot : Nat) (w : World) : World :=
  let vLine : QCPItemLine :=
    { start := { x := 0, y := 0 }, end_ := { x := 1, y := 1 }, visible := false }
  let w1 : World := { w with vLinesMap := Function.update w.vLinesMap plot (some vLine) }
  let kv := w1.visualizers this
  if plot = kv.customPlot then
    let kv1 : KinematicVisualizer :=
      { kv with
        hLine := { start := { x := 0, y := 0 }, end_ := { x := 1, y := 1 }, visible := false }
        coordFrameVisible := false
        coordTextVisible := false }
    { w1 with visualizers := Function.update w1.visualizers this kv1 }
  else w1

/-- The constructor `KinematicVisualizer::KinematicVisualizer`: a new surface (its backend
state is `surface`) is allocated at the fresh address `w.nextId`, which also names the new
instance; the surface is appended to `customPlots` and its cursor items are set up. -/
def KinematicVisualizer.ctor (surface : QCustomPlot) (w : World) : World :=
  let this := w.nextId
  let kv : KinematicVisualizer :=
    { customPlot := this
      selecting := false
      cursorPos := { x := 0, y := 0 }
      trackedParameter := ""
      signalDataX := []
      signalDataY := []
      signalDataZ := []
      signalOffsets := fun _ => none
      hLine := { start := { x := 0, y := 0 }, end_ := { x := 1, y := 1 }, visible := false }
      coordText := (0, 0)
      coordTextVisible := false
      coordFrameVisible := false }
  let w1 : World :=
    { w with
      plots := Function.update w.plots this surface
      visualizers := Function.update w.visualizers this kv
      customPlots := w.customPlots ++ [this]
      nextId := this + 1 }
  setupCursorItems this this w1

/-- The method `hideHorizontalCursor`. -/
def hideHorizontalCursor (this : Nat) (w : World) : World :=
  let kv := w.visualizers this
  let kv1 : KinematicVisualizer :=
    { kv with
      hLine := { kv.hLine with visible := false }
      coordTextVisible := false
      coordFrameVisible := false }
  { w with visualizers := Function.update w.visualizers this kv1 }

/-- Offset added to the readout for the horizontal line: the `trackedParameter` chain of
`updateCursorItems` with `signalOffsets.value(key, 0.0)`. -/
def trackedOffset (kv : KinematicVisualizer) : ℚ :=
  if kv.trackedParameter = "X" then (kv.signalOffsets "X").getD 0
  else if kv.trackedParameter = "Y" then (kv.signalOffsets "Y").getD 0
  else if kv.trackedParameter = "Z" then (kv.signalOffsets "Z").getD 0
  else 0

/-- The method `updateCursorItems(plot)` of instance `this`. The pixel geometry of the text
frame, which depends on font metrics, is not modelled. -/
def updateCursorItems (this : Nat) (plot : Nat) (w : World) : Option World :=
  let kv := w.visualizers this
  let surface := w.plots plot
  let x := surface.xAxis_pixelToCoord kv.cursorPos.x
  let y := if surface.isSpectrogram then surface.yAxis_pixelToCoord kv.cursorPos.y
           else getYValueFromSignal kv x
  let w1 := hideAllVerticalLines w
  match w1.vLinesMap plot with
  | none => none
  | some _ =>
    let vLine : QCPItemLine :=
      { start := { x := x, y := surface.yRange.lower }
        end_ := { x := x, y := surface.yRange.upper }
        visible := true }
    let w2 : World := { w1 with vLinesMap := Function.update w1.vLinesMap plot (some vLine) }
    let w3 : World :=
      if plot = kv.customPlot then
        let adjustedY := y + trackedOffset kv
        let hLine : QCPItemLine :=
          if 0 ≤ kv.cursorPos.y ∧ kv.cursorPos.y ≤ surface.height then
            { start := { x := surface.xRange.lower, y := adjustedY }
              end_ := { x := surface.xRange.upper, y := adjustedY }
              visible := true }
          else { kv.hLine with visible := false }
        let kv1 : KinematicVisualizer :=
          { kv with
            hLine := hLine
            coordText := (x, y)
            coordFrameVisible := true
            coordTextVisible := true }
        { w2 with visualizers := Function.update w2.visualizers this kv1 }
      else w2
    some (updateVerticalLineInAllPlots x w3)

/-! ## Axis synchronizer -/

/-- Call `plot->blockSignals(block)`. -/
def World.blockSignals (w : World) (plot : Nat) (block : Bool) : World :=
  { w with plots := Function.update w.plots plot { w.plots plot with signalsBlocked := block } }

/-- Assignment of the x-axis range of a surface, with no notification delivered. -/
def World.storeXRange (w : World) (plot : Nat) (newRange : QCPRange) : World :=
  { w with plots := Function.update w.plots plot { w.plots plot with xRange := newRange } }

/-- One iteration of the loop of `synchronizePlots`: for a surface other than the
instance's own, `blockSignals(true)`, `xAxis->setRange(newRange)` (no notification is
delivered while the signals are blocked), `blockSignals(false)`. -/
def synchronizePlotsStep (customPlot : Nat) (newRange : QCPRange) (w : World) (plot : Nat) :
    World :=
  if plot ≠ customPlot then
    ((w.blockSignals plot true).storeXRange plot newRange).blockSignals plot false
  else w

/-- The slot `synchronizePlots(newRange)` of instance `this`. -/
def synchronizePlots (this : Nat) (newRange : QCPRange) (w : World) : World :=
  w.customPlots.foldl (synchronizePlotsStep (w.visualizers this).customPlot newRange) w

/-- Modelled from the spec: `customPlot->xAxis->setRange(lower, upper)` called by instance
`this` on its own surface. The backend stores the normalized range and, unless the
surface's signals are blocked, notifies the slot connected in the constructor, which is
`synchronizePlots` of `this`. -/
def xAxis_setRange (this : Nat) (lower upper : ℚ) (w : World) : World :=
  let plot := (w.visualizers this).customPlot
  let newRange := QCPRange.make lower upper
  let w1 := w.storeXRange plot newRange
  if (w1.plots plot).signalsBlocked then w1 else synchronizePlots this newRange w1

/-! ## Selection and zoom -/

/-- Dereference of a pointer to a selection rectangle item. -/
def World.rectAt (w : World) (item : Nat) : Option QCPItemRect :=
  (w.items.find? fun e => e.1 = item).map Prod.snd

/-- Backend call `plot->removeItem(item)`: the item is deleted when the surface owns it. -/
def removeItem (w : World) (plot : Nat) (item : Nat) : World :=
  { w with items := w.items.filter fun e => !(decide (e.1 = item) && decide (e.2.parentPlot = some plot)) }

/-- Call `item->bottomRight->setCoords(p)`. -/
def setBottomRight (w : World) (item : Nat) (p : QPointF) : World :=
  { w with items := w.items.map fun e =>
      if e.1 = item then (e.1, { e.2 with bottomRight := p }) else e }

/-- The method `getSelectionRange`. -/
def getSelectionRange (w : World) : Option QCPRange :=
  match w.selectionRect with
  | some sel =>
    match w.rectAt sel with
    | some r =>
      let lower := r.topLeft.x
      let upper := r.bottomRight.x
      some (QCPRange.make lower upper)
    | none => none
  | none => some (QCPRange.make 0 0)

/-- The method `clearSelectionRect`. The redraw of every surface changes no modelled
state. -/
def clearSelectionRect (w : World) : Option World :=
  match w.selectionRect with
  | some sel =>
    match w.rectAt sel with
    | some r =>
      let w1 := match r.parentPlot with
        | some plot => removeItem w plot sel
        | none => w
      some { w1 with selectionRect := none }
    | none => none
  | none => some w

/-- The slot `onAnyMousePress(event)` of instance `this`; `eventPos` is `event->pos()`. -/
def onAnyMousePress (this : Nat) (eventPos : QPoint) (w : World) : Option World :=
  match clearSelectionRect w with
  | none => none
  | some w1 =>
    let kv := w1.visualizers this
    let surface := w1.plots kv.customPlot
    if surface.viewport.contains eventPos then
      let sel := w1.nextId
      let r : QCPItemRect :=
        { parentPlot := some kv.customPlot
          topLeft := { x := surface.xAxis_pixelToCoord kv.cursorPos.x, y := surface.yRange.upper }
          bottomRight :=
            { x := surface.xAxis_pixelToCoord kv.cursorPos.x, y := surface.yRange.lower } }
      some { w1 with
        visualizers := Function.update w1.visualizers this { kv with selecting := true }
        selectionRect := some sel
        items := w1.items ++ [(sel, r)]
        nextId := sel + 1 }
    else some w1

/-- Shared body of `onMouseRelease` and `onMouseDrag`: the bottom-right corner of the
shared rectangle is moved to the data x of `cursorPos`. -/
def dragSelectionTo (this : Nat) (w : World) : Option World :=
  match w.selectionRect with
  | some sel =>
    match w.rectAt sel with
    | some _ =>
      let kv := w.visualizers this
      let surface := w.plots kv.customPlot
      some (setBottomRight w sel
        { x := surface.xAxis_pixelToCoord kv.cursorPos.x, y := surface.yRange.lower })
    | none => none
  | none => some w

/-- Assignment `selecting = value` in instance `this`. -/
def World.setSelecting (w : World) (this : Nat) (value : Bool) : World :=
  { w with visualizers := Function.update w.visualizers this
             { w.visualizers this with selecting := value } }

/-- The slot `onMouseRelease` of instance `this`. -/
def onMouseRelease (this : Nat) (w : World) : Option World :=
  dragSelectionTo this (w.setSelecting this false)

/-- The slot `onMouseDrag` of instance `this`. -/
def onMouseDrag (this : Nat) (w : World) : Option World :=
  if (w.visualizers this).selecting && w.selectionRect.isSome then dragSelectionTo this w
  else some w

/-- The slot `zoomToSelection` of instance `this`. -/
def zoomToSelection (this : Nat) (w : World) : Option World :=
  match w.selectionRect with
  | some sel =>
    match w.rectAt sel with
    | some r =>
      let xMin := r.topLeft.x
      let xMax := r.bottomRight.x
      clearSelectionRect (xAxis_setRange this xMin xMax w)
    | none => none
  | none => some w

/-! ## Event delivery -/

/-- Assignment `cursorPos = pos` in instance `this`. -/
def World.setCursorPos (w : World) (this : Nat) (pos : QPoint) : World :=
  { w with visualizers := Function.update w.visualizers this
             { w.visualizers this with cursorPos := pos } }

/-- Events seen by `eventFilter`. -/
inductive QEvent where
  | MouseMove (pos : QPoint)
  | Leave
  | Enter
  | Other
deriving DecidableEq, Repr

/-- The method `eventFilter(object, event)` of instance `this`, for the object the filter is
installed on, which is the instance's own surface. -/
def eventFilter (this : Nat) (event : QEvent) (w : World) : Option World :=
  match event with
  | QEvent.MouseMove pos =>
    let kv := w.visualizers this
    let w1 := w.setCursorPos this pos
    match updateCursorItems this kv.customPlot w1 with
    | none => none
    | some w2 =>
      if (w2.visualizers this).selecting && w2.selectionRect.isSome then onMouseDrag this w2
      else some w2
  | QEvent.Leave => some (hideHorizontalCursor this (hideAllVerticalLines w))
  | QEvent.Enter =>
    match updateCursorItems this (w.visualizers this).customPlot w with
    | none => none
    | some w1 =>
      let kv := w1.visualizers this
      let kv1 : KinematicVisualizer :=
        { kv with coordTextVisible := true, coordFrameVisible := true }
      some { w1 with visualizers := Function.update w1.visualizers this kv1 }
  | QEvent.Other => some w

/-- The handler `mouseMoveEvent(event)` of instance `this`. -/
def mouseMoveEvent (this : Nat) (eventPos : QPoint) (w : World) : Option World :=
  let kv := w.visualizers this
  if (w.plots kv.customPlot).viewport.contains eventPos then
    let w1 := w.setCursorPos this eventPos
    match updateCursorItems this kv.customPlot w1 with
    | none => none
    | some w2 =>
      if (w2.visualizers this).selecting && w2.selectionRect.isSome then onMouseDrag this w2
      else some w2
  else some w

/-- Pointer and command events, each delivered to one visualizer instance. -/
inductive UiEvent where
  | press (this : Nat) (pos : QPoint)
  | move (this : Nat) (pos : QPoint)
  | widgetMove (this : Nat) (pos : QPoint)
  | drag (this : Nat)
  | release (this : Nat)
  | clear (this : Nat)
  | zoom (this : Nat)
deriving DecidableEq, Repr

/-- Instance an event is delivered to. -/
def UiEvent.target : UiEvent → Nat
  | UiEvent.press this _ => this
  | UiEvent.move this _ => this
  | UiEvent.widgetMove this _ => this
  | UiEvent.drag this => this
  | UiEvent.release this => this
  | UiEvent.clear this => this
  | UiEvent.zoom this => this

/-- Handler run for one event. -/
def deliver (e : UiEvent) (w : World) : Option World :=
  match e with
  | UiEvent.press this pos => onAnyMousePress this pos w
  | UiEvent.move this pos => eventFilter this (QEvent.MouseMove pos) w
  | UiEvent.widgetMove this pos => mouseMoveEvent this pos w
  | UiEvent.drag this => onMouseDrag this w
  | UiEvent.release this => onMouseRelease this w
  | UiEvent.clear _ => clearSelectionRect w
  | UiEvent.zoom this => zoomToSelection this w

/-- Handlers run in arrival order; the run stops at the first failed dereference. -/
def deliverAll : List UiEvent → World → Option World
  | [], w => some w
  | e :: es, w =>
    match deliver e w with
    | none => none
    | some w1 => deliverAll es w1

/-- Selection rectangle items that are attached to a plot surface. -/
def selectionItemsOnSurfaces (w : World) : List Nat :=
  (w.items.filter fun e => e.2.parentPlot.isSome).map Prod.fst

/-- Every registered surface has a vertical line in `vLinesMap`. -/
def GuidesPresent (w : World) : Prop :=
  ∀ plot, plot ∈ w.customPlots → (w.vLinesMap plot).isSome

/-- The shared pointer `selectionRect`, when set, refers to an item that is alive. -/
def SelectionAlive (w : World) : Prop :=
  ∀ sel, w.selectionRect = some sel → (w.rectAt sel).isSome

/-! ## Destruction and range-change notification -/

/-- The destructor `KinematicVisualizer::~KinematicVisualizer` of instance `this`. Its body
is `customPlots.removeAll(customPlot)`. The surface was created as a child widget of the
instance (`new QCustomPlot(this)`), so it dies with the instance together with the overlay
items it owns; the destructor assigns neither `vLinesMap` nor `selectionRect`. -/
def KinematicVisualizer.dtor (this : Nat) (w : World) : World :=
  let customPlot := (w.visualizers this).customPlot
  { w with
    customPlots := w.customPlots.filter fun plot => decide (plot ≠ customPlot)
    items := w.items.filter fun e => decide (e.2.parentPlot ≠ some customPlot) }

/-- Record of one propagation: the surfaces whose x-range was assigned, in order, and the
instances whose slot `synchronizePlots` ran, in order. -/
structure RangeTrace where
  stored : List Nat
  notified : List Nat
deriving DecidableEq, Repr

/-- The loop of `synchronizePlots` with the two calls it makes on a surface left as
parameters: `blockSignals plot b` stands for `plot->blockSignals(b)` and `setRange plot r`
for `plot->xAxis->setRange(r)`; `customPlots` is the static list and `customPlot` the
caller's own surface. With the plain assignment of the range for `setRange` this is
`synchronizePlots` itself. -/
def synchronizePlotsVia {σ : Type} (blockSignals : Nat → Bool → σ → σ)
    (setRange : Nat → QCPRange → σ → σ) (customPlots : List Nat) (customPlot : Nat)
    (newRange : QCPRange) (s : σ) : σ :=
  customPlots.foldl
    (fun s plot =>
      if plot ≠ customPlot then
        blockSignals plot false (setRange plot newRange (blockSignals plot true s))
      else s)
    s

/-- Modelled from the spec: the plot surface offers "axis range get/set with change
notification" (section 6), which is backend code not under `src/`. The call
`xAxis->setRange(newRange)` on surface `plot` stores the range and emits `rangeChanged` of
that axis; the constructor connects this signal of `customPlot->xAxis` to the slot
`synchronizePlots` of the owning instance, so the slot runs. The two `blockSignals` calls of
`synchronizePlots` are made on the surface object `plot`, and no statement of the source
blocks the signals of an axis object, so the flag `signalsBlocked` of the surface is set and
cleared but does not decide the delivery. The spec does not say whether the backend emits
when the assigned range equals the current one: with `skipUnchanged` such an assignment is
ignored. The first numeric argument bounds the nesting depth of slot calls; at depth 0 the
range is still stored but the slot is cut off. -/
def rangeChangedDelivery (skipUnchanged : Bool) :
    Nat → Nat → QCPRange → World × RangeTrace → World × RangeTrace
  | 0, plot, newRange, s =>
    if skipUnchanged = true ∧ (s.1.plots plot).xRange = newRange then s
    else
      (s.1.storeXRange plot newRange,
        { stored := s.2.stored ++ [plot], notified := s.2.notified })
  | depth + 1, plot, newRange, s =>
    if skipUnchanged = true ∧ (s.1.plots plot).xRange = newRange then s
    else
      synchronizePlotsVia (fun p b (s1 : World × RangeTrace) => (s1.1.blockSignals p b, s1.2))
        (fun p r s1 => rangeChangedDelivery skipUnchanged depth p r s1)
        s.1.customPlots plot newRange
        (s.1.storeXRange plot newRange,
          { stored := s.2.stored ++ [plot], notified := s.2.notified ++ [plot] })

/-! ## Signal display: the scans of `visualizeSignal` on exact values

Comparisons between finite doubles are exact, so the minimum and maximum scans of
`visualizeSignal` are stated once on rationals; the lemmas on the binary64 embedding below
reduce its scans on finite values to these. -/

/-- Value of `std::numeric_limits<double>::max()`; `lowest()` is its negation. -/
def DBL_MAX : ℚ := (2 ^ 53 - 1) * 2 ^ 971

/-- Value of `*std::min_element(begin, end)`; `none` is the dereference of `end`, which the
search returns on an empty vector. -/
def min_element : List ℚ → Option ℚ
  | [] => none
  | a :: t => some (t.foldl (fun smallest v => if v < smallest then v else smallest) a)

/-- Value of `*std::max_element(begin, end)`; `none` is the dereference of `end`. -/
def max_element : List ℚ → Option ℚ
  | [] => none
  | a :: t => some (t.foldl (fun largest v => if largest < v then v else largest) a)

/-- First loop of `visualizeSignal` over the map, in key order: the running `globalMin` and
`globalMax`. -/
def globalRangeLoop : List (String × List ℚ) → ℚ × ℚ → Option (ℚ × ℚ)
  | [], g => some g
  | it :: rest, g =>
    match min_element it.2, max_element it.2 with
    | some localMin, some localMax =>
      globalRangeLoop rest
        (if localMin < g.1 then localMin else g.1, if localMax > g.2 then localMax else g.2)
    | _, _ => none

/-- The method `setTrackedParameter(parameter)` of instance `this`. -/
def setTrackedParameter (this : Nat) (parameter : String) (w : World) : World :=
  { w with visualizers := Function.update w.visualizers this
             { w.visualizers this with trackedParameter := parameter } }

/-- The number `m` is the least value of the list. -/
def IsMinOf (l : List ℚ) (m : ℚ) : Prop := m ∈ l ∧ ∀ v, v ∈ l → m ≤ v

/-- The number `m` is the greatest value of the list. -/
def IsMaxOf (l : List ℚ) (m : ℚ) : Prop := m ∈ l ∧ ∀ v, v ∈ l → v ≤ m

/-- All values of all channels of the map. -/
def allValues (dataMap : List (String × List ℚ)) : List ℚ :=
  (dataMap.map Prod.snd).flatten

/-- Every value passed in is within the range of the finite doubles. -/
def FiniteValues (dataMap : List (String × List ℚ)) : Prop :=
  ∀ e, e ∈ dataMap → ∀ v, v ∈ e.2 → -DBL_MAX ≤ v ∧ v ≤ DBL_MAX

/-- Stored samples of the channel named `c`, for `c` one of `"X"`, `"Y"`, `"Z"`. -/
def signalDataOf (kv : KinematicVisualizer) (c : String) : List (ℚ × ℚ) :=
  if c = "X" then kv.signalDataX
  else if c = "Y" then kv.signalDataY
  else if c = "Z" then kv.signalDataZ
  else []

/-! ## IEEE 754 binary64 arithmetic

The state model above takes `double` values as exact rationals, which is faithful for
comparisons between finite values and idealises every arithmetic result. The two numeric
methods, `getYValueFromSignal` and `visualizeSignal`, are embedded a second time in this part
with the arithmetic of the C++ type `double`: every operation rounds its exact result to the
nearest binary64 value, ties to even, overflows to an infinity, and propagates NaN. -/

/-- A value of type `double`: a finite number, an infinity with its sign, or NaN. Zero
carries no sign: the sign of a zero is observable only by dividing by it, and the statements
embedded here divide by `x2 - x1` after testing it against zero, by the constant 2, and by
`samplingRate`, an `int`, whose zero converts to the positive zero. -/
inductive Double where
  | finite (value : ℚ)
  | inf (negative : Bool)
  | nan
deriving DecidableEq

/-- The power `2 ^ e` for an integer exponent. -/
def Double.pow2 (e : Int) : ℚ :=
  if 0 ≤ e then (2 : ℚ) ^ e.toNat else 1 / (2 : ℚ) ^ (-e).toNat

/-- Number of halvings that bring `n` below 2, which is `⌊log₂ n⌋` for `n ≥ 1`; the first
argument bounds the number of steps. -/
def Double.log2Loop : Nat → Nat → Nat
  | 0, _ => 0
  | fuel + 1, n => if n < 2 then 0 else Double.log2Loop fuel (n / 2) + 1

/-- The exponent `⌊log₂ a⌋` of a positive rational `a`. -/
def Double.floorLog2 (a : ℚ) : Int :=
  let k0 : Int :=
    (Double.log2Loop a.num.natAbs a.num.natAbs : Int) - (Double.log2Loop a.den a.den : Int)
  if Double.pow2 k0 ≤ a then k0 else k0 - 1

/-- Nearest integer to a non-negative rational, ties to the even neighbour. -/
def Double.roundHalfEven (m : ℚ) : Int :=
  let f := m.floor
  let r := m - (f : ℚ)
  if r < 1 / 2 then f
  else if 1 / 2 < r then f + 1
  else if f % 2 = 0 then f else f + 1

/-- Rounding of an exact result to binary64, round to nearest, ties to even: 53 significant
bits, the spacing of the subnormal numbers (`2 ^ (-1074)`) below `2 ^ (-1022)`, and an
infinity when the rounded magnitude reaches `2 ^ 1024`. -/
def Double.round (q : ℚ) : Double :=
  if q = 0 then Double.finite 0
  else
    let a := |q|
    let e := max (Double.floorLog2 a) (-1022)
    let ulp := Double.pow2 (e - 52)
    let r := (Double.roundHalfEven (a / ulp) : ℚ) * ulp
    if Double.pow2 1024 ≤ r then Double.inf (decide (q < 0))
    else Double.finite (if q < 0 then -r else r)

/-- The sum `a + b` of two doubles. -/
def Double.add : Double → Double → Double
  | Double.finite a, Double.finite b => Double.round (a + b)
  | Double.finite _, Double.inf s => Double.inf s
  | Double.inf s, Double.finite _ => Double.inf s
  | Double.inf s, Double.inf t => if s = t then Double.inf s else Double.nan
  | _, _ => Double.nan

/-- The negation `-a`, which is exact. -/
def Double.neg : Double → Double
  | Double.finite a => Double.finite (-a)
  | Double.inf s => Double.inf (!s)
  | Double.nan => Double.nan

/-- The difference `a - b`. -/
def Double.sub (a b : Double) : Double := Double.add a (Double.neg b)

/-- The product `a * b`. -/
def Double.mul : Double → Double → Double
  | Double.finite a, Double.finite b => Double.round (a * b)
  | Double.finite a, Double.inf s =>
    if a = 0 then Double.nan else Double.inf (xor (decide (a < 0)) s)
  | Double.inf s, Double.finite b =>
    if b = 0 then Double.nan else Double.inf (xor s (decide (b < 0)))
  | Double.inf s, Double.inf t => Double.inf (xor s t)
  | _, _ => Double.nan

/-- The quotient `a / b`; a finite non-zero number divided by zero is an infinity and
`0 / 0` is NaN. -/
def Double.div : Double → Double → Double
  | Double.finite a, Double.finite b =>
    if b = 0 then (if a = 0 then Double.nan else Double.inf (decide (a < 0)))
    else Double.round (a / b)
  | Double.finite _, Double.inf _ => Double.finite 0
  | Double.inf s, Double.finite b => Double.inf (xor s (decide (b < 0)))
  | _, _ => Double.nan

/-- The comparison `a < b`, false when either side is NaN. -/
def Double.lt : Double → Double → Bool
  | Double.finite a, Double.finite b => decide (a < b)
  | Double.finite _, Double.inf s => !s
  | Double.inf s, Double.finite _ => s
  | Double.inf s, Double.inf t => s && !t
  | _, _ => false

instance Double.instAdd : Add Double := ⟨Double.add⟩

instance Double.instSub : Sub Double := ⟨Double.sub⟩

instance Double.instMul : Mul Double := ⟨Double.mul⟩

instance Double.instDiv : Div Double := ⟨Double.div⟩

instance Double.instLT : LT Double := ⟨fun a b => Double.lt a b = true⟩

instance Double.instDecidableLT (a b : Double) : Decidable (a < b) :=
  inferInstanceAs (Decidable (Double.lt a b = true))

/-- Conversion of an integer to `double`: `static_cast<double>(i)` and the promotion of an
`int` operand. -/
def Double.ofInt (n : Int) : Double := Double.round n

/-- A numeric literal of type `double`. -/
instance Double.instOfNat (n : Nat) : OfNat Double n := ⟨Double.round n⟩

/-! ## The numeric methods in binary64 -/

/-- The members of the class that `getYValueFromSignal` and the cursor update read and
`visualizeSignal` writes. -/
structure SignalMembers where
  trackedParameter : String
  signalDataX : List (Double × Double)
  signalDataY : List (Double × Double)
  signalDataZ : List (Double × Double)
  signalOffsets : String → Option Double

/-- Loop of `std::lower_bound` over the samples with the comparator of the source,
`a.first < value`, on doubles. -/
def lowerBoundLoop64 (v : List (Double × Double)) (value : Double) : Nat → Nat → Nat → Nat
  | 0, first, _ => first
  | fuel + 1, first, len =>
    if 0 < len then
      let half := len / 2
      let middle := first + half
      if (v.getD middle (0, 0)).1 < value then
        lowerBoundLoop64 v value fuel (middle + 1) (len - half - 1)
      else
        lowerBoundLoop64 v value fuel first half
    else first

/-- Index returned by `std::lower_bound(begin, end, x, comp)`; `v.length` stands for `end`. -/
def lower_bound64 (v : List (Double × Double)) (value : Double) : Nat :=
  lowerBoundLoop64 v value v.length 0 v.length

/-- Channel picked by the `trackedParameter` chain; `none` is the null `signalData`. -/
def trackedSignalData64 (kv : SignalMembers) : Option (List (Double × Double)) :=
  if kv.trackedParameter = "X" then some kv.signalDataX
  else if kv.trackedParameter = "Y" then some kv.signalDataY
  else if kv.trackedParameter = "Z" then some kv.signalDataZ
  else none

/-- Body of `getYValueFromSignal` once the channel is known to be present and non-empty, each
operation of `y1 + (y2 - y1) * (x - x1) / (x2 - x1)` being the one of `double`. -/
def interpolateAt64 (signalData : List (Double × Double)) (x : Double) : Double :=
  let it := lower_bound64 signalData x
  if it = signalData.length then
    (signalData.getD (signalData.length - 1) (0, 0)).2
  else if it = 0 then
    (signalData.getD 0 (0, 0)).2
  else
    let x1 := (signalData.getD (it - 1) (0, 0)).1
    let y1 := (signalData.getD (it - 1) (0, 0)).2
    let x2 := (signalData.getD it (0, 0)).1
    let y2 := (signalData.getD it (0, 0)).2
    if x2 - x1 = 0 then y1
    else y1 + (y2 - y1) * (x - x1) / (x2 - x1)

/-- The method `KinematicVisualizer::getYValueFromSignal` in binary64. -/
def getYValueFromSignal64 (kv : SignalMembers) (x : Double) : Double :=
  match trackedSignalData64 kv with
  | none => 0
  | some signalData =>
    if signalData.isEmpty then 0 else interpolateAt64 signalData x

/-- The `adjustedY` of `updateCursorItems`, at which the horizontal line is placed: the
readout `y` plus `signalOffsets.value(key, 0.0)` for the tracked channel. -/
def adjustedY64 (kv : SignalMembers) (y : Double) : Double :=
  if kv.trackedParameter = "X" then y + (kv.signalOffsets "X").getD 0
  else if kv.trackedParameter = "Y" then y + (kv.signalOffsets "Y").getD 0
  else if kv.trackedParameter = "Z" then y + (kv.signalOffsets "Z").getD 0
  else y

/-- Value of `*std::min_element(begin, end)` on doubles; `none` is the dereference of `end`. -/
def min_element64 : List Double → Option Double
  | [] => none
  | a :: t => some (t.foldl (fun smallest v => if v < smallest then v else smallest) a)

/-- Value of `*std::max_element(begin, end)` on doubles; `none` is the dereference of `end`. -/
def max_element64 : List Double → Option Double
  | [] => none
  | a :: t => some (t.foldl (fun largest v => if largest < v then v else largest) a)

/-- First loop of `visualizeSignal` over the map, in key order: the running `globalMin` and
`globalMax`. -/
def globalRangeLoop64 :
    List (String × List Double) → Double × Double → Option (Double × Double)
  | [], g => some g
  | it :: rest, g =>
    match min_element64 it.2, max_element64 it.2 with
    | some localMin, some localMax =>
      globalRangeLoop64 rest
        (if localMin < g.1 then localMin else g.1, if localMax > g.2 then localMax else g.2)
    | _, _ => none

/-- The vector `x` of `visualizeSignal`: `x[i] = static_cast<double>(i) / samplingRate`. -/
def sampleTimes64 (size : Nat) (samplingRate : Int) : List Double :=
  (List.range size).map fun (i : Nat) => Double.ofInt i / Double.ofInt samplingRate

/-- The `key == "X"`, `"Y"`, `"Z"` chain of `visualizeSignal` that appends the pairs to the
stored samples of the channel. -/
def appendSignalData64 (kv : SignalMembers) (key : String) (pairs : List (Double × Double)) :
    SignalMembers :=
  if key = "X" then { kv with signalDataX := kv.signalDataX ++ pairs }
  else if key = "Y" then { kv with signalDataY := kv.signalDataY ++ pairs }
  else if key = "Z" then { kv with signalDataZ := kv.signalDataZ ++ pairs }
  else kv

/-- Body of the second loop of `visualizeSignal` for one map entry. The state is the members
of the instance, the graphs of its surface (name and data) and `maxTime`. Colours, pens and
the legend are not modelled, and `addGraph` is taken to return a graph. -/
def visualizeChannel64 (configName : String) (samplingRate : Int) (globalCenter : Double)
    (st : SignalMembers × List (String × List (Double × Double)) × Double)
    (it : String × List Double) :
    Option (SignalMembers × List (String × List (Double × Double)) × Double) :=
  let x := sampleTimes64 it.2.length samplingRate
  let key := it.1
  match min_element64 it.2, max_element64 it.2 with
  | some localMin, some localMax =>
    let localCenter := (localMax + localMin) / 2
    let offset := globalCenter - localCenter
    let kv1 : SignalMembers :=
      { st.1 with signalOffsets := Function.update st.1.signalOffsets key (some offset) }
    let yOffsetValues := it.2.map fun v => v + offset
    let name := if configName = key then configName else configName ++ " " ++ key
    let kv2 := appendSignalData64 kv1 key (x.zip it.2)
    let maxTime := if ¬ x.isEmpty ∧ x.getLastD 0 > st.2.2 then x.getLastD 0 else st.2.2
    some (kv2, st.2.1 ++ [(name, x.zip yOffsetValues)], maxTime)
  | _, _ => none

/-- Second loop of `visualizeSignal` over the map, in key order. -/
def visualizeLoop64 (configName : String) (samplingRate : Int) (globalCenter : Double) :
    List (String × List Double) →
      SignalMembers × List (String × List (Double × Double)) × Double →
      Option (SignalMembers × List (String × List (Double × Double)) × Double)
  | [], st => some st
  | it :: rest, st =>
    match visualizeChannel64 configName samplingRate globalCenter st it with
    | some st1 => visualizeLoop64 configName samplingRate globalCenter rest st1
    | none => none

/-- What `visualizeSignal` leaves behind: the members of the instance, the graphs of its
surface, and the arguments of the calls `xAxis->setRange` and `yAxis->setRange`. -/
structure Visualized64 where
  members : SignalMembers
  graphs : List (String × List (Double × Double))
  xAxisRange : Double × Double
  yAxisRange : Double × Double

/-- The method `visualizeSignal(dataMap, configName, penWidth, samplingRate)` in binary64;
the map is the list of its entries in key order, and `setupCustomPlot` has cleared the graphs
of the surface. The recorded pan and zoom limits, the legend and the top axis are not
modelled. -/
def visualizeSignal64 (dataMap : List (String × List Double)) (configName : String)
    (_penWidth : Int) (samplingRate : Int) (kv : SignalMembers) : Option Visualized64 :=
  let kv0 : SignalMembers :=
    { kv with signalDataX := [], signalDataY := [], signalDataZ := [] }
  match globalRangeLoop64 dataMap (Double.finite DBL_MAX, Double.finite (-DBL_MAX)) with
  | none => none
  | some (globalMin, globalMax) =>
    let globalCenter := (globalMax + globalMin) / 2
    match visualizeLoop64 configName samplingRate globalCenter dataMap (kv0, [], 0) with
    | none => none
    | some (kv1, graphs, maxTime) =>
      let padding0 := (globalMax - globalMin) * Double.round (1 / 10)
      let padding := if padding0 = 0 then 1 else padding0
      some
        { members := kv1
          graphs := graphs
          xAxisRange := (0, maxTime)
          yAxisRange := (globalMin - padding, globalMax + padding) }

/-- Samples with finite coordinates, as doubles. -/
def toDoubles (samples : List (ℚ × ℚ)) : List (Double × Double) :=
  samples.map fun p => (Double.finite p.1, Double.finite p.2)

/-- A map of channels with finite values, as doubles. -/
def toDoubleMap (dataMap : List (String × List ℚ)) : List (String × List Double) :=
  dataMap.map fun e => (e.1, e.2.map Double.finite)

/-- Members of an instance that tracks channel `"X"` holding the given samples. -/
def membersTracking (samples : List (Double × Double)) : SignalMembers :=
  { trackedParameter := "X"
    signalDataX := samples
    signalDataY := []
    signalDataZ := []
    signalOffsets := fun _ => none }

/-- The `localCenter` that `visualizeSignal` computes for a channel of finite values. -/
def localCenter64 (values : List ℚ) : Double :=
  (Double.finite ((max_element values).getD 0) +
    Double.finite ((min_element values).getD 0)) / 2

/-- The graph that `visualizeSignal` adds for one map entry of finite values. -/
def graphOf64 (configName : String) (samplingRate : Int) (globalCenter : Double)
    (it : String × List ℚ) : String × List (Double × Double) :=
  (if configName = it.1 then configName else configName ++ " " ++ it.1,
    (sampleTimes64 it.2.length samplingRate).zip
      (it.2.map fun v => Double.finite v + (globalCenter - localCenter64 it.2)))

/-- The map `signalOffsets` after the second loop has run over the entries. -/
def offsetsAfter64 (globalCenter : Double) (entries : List (String × List ℚ))
    (offsets : String → Option Double) : String → Option Double :=
  entries.foldl
    (fun m it => Function.update m it.1 (some (globalCenter - localCenter64 it.2))) offsets

/-- The stored samples of channel `c` after the second loop has run over the entries. -/
def dataAfter64 (samplingRate : Int) (c : String) (entries : List (String × List ℚ))
    (stored : List (Double × Double)) : List (Double × Double) :=
  entries.foldl
    (fun d it =>
      if it.1 = c then
        d ++ (sampleTimes64 it.2.length samplingRate).zip (it.2.map Double.finite)
      else d)
    stored

/-- Stored samples of the channel named `c`, for `c` one of `"X"`, `"Y"`, `"Z"`. -/
def signalDataOf64 (kv : SignalMembers) (c : String) : List (Double × Double) :=
  if c = "X" then kv.signalDataX
  else if c = "Y" then kv.signalDataY
  else if c = "Z" then kv.signalDataZ
  else []

/-- The `padding` that `visualizeSignal` computes from the global extremes. -/
def padding64 (globalMin globalMax : Double) : Double :=
  if (globalMax - globalMin) * Double.round (1 / 10) = 0 then 1
  else (globalMax - globalMin) * Double.round (1 / 10)

/-- The finite value of a double; 0 for an infinity or NaN. -/
def Double.toRat : Double → ℚ
  | Double.finite q => q
  | _ => 0

/-! ## Predicates on the shared state -/

/-- Item identifiers in use are below the allocation counter. -/
def FreshIds (w : World) : Prop :=
  ∀ e, e ∈ w.items → e.1 < w.nextId

/-- State of the shared selection: either the pointer is null and no rectangle item is
alive, or exactly one item is alive, it is attached to a surface and the pointer refers to
it. -/
def SelectionInvariant (w : World) : Prop :=
  (w.selectionRect = none ∧ w.items = []) ∨
  (∃ sel r plot, w.selectionRect = some sel ∧ w.items = [(sel, r)] ∧
    r.parentPlot = some plot ∧ sel < w.nextId)

/-- The instance has its own vertical line in `vLinesMap`, as `setupCursorItems` leaves it. -/
def HasGuide (w : World) (this : Nat) : Prop :=
  (w.vLinesMap (w.visualizers this).customPlot).isSome

/-- Fields of the shared state that the loops over `customPlots` leave alone. -/
def SameSelection (w w1 : World) : Prop :=
  w1.selectionRect = w.selectionRect ∧ w1.items = w.items ∧ w1.nextId = w.nextId ∧
  w1.customPlots = w.customPlots

/-- No instance changes its surface and no vertical line disappears from `vLinesMap`. -/
def Extends (w w1 : World) : Prop :=
  (∀ v, (w1.visualizers v).customPlot = (w.visualizers v).customPlot) ∧
  (∀ p, (w.vLinesMap p).isSome → (w1.vLinesMap p).isSome)

/-! ## Example states -/

/-- A surface with x-range `[0, 100]` and the given y-range, on which pixel `px` maps to the
coordinate `px` on either axis; its viewport is 100 by 100 pixels. -/
def exampleSurface (yLower yUpper : ℚ) : QCustomPlot :=
  { xRange := { lower := 0, upper := 100 }
    yRange := { lower := yLower, upper := yUpper }
    xPixelToCoord := fun _ px => (px : ℚ)
    yPixelToCoord := fun _ px => (px : ℚ)
    viewport := { left := 0, top := 0, width := 100, height := 100 }
    height := 100
    isSpectrogram := false
    signalsBlocked := false
    graphs := [] }

/-- State before any visualizer is constructed: the static list and map are empty and
`selectionRect` is null. -/
def emptyWorld : World :=
  { plots := fun _ => exampleSurface 0 1
    visualizers := fun _ => visualizerTracking []
    customPlots := []
    vLinesMap := fun _ => none
    selectionRect := none
    items := []
    nextId := 0 }

/-- One constructed visualizer (instance 0). -/
def oneSurface : World :=
  KinematicVisualizer.ctor (exampleSurface (-1) 1) emptyWorld

/-- Two constructed visualizers (instances 0 and 1). -/
def twoSurfaces : World :=
  KinematicVisualizer.ctor (exampleSurface 0 2) oneSurface

/-- Two channels: `"X"` with values 0, 10, 0 and `"Y"` with values 100, 104. -/
def exampleChannels : List (String × List ℚ) :=
  [("X", [0, 10, 0]), ("Y", [100, 104])]

/-- Three constructed visualizers (instances 0, 1, 2) with different y-ranges. -/
def threeSurfaces : World :=
  KinematicVisualizer.ctor (exampleSurface (-3) 3)
    (KinematicVisualizer.ctor (exampleSurface 0 2) oneSurface)

/-- A state of `oneSurface` holding a selection dragged right to left, from 50 to 20. -/
def rightToLeftSelection : World :=
  { oneSurface with
    selectionRect := some 1
    items := [(1, { parentPlot := some 0
                    topLeft := { x := 50, y := 1 }
                    bottomRight := { x := 20, y := -1 } })]
    nextId := 2 }

/-! ## Lemmas on the binary search -/

theorem sortedByX_getD {v : List (ℚ × ℚ)} (hs : SortedByX v) {i j : Nat}
    (hij : i ≤ j) (hj : j < v.length) : (v.getD i (0, 0)).1 ≤ (v.getD j (0, 0)).1 := by
  rcases Nat.eq_or_lt_of_le hij with h | h
  · subst h; exact le_refl _
  · have hi : i < v.length := lt_trans h hj
    rw [List.getD_eq_getElem _ _ hi, List.getD_eq_getElem _ _ hj]
    exact (List.pairwise_iff_getElem.mp hs) i j hi hj h

theorem lowerBoundLoop_spec (v : List (ℚ × ℚ)) (value : ℚ) (hs : SortedByX v) :
    ∀ fuel first len, len ≤ fuel → first + len ≤ v.length →
      (∀ i, i < first → (v.getD i (0, 0)).1 < value) →
      (∀ i, first + len ≤ i → i < v.length → ¬ (v.getD i (0, 0)).1 < value) →
      (lowerBoundLoop v value fuel first len ≤ v.length) ∧
      (∀ i, i < lowerBoundLoop v value fuel first len → (v.getD i (0, 0)).1 < value) ∧
      (∀ i, lowerBoundLoop v value fuel first len ≤ i → i < v.length →
        ¬ (v.getD i (0, 0)).1 < value) := by
  intro fuel
  induction fuel with
  | zero =>
    intro first len hl hb hlo hhi
    have hz : len = 0 := by omega
    subst hz
    simp only [lowerBoundLoop]
    exact ⟨by omega, hlo, fun i hi hn => hhi i (by omega) hn⟩
  | succ fuel ih =>
    intro first len hl hb hlo hhi
    unfold lowerBoundLoop
    by_cases hpos : 0 < len
    · simp only [hpos, if_true]
      have hhalf : len / 2 < len := Nat.div_lt_self hpos (by decide)
      have hmid : first + len / 2 < v.length := by omega
      by_cases hc : (v.getD (first + len / 2) (0, 0)).1 < value
      · simp only [hc, if_true]
        apply ih
        · omega
        · omega
        · intro i hi
          exact lt_of_le_of_lt (sortedByX_getD hs (by omega) hmid) hc
        · intro i hi hn
          exact hhi i (by omega) hn
      · simp only [hc, if_false]
        apply ih
        · omega
        · omega
        · exact hlo
        · intro i hi hn hlt
          exact hc (lt_of_le_of_lt (sortedByX_getD hs hi hn) hlt)
    · simp only [hpos, if_false]
      have hz : len = 0 := by omega
      subst hz
      exact ⟨by omega, hlo, fun i hi hn => hhi i (by omega) hn⟩

/-- On samples sorted by x, `lower_bound` returns the partition point: every sample before it
has `x`-value below `value`, no sample from it on has. -/
theorem lower_bound_spec (v : List (ℚ × ℚ)) (value : ℚ) (hs : SortedByX v) :
    lower_bound v value ≤ v.length ∧
    (∀ i, i < lower_bound v value → (v.getD i (0, 0)).1 < value) ∧
    (∀ i, lower_bound v value ≤ i → i < v.length → ¬ (v.getD i (0, 0)).1 < value) := by
  unfold lower_bound
  exact lowerBoundLoop_spec v value hs v.length 0 v.length (le_refl _) (by omega)
    (fun i hi => absurd hi (Nat.not_lt_zero i)) (fun i _ hn => absurd hn (by omega))

theorem getD_zero_eq_head (v : List (ℚ × ℚ)) (h : v ≠ []) : v.getD 0 (0, 0) = v.head h := by
  cases v with
  | nil => exact absurd rfl h
  | cons a t => rfl

theorem getD_last_eq_getLast (v : List (ℚ × ℚ)) (h : v ≠ []) :
    v.getD (v.length - 1) (0, 0) = v.getLast h := by
  have hpos : 0 < v.length := List.length_pos.mpr h
  rw [List.getD_eq_getElem _ _ (by omega), List.getLast_eq_getElem]

theorem getYValueFromSignal_eq_interpolateAt (kv : KinematicVisualizer)
    (samples : List (ℚ × ℚ)) (x : ℚ) (htr : trackedSignalData kv = some samples)
    (hne : samples ≠ []) : getYValueFromSignal kv x = interpolateAt samples x := by
  unfold getYValueFromSignal
  rw [htr]
  cases samples with
  | nil => exact absurd rfl hne
  | cons a t => simp

/-- At or below the first x the search stops at index 0 and the first y is returned. -/
theorem interpolateAt_le_first (samples : List (ℚ × ℚ)) (x : ℚ) (hs : SortedByX samples)
    (hne : samples ≠ []) (hx : x ≤ (samples.head hne).1) :
    interpolateAt samples x = (samples.head hne).2 := by
  obtain ⟨_, hlo, _⟩ := lower_bound_spec samples x hs
  have hpos : 0 < samples.length := List.length_pos.mpr hne
  have h0 : lower_bound samples x = 0 := by
    by_contra hcon
    have hlt := hlo 0 (Nat.pos_of_ne_zero hcon)
    rw [getD_zero_eq_head samples hne] at hlt
    exact absurd hx (not_le.mpr hlt)
  have hne0 : ¬ (0 = samples.length) := by omega
  unfold interpolateAt
  rw [h0]
  simp only [hne0, if_false, if_true]
  rw [getD_zero_eq_head samples hne]

/-- Above the last x the search returns `end` and the last y is returned. -/
theorem interpolateAt_gt_last (samples : List (ℚ × ℚ)) (x : ℚ) (hs : SortedByX samples)
    (hne : samples ≠ []) (hx : (samples.getLast hne).1 < x) :
    interpolateAt samples x = (samples.getLast hne).2 := by
  obtain ⟨hle, _, hhi⟩ := lower_bound_spec samples x hs
  have hpos : 0 < samples.length := List.length_pos.mpr hne
  have hend : lower_bound samples x = samples.length := by
    by_contra hcon
    have hlt : lower_bound samples x < samples.length := lt_of_le_of_ne hle hcon
    have hnot := hhi (samples.length - 1) (by omega) (by omega)
    rw [getD_last_eq_getLast samples hne] at hnot
    exact hnot hx
  unfold interpolateAt
  rw [hend]
  simp only [if_true]
  rw [getD_last_eq_getLast samples hne]

/-- Strictly inside the covered range the search stops at an index `j` with a predecessor,
`x` lies in `(x[j-1], x[j]]`, and the interpolation formula is evaluated on that pair. -/
theorem interpolateAt_inside (samples : List (ℚ × ℚ)) (x : ℚ) (hs : SortedByX samples)
    (hne : samples ≠ []) (hlo : (samples.head hne).1 < x) (hhi : x ≤ (samples.getLast hne).1) :
    0 < lower_bound samples x ∧ lower_bound samples x < samples.length ∧
    (samples.getD (lower_bound samples x - 1) (0, 0)).1 < x ∧
    x ≤ (samples.getD (lower_bound samples x) (0, 0)).1 ∧
    interpolateAt samples x =
      (samples.getD (lower_bound samples x - 1) (0, 0)).2 +
        ((samples.getD (lower_bound samples x) (0, 0)).2 -
          (samples.getD (lower_bound samples x - 1) (0, 0)).2) *
          (x - (samples.getD (lower_bound samples x - 1) (0, 0)).1) /
          ((samples.getD (lower_bound samples x) (0, 0)).1 -
            (samples.getD (lower_bound samples x - 1) (0, 0)).1) := by
  obtain ⟨hle, hbelow, habove⟩ := lower_bound_spec samples x hs
  have hpos : 0 < samples.length := List.length_pos.mpr hne
  have hj0 : 0 < lower_bound samples x := by
    apply Nat.pos_of_ne_zero
    intro hz
    have hnot := habove 0 (by omega) hpos
    rw [getD_zero_eq_head samples hne] at hnot
    exact hnot hlo
  have hjn : lower_bound samples x < samples.length := by
    apply lt_of_le_of_ne hle
    intro hend
    have hlt := hbelow (samples.length - 1) (by omega)
    rw [getD_last_eq_getLast samples hne] at hlt
    exact absurd hhi (not_le.mpr hlt)
  have h1 : (samples.getD (lower_bound samples x - 1) (0, 0)).1 < x :=
    hbelow _ (by omega)
  have h2 : x ≤ (samples.getD (lower_bound samples x) (0, 0)).1 :=
    not_lt.mp (habove _ (le_refl _) hjn)
  refine ⟨hj0, hjn, h1, h2, ?_⟩
  unfold interpolateAt
  simp only []
  rw [if_neg (by omega), if_neg (by omega), if_neg]
  intro hd
  have : (samples.getD (lower_bound samples x - 1) (0, 0)).1 <
      (samples.getD (lower_bound samples x) (0, 0)).1 := lt_of_lt_of_le h1 h2
  linarith

/-- The partition point of sorted samples is unique, so `lower_bound` returns any index that
separates the x-values below `value` from the rest. -/
theorem lower_bound_eq (samples : List (ℚ × ℚ)) (value : ℚ) (hs : SortedByX samples) (j : Nat)
    (hj : j < samples.length) (hbelow : ∀ i, i < j → (samples.getD i (0, 0)).1 < value)
    (hat : value ≤ (samples.getD j (0, 0)).1) : lower_bound samples value = j := by
  obtain ⟨_, hlo, hhi⟩ := lower_bound_spec samples value hs
  rcases Nat.lt_trichotomy (lower_bound samples value) j with h | h | h
  · exact absurd (hbelow _ h) (hhi _ (le_refl _) (lt_trans h hj))
  · exact h
  · exact absurd (hlo j h) (not_lt.mpr hat)

/-! ## Lemmas on binary64 arithmetic -/

theorem Double.finite_lt_finite (a b : ℚ) : Double.finite a < Double.finite b ↔ a < b := by
  show Double.lt (Double.finite a) (Double.finite b) = true ↔ a < b
  simp [Double.lt]

theorem Double.zero_eq : (0 : Double) = Double.finite 0 := by
  show Double.round ((0 : Nat) : ℚ) = Double.finite 0
  simp [Double.round]

theorem Double.div_finite (a b : ℚ) (hb : b ≠ 0) :
    Double.finite a / Double.finite b = Double.round (a / b) := by
  show Double.div (Double.finite a) (Double.finite b) = _
  simp [Double.div, hb]

theorem Double.sub_finite (a b : ℚ) :
    Double.finite a - Double.finite b = Double.round (a - b) := by
  show Double.add (Double.finite a) (Double.neg (Double.finite b)) = _
  simp [Double.add, Double.neg, sub_eq_add_neg]

theorem Double.log2Loop_spec : ∀ (fuel n : Nat), 1 ≤ n → n ≤ fuel →
    2 ^ Double.log2Loop fuel n ≤ n ∧ n < 2 ^ (Double.log2Loop fuel n + 1) := by
  intro fuel
  induction fuel with
  | zero => intro n h1 h2; omega
  | succ f ih =>
    intro n h1 h2
    unfold Double.log2Loop
    by_cases hn : n < 2
    · rw [if_pos hn]
      have : n = 1 := by omega
      subst this
      simp
    · rw [if_neg hn]
      obtain ⟨ha, hb⟩ := ih (n / 2) (by omega) (by omega)
      constructor
      · rw [pow_succ]; omega
      · rw [pow_succ]; omega

theorem Double.pow2_eq (e : Int) : Double.pow2 e = (2 : ℚ) ^ e := by
  unfold Double.pow2
  split_ifs with h
  · conv_rhs => rw [← Int.toNat_of_nonneg h]
    rw [zpow_natCast]
  · have h1 : 0 ≤ -e := by omega
    have h2 : e = -((-e).toNat : Int) := by rw [Int.toNat_of_nonneg h1]; ring
    conv_rhs => rw [h2]
    rw [zpow_neg, zpow_natCast, one_div]

theorem Double.floorLog2_spec (a : ℚ) (ha : 0 < a) :
    (2 : ℚ) ^ Double.floorLog2 a ≤ a ∧ a < (2 : ℚ) ^ (Double.floorLog2 a + 1) := by
  have hnum : 0 < a.num := Rat.num_pos.mpr ha
  have hN : 1 ≤ a.num.natAbs := by omega
  have hD : 1 ≤ a.den := a.den_pos
  obtain ⟨hN1, hN2⟩ := Double.log2Loop_spec a.num.natAbs a.num.natAbs hN (le_refl _)
  obtain ⟨hD1, hD2⟩ := Double.log2Loop_spec a.den a.den hD (le_refl _)
  have hfl : Double.floorLog2 a =
      if (2 : ℚ) ^ ((Double.log2Loop a.num.natAbs a.num.natAbs : Int) -
          (Double.log2Loop a.den a.den : Int)) ≤ a then
        (Double.log2Loop a.num.natAbs a.num.natAbs : Int) - (Double.log2Loop a.den a.den : Int)
      else
        (Double.log2Loop a.num.natAbs a.num.natAbs : Int) -
          (Double.log2Loop a.den a.den : Int) - 1 := by
    unfold Double.floorLog2
    simp only [Double.pow2_eq]
  generalize Double.log2Loop a.num.natAbs a.num.natAbs = LN at hN1 hN2 hfl
  generalize Double.log2Loop a.den a.den = LD at hD1 hD2 hfl
  have hNq : ((a.num.natAbs : Nat) : ℚ) = (a.num : ℚ) := by
    have hq : (0 : ℚ) < (a.num : ℚ) := by exact_mod_cast hnum
    rw [Nat.cast_natAbs, Int.cast_abs, abs_of_pos hq]
  have haeq : a = (a.num.natAbs : ℚ) / (a.den : ℚ) := by
    rw [hNq]; exact (Rat.num_div_den a).symm
  have hDpos : (0 : ℚ) < (a.den : ℚ) := by exact_mod_cast hD
  have hN1q : (2 : ℚ) ^ LN ≤ (a.num.natAbs : ℚ) := by exact_mod_cast hN1
  have hN2q : (a.num.natAbs : ℚ) < (2 : ℚ) ^ (LN + 1) := by exact_mod_cast hN2
  have hD1q : (2 : ℚ) ^ LD ≤ (a.den : ℚ) := by exact_mod_cast hD1
  have hD2q : (a.den : ℚ) < (2 : ℚ) ^ (LD + 1) := by exact_mod_cast hD2
  have h2 : (0 : ℚ) < 2 := by norm_num
  have h2ne : (2 : ℚ) ≠ 0 := by norm_num
  -- upper bound a < 2 ^ (LN - LD + 1)
  have hup : a < (2 : ℚ) ^ ((LN : Int) - (LD : Int) + 1) := by
    have e1 : (2 : ℚ) ^ ((LN : Int) - (LD : Int) + 1) = (2 : ℚ) ^ (LN + 1) / (2 : ℚ) ^ LD := by
      rw [show (LN : Int) - (LD : Int) + 1 = ((LN + 1 : Nat) : Int) - (LD : Int) by push_cast; ring,
        zpow_sub₀ h2ne, zpow_natCast, zpow_natCast]
    rw [e1, haeq, div_lt_div_iff₀ hDpos (by positivity)]
    calc (a.num.natAbs : ℚ) * (2 : ℚ) ^ LD ≤ (a.num.natAbs : ℚ) * (a.den : ℚ) :=
          mul_le_mul_of_nonneg_left hD1q (by positivity)
      _ < (2 : ℚ) ^ (LN + 1) * (a.den : ℚ) := mul_lt_mul_of_pos_right hN2q hDpos
  -- lower bound 2 ^ (LN - LD - 1) ≤ a
  have hlow : (2 : ℚ) ^ ((LN : Int) - (LD : Int) - 1) ≤ a := by
    have e1 : (2 : ℚ) ^ ((LN : Int) - (LD : Int) - 1) = (2 : ℚ) ^ LN / (2 : ℚ) ^ (LD + 1) := by
      rw [show (LN : Int) - (LD : Int) - 1 = ((LN : Nat) : Int) - ((LD + 1 : Nat) : Int) by
        push_cast; ring, zpow_sub₀ h2ne, zpow_natCast, zpow_natCast]
    rw [e1, haeq, div_le_div_iff₀ (by positivity) hDpos]
    calc (2 : ℚ) ^ LN * (a.den : ℚ) ≤ (a.num.natAbs : ℚ) * (a.den : ℚ) :=
          mul_le_mul_of_nonneg_right hN1q (le_of_lt hDpos)
      _ ≤ (a.num.natAbs : ℚ) * (2 : ℚ) ^ (LD + 1) :=
          mul_le_mul_of_nonneg_left (le_of_lt hD2q) (by positivity)
  rw [hfl]
  split_ifs with hc
  · exact ⟨hc, hup⟩
  · refine ⟨hlow, ?_⟩
    rw [show (LN : Int) - (LD : Int) - 1 + 1 = (LN : Int) - (LD : Int) by ring]
    exact not_le.mp hc

theorem Double.roundHalfEven_error (m : ℚ) :
    |(Double.roundHalfEven m : ℚ) - m| ≤ 1 / 2 := by
  have hf : m.floor = ⌊m⌋ := rfl
  have h1 : ((⌊m⌋ : Int) : ℚ) ≤ m := Int.floor_le m
  have h2 : m < ((⌊m⌋ : Int) : ℚ) + 1 := Int.lt_floor_add_one m
  unfold Double.roundHalfEven
  simp only [hf]
  split_ifs with ha hb hc
  · rw [abs_le]; constructor <;> linarith
  · rw [abs_le]; push_cast; constructor <;> linarith
  · have : m - ((⌊m⌋ : Int) : ℚ) = 1 / 2 := le_antisymm (not_lt.mp hb) (not_lt.mp ha)
    rw [abs_le]; constructor <;> linarith
  · have : m - ((⌊m⌋ : Int) : ℚ) = 1 / 2 := le_antisymm (not_lt.mp hb) (not_lt.mp ha)
    rw [abs_le]; push_cast; constructor <;> linarith

theorem Double.roundHalfEven_int (k : Int) : Double.roundHalfEven (k : ℚ) = k := by
  have hf : (k : ℚ).floor = ⌊(k : ℚ)⌋ := rfl
  unfold Double.roundHalfEven
  simp only [hf, Int.floor_intCast, sub_self]
  norm_num

theorem Double.round_pos (q : ℚ) (hq : 0 < q) :
    Double.round q =
      if (2 : ℚ) ^ (1024 : Int) ≤
          (Double.roundHalfEven (q / (2 : ℚ) ^ (max (Double.floorLog2 q) (-1022) - 52)) : ℚ) *
            (2 : ℚ) ^ (max (Double.floorLog2 q) (-1022) - 52) then
        Double.inf false
      else
        Double.finite
          ((Double.roundHalfEven (q / (2 : ℚ) ^ (max (Double.floorLog2 q) (-1022) - 52)) : ℚ) *
            (2 : ℚ) ^ (max (Double.floorLog2 q) (-1022) - 52)) := by
  unfold Double.round
  simp only [Double.pow2_eq, abs_of_pos hq, if_neg (ne_of_gt hq), if_neg (not_lt.mpr (le_of_lt hq)),
    decide_eq_false (not_lt.mpr (le_of_lt hq))]

/-- Rounding a positive number in the normal range gives a finite value within half a unit
in the last place, which is at most `2 ^ (-53)` of the number. -/
theorem Double.round_normal (q : ℚ) (hlo : (2 : ℚ) ^ (-1022 : Int) ≤ q)
    (hhi : q < (2 : ℚ) ^ (1023 : Int)) :
    ∃ r, Double.round q = Double.finite r ∧ |r - q| ≤ q / 2 ^ 53 := by
  have h2 : (1 : ℚ) < 2 := by norm_num
  have hq : 0 < q := lt_of_lt_of_le (by positivity) hlo
  obtain ⟨he1, he2⟩ := Double.floorLog2_spec q hq
  have hge : -1022 ≤ Double.floorLog2 q := by
    have := lt_of_le_of_lt hlo he2
    have := (zpow_lt_zpow_iff_right₀ h2).mp this
    omega
  have hle : Double.floorLog2 q ≤ 1022 := by
    have := lt_of_le_of_lt he1 hhi
    have := (zpow_lt_zpow_iff_right₀ h2).mp this
    omega
  have hround := Double.round_pos q hq
  rw [max_eq_left hge] at hround
  generalize Double.floorLog2 q = e at he1 he2 hge hle hround
  have hulp : (0 : ℚ) < (2 : ℚ) ^ (e - 52) := by positivity
  have herr := Double.roundHalfEven_error (q / (2 : ℚ) ^ (e - 52))
  have hr : |(Double.roundHalfEven (q / (2 : ℚ) ^ (e - 52)) : ℚ) * (2 : ℚ) ^ (e - 52) - q| ≤
      (2 : ℚ) ^ (e - 53) := by
    have e1 : (Double.roundHalfEven (q / (2 : ℚ) ^ (e - 52)) : ℚ) * (2 : ℚ) ^ (e - 52) - q =
        ((Double.roundHalfEven (q / (2 : ℚ) ^ (e - 52)) : ℚ) - q / (2 : ℚ) ^ (e - 52)) *
          (2 : ℚ) ^ (e - 52) := by
      field_simp
    have e2 : (2 : ℚ) ^ (e - 53) = 1 / 2 * (2 : ℚ) ^ (e - 52) := by
      rw [show e - 53 = (e - 52) - 1 by ring, zpow_sub₀ (by norm_num : (2 : ℚ) ≠ 0), zpow_one]
      ring
    rw [e1, abs_mul, abs_of_pos hulp, e2]
    exact mul_le_mul_of_nonneg_right herr (le_of_lt hulp)
  have h53 : (2 : ℚ) ^ (e - 53) ≤ q / 2 ^ 53 := by
    have h53' : (2 : ℚ) ^ (53 : Int) = (2 : ℚ) ^ (53 : Nat) := zpow_ofNat 2 53
    rw [zpow_sub₀ (by norm_num : (2 : ℚ) ≠ 0), h53']
    exact div_le_div_of_nonneg_right he1 (by positivity)
  have hbig : ¬ (2 : ℚ) ^ (1024 : Int) ≤
      (Double.roundHalfEven (q / (2 : ℚ) ^ (e - 52)) : ℚ) * (2 : ℚ) ^ (e - 52) := by
    rw [not_le]
    have hq2 : q / 2 ^ 53 ≤ q := div_le_self (le_of_lt hq) (by norm_num)
    have h1024 : (2 : ℚ) ^ (1024 : Int) = 2 * (2 : ℚ) ^ (1023 : Int) := by
      rw [show (1024 : Int) = 1023 + 1 by norm_num, zpow_add₀ (by norm_num : (2 : ℚ) ≠ 0),
        zpow_one]
      ring
    rw [h1024]
    have := (abs_le.mp hr).2
    linarith
  refine ⟨(Double.roundHalfEven (q / (2 : ℚ) ^ (e - 52)) : ℚ) * (2 : ℚ) ^ (e - 52), ?_,
    le_trans hr h53⟩
  rw [hround, if_neg hbig]

/-- Integers below `2 ^ 53` are doubles: the conversion of an `int` is exact. -/
theorem Double.round_natCast (n : Nat) (hn : n < 2 ^ 53) :
    Double.round (n : ℚ) = Double.finite (n : ℚ) := by
  rcases Nat.eq_zero_or_pos n with h0 | hpos
  · subst h0
    simp [Double.round]
  have h2 : (1 : ℚ) < 2 := by norm_num
  have h2ne : (2 : ℚ) ≠ 0 := by norm_num
  have hq : (0 : ℚ) < (n : ℚ) := by exact_mod_cast hpos
  obtain ⟨he1, he2⟩ := Double.floorLog2_spec (n : ℚ) hq
  have hge : 0 ≤ Double.floorLog2 (n : ℚ) := by
    have h1 : (2 : ℚ) ^ (0 : Int) ≤ (n : ℚ) := by
      rw [zpow_zero]; exact_mod_cast hpos
    have := (zpow_lt_zpow_iff_right₀ h2).mp (lt_of_le_of_lt h1 he2)
    omega
  have hle : Double.floorLog2 (n : ℚ) ≤ 52 := by
    have h1 : (n : ℚ) < (2 : ℚ) ^ (53 : Int) := by
      rw [zpow_ofNat]; exact_mod_cast hn
    have := (zpow_lt_zpow_iff_right₀ h2).mp (lt_of_le_of_lt he1 h1)
    omega
  have hround := Double.round_pos (n : ℚ) hq
  rw [max_eq_left (by omega : (-1022 : Int) ≤ Double.floorLog2 (n : ℚ))] at hround
  generalize Double.floorLog2 (n : ℚ) = e at he1 he2 hge hle hround
  obtain ⟨k, hk⟩ : ∃ k : Nat, (52 - e) = (k : Int) := ⟨(52 - e).toNat, by omega⟩
  have hpow : (2 : ℚ) ^ (e - 52) = 1 / (2 : ℚ) ^ k := by
    rw [show e - 52 = -(k : Int) by omega, zpow_neg, zpow_natCast, one_div]
  have hm : (n : ℚ) / (2 : ℚ) ^ (e - 52) = (((n * 2 ^ k : Nat) : Int) : ℚ) := by
    rw [hpow]
    push_cast
    field_simp
  rw [hm, Double.roundHalfEven_int] at hround
  have hr : ((((n * 2 ^ k : Nat) : Int) : ℚ)) * (2 : ℚ) ^ (e - 52) = (n : ℚ) := by
    rw [hpow]
    push_cast
    field_simp
  rw [hr] at hround
  rw [hround, if_neg]
  rw [not_le]
  have h1 : (n : ℚ) < (2 : ℚ) ^ (53 : Int) := by
    rw [zpow_ofNat]; exact_mod_cast hn
  exact lt_trans h1 ((zpow_lt_zpow_iff_right₀ h2).mpr (by norm_num))

theorem Double.ofInt_natCast (n : Nat) (hn : n < 2 ^ 53) :
    Double.ofInt (n : Int) = Double.finite (n : ℚ) := by
  unfold Double.ofInt
  rw [show (((n : Int)) : ℚ) = (n : ℚ) by push_cast; rfl]
  exact Double.round_natCast n hn

/-! ## Lemmas on the interpolation in binary64 -/

theorem toDoubles_length (v : List (ℚ × ℚ)) : (toDoubles v).length = v.length := by
  simp [toDoubles]

theorem toDoubles_getD (v : List (ℚ × ℚ)) (i : Nat) :
    (toDoubles v).getD i (0, 0) =
      (Double.finite (v.getD i (0, 0)).1, Double.finite (v.getD i (0, 0)).2) := by
  unfold toDoubles
  by_cases h : i < v.length
  · rw [List.getD_eq_getElem _ _ (by simpa using h), List.getD_eq_getElem _ _ h]
    simp
  · rw [List.getD_eq_default _ _ (by simpa using h), List.getD_eq_default _ _ (by omega)]
    simp [Double.zero_eq]

theorem lowerBoundLoop64_finite (v : List (ℚ × ℚ)) (x : ℚ) :
    ∀ (fuel first len : Nat),
      lowerBoundLoop64 (toDoubles v) (Double.finite x) fuel first len =
        lowerBoundLoop v x fuel first len := by
  intro fuel
  induction fuel with
  | zero => intro first len; rfl
  | succ n ih =>
    intro first len
    unfold lowerBoundLoop64 lowerBoundLoop
    simp only [toDoubles_getD, Double.finite_lt_finite, ih]

theorem lower_bound64_finite (v : List (ℚ × ℚ)) (x : ℚ) :
    lower_bound64 (toDoubles v) (Double.finite x) = lower_bound v x := by
  unfold lower_bound64 lower_bound
  rw [toDoubles_length, lowerBoundLoop64_finite]

/-- On samples with finite coordinates the double interpolation follows the branches of the
exact search and evaluates the expression of the source in doubles. -/
theorem interpolateAt64_finite (v : List (ℚ × ℚ)) (x : ℚ) :
    interpolateAt64 (toDoubles v) (Double.finite x) =
      if lower_bound v x = v.length then Double.finite (v.getD (v.length - 1) (0, 0)).2
      else if lower_bound v x = 0 then Double.finite (v.getD 0 (0, 0)).2
      else if Double.finite (v.getD (lower_bound v x) (0, 0)).1 -
          Double.finite (v.getD (lower_bound v x - 1) (0, 0)).1 = 0 then
        Double.finite (v.getD (lower_bound v x - 1) (0, 0)).2
      else
        Double.finite (v.getD (lower_bound v x - 1) (0, 0)).2 +
          (Double.finite (v.getD (lower_bound v x) (0, 0)).2 -
            Double.finite (v.getD (lower_bound v x - 1) (0, 0)).2) *
            (Double.finite x - Double.finite (v.getD (lower_bound v x - 1) (0, 0)).1) /
            (Double.finite (v.getD (lower_bound v x) (0, 0)).1 -
              Double.finite (v.getD (lower_bound v x - 1) (0, 0)).1) := by
  unfold interpolateAt64
  simp only [lower_bound64_finite, toDoubles_length, toDoubles_getD]

theorem getYValueFromSignal64_eq_interpolateAt64 (kv : SignalMembers)
    (samples : List (Double × Double)) (x : Double)
    (htr : trackedSignalData64 kv = some samples) (hne : samples ≠ []) :
    getYValueFromSignal64 kv x = interpolateAt64 samples x := by
  unfold getYValueFromSignal64
  rw [htr]
  cases samples with
  | nil => exact absurd rfl hne
  | cons a t => simp

theorem toDoubles_ne_nil {v : List (ℚ × ℚ)} (h : v ≠ []) : toDoubles v ≠ [] := by
  cases v with
  | nil => exact absurd rfl h
  | cons a t => simp [toDoubles]

/-- The exact value of the interpolation expression lies between the two sample values, and
is the second sample's value at its x. -/
theorem interpolation_exact_bracket (x1 y1 x2 y2 x : ℚ) (h1 : x1 < x) (h2 : x ≤ x2) :
    min y1 y2 ≤ y1 + (y2 - y1) * (x - x1) / (x2 - x1) ∧
    y1 + (y2 - y1) * (x - x1) / (x2 - x1) ≤ max y1 y2 ∧
    (x = x2 → y1 + (y2 - y1) * (x - x1) / (x2 - x1) = y2) := by
  have hd : 0 < x2 - x1 := by linarith
  have ht0 : 0 ≤ (x - x1) / (x2 - x1) := div_nonneg (by linarith) (le_of_lt hd)
  have ht1 : (x - x1) / (x2 - x1) ≤ 1 := (div_le_one hd).mpr (by linarith)
  refine ⟨?_, ?_, ?_⟩
  · rw [mul_div_assoc]
    generalize (x - x1) / (x2 - x1) = t at ht0 ht1
    rcases le_total y1 y2 with hy | hy
    · rw [min_eq_left hy]; nlinarith
    · rw [min_eq_right hy]; nlinarith
  · rw [mul_div_assoc]
    generalize (x - x1) / (x2 - x1) = t at ht0 ht1
    rcases le_total y1 y2 with hy | hy
    · rw [max_eq_right hy]; nlinarith
    · rw [max_eq_left hy]; nlinarith
  · intro hx
    rw [hx, mul_div_assoc, div_self (ne_of_gt hd)]
    ring

/-- Above the last x the double search returns `end` and the last y is returned. -/
theorem getYValueFromSignal64_gt_last (kv : SignalMembers) (samples : List (ℚ × ℚ)) (x : ℚ)
    (htr : trackedSignalData64 kv = some (toDoubles samples)) (hne : samples ≠ [])
    (hs : SortedByX samples) (hx : (samples.getLast hne).1 < x) :
    getYValueFromSignal64 kv (Double.finite x) = Double.finite (samples.getLast hne).2 := by
  rw [getYValueFromSignal64_eq_interpolateAt64 kv _ _ htr (toDoubles_ne_nil hne),
    interpolateAt64_finite]
  obtain ⟨hle, _, hhi⟩ := lower_bound_spec samples x hs
  have hpos : 0 < samples.length := List.length_pos.mpr hne
  have hend : lower_bound samples x = samples.length := by
    by_contra hcon
    have hlt : lower_bound samples x < samples.length := lt_of_le_of_ne hle hcon
    have hnot := hhi (samples.length - 1) (by omega) (by omega)
    rw [getD_last_eq_getLast samples hne] at hnot
    exact hnot hx
  rw [if_pos hend, getD_last_eq_getLast samples hne]

/-- At or below the last x the double search stops at the first sample `j` whose x is at
least `x`; the first y is returned when `j = 0`, and otherwise the expression of the source
is evaluated in doubles on samples `j - 1` and `j`. -/
theorem getYValueFromSignal64_le_last (kv : SignalMembers) (samples : List (ℚ × ℚ)) (x : ℚ)
    (htr : trackedSignalData64 kv = some (toDoubles samples)) (hne : samples ≠ [])
    (hs : SortedByX samples) (hhi : x ≤ (samples.getLast hne).1) :
    ∃ j, j < samples.length ∧
      (∀ i, i < j → (samples.getD i (0, 0)).1 < x) ∧ x ≤ (samples.getD j (0, 0)).1 ∧
      (j = 0 → getYValueFromSignal64 kv (Double.finite x) =
        Double.finite (samples.getD 0 (0, 0)).2) ∧
      (0 < j →
        getYValueFromSignal64 kv (Double.finite x) =
          if Double.finite (samples.getD j (0, 0)).1 -
              Double.finite (samples.getD (j - 1) (0, 0)).1 = 0 then
            Double.finite (samples.getD (j - 1) (0, 0)).2
          else
            Double.finite (samples.getD (j - 1) (0, 0)).2 +
              (Double.finite (samples.getD j (0, 0)).2 -
                Double.finite (samples.getD (j - 1) (0, 0)).2) *
                (Double.finite x - Double.finite (samples.getD (j - 1) (0, 0)).1) /
                (Double.finite (samples.getD j (0, 0)).1 -
                  Double.finite (samples.getD (j - 1) (0, 0)).1)) := by
  rw [getYValueFromSignal64_eq_interpolateAt64 kv _ _ htr (toDoubles_ne_nil hne),
    interpolateAt64_finite]
  obtain ⟨hle, hbelow, habove⟩ := lower_bound_spec samples x hs
  have hpos : 0 < samples.length := List.length_pos.mpr hne
  have hjn : lower_bound samples x < samples.length := by
    apply lt_of_le_of_ne hle
    intro hend
    have hlt := hbelow (samples.length - 1) (by omega)
    rw [getD_last_eq_getLast samples hne] at hlt
    exact absurd hhi (not_le.mpr hlt)
  have h2 : x ≤ (samples.getD (lower_bound samples x) (0, 0)).1 :=
    not_lt.mp (habove _ (le_refl _) hjn)
  refine ⟨lower_bound samples x, hjn, hbelow, h2, ?_, ?_⟩
  · intro h0
    rw [if_neg (by omega), if_pos h0]
  · intro hj
    rw [if_neg (by omega), if_neg (by omega)]

/-! ## Claims on the signal store -/

/-- C1: for a non-empty tracked channel with non-decreasing x-values, `getYValueFromSignal`
returns the first sample's y for every x at or below the first x, and the last sample's y for
every x strictly above the last x. -/
theorem getYValueFromSignal_boundary_clamp (kv : KinematicVisualizer)
    (samples : List (ℚ × ℚ)) (x : ℚ) (htr : trackedSignalData kv = some samples)
    (hne : samples ≠ []) (hs : SortedByX samples) :
    (x ≤ (samples.head hne).1 → getYValueFromSignal kv x = (samples.head hne).2) ∧
    ((samples.getLast hne).1 < x → getYValueFromSignal kv x = (samples.getLast hne).2) := by
  rw [getYValueFromSignal_eq_interpolateAt kv samples x htr hne]
  exact ⟨interpolateAt_le_first samples x hs hne, interpolateAt_gt_last samples x hs hne⟩

/-- Witness of C1 on the samples `[(0,0), (1,10), (2,0)]`, below the first x and above the
last x. -/
theorem getYValueFromSignal_boundary_clamp_witness :
    getYValueFromSignal (visualizerTracking [(0, 0), (1, 10), (2, 0)]) (-1) =
      (([(0, 0), (1, 10), (2, 0)] : List (ℚ × ℚ)).head (by simp)).2 ∧
    getYValueFromSignal (visualizerTracking [(0, 0), (1, 10), (2, 0)]) 3 =
      (([(0, 0), (1, 10), (2, 0)] : List (ℚ × ℚ)).getLast (by simp)).2 :=
  ⟨(getYValueFromSignal_boundary_clamp (visualizerTracking [(0, 0), (1, 10), (2, 0)])
      [(0, 0), (1, 10), (2, 0)] (-1) rfl (by simp) (by simp [SortedByX])).1 (by norm_num),
   (getYValueFromSignal_boundary_clamp (visualizerTracking [(0, 0), (1, 10), (2, 0)])
      [(0, 0), (1, 10), (2, 0)] 3 rfl (by simp) (by simp [SortedByX])).2 (by norm_num)⟩

/-- C2, as stated, fails: with the last x repeated, `[(0,0), (1,5), (1,7)]`, the value at
`x = 1` is 5, the y of the first sample at that x, not the y of the last sample. -/
theorem getYValueFromSignal_last_x_repeated :
    SortedByX [(0, 0), (1, 5), (1, 7)] ∧
    (([(0, 0), (1, 5), (1, 7)] : List (ℚ × ℚ)).getLast (by simp)).1 ≤ 1 ∧
    getYValueFromSignal (visualizerTracking [(0, 0), (1, 5), (1, 7)]) 1 = 5 ∧
    getYValueFromSignal (visualizerTracking [(0, 0), (1, 5), (1, 7)]) 1 ≠
      (([(0, 0), (1, 5), (1, 7)] : List (ℚ × ℚ)).getLast (by simp)).2 := by
  refine ⟨by simp [SortedByX], by norm_num, ?_, ?_⟩ <;>
    norm_num [getYValueFromSignal, trackedSignalData, visualizerTracking, interpolateAt,
      lower_bound, lowerBoundLoop]

/-- C2 (amended): for a non-empty tracked channel of finite samples with non-decreasing
x-values and every x strictly above the last x, `getYValueFromSignal` returns the last
sample's y. At x equal to the last x the search stops at the first sample `j` carrying that
x: the first sample's y is returned when `j = 0`, and otherwise the interpolation of the
source, `y1 + (y2 - y1) * (x - x1) / (x2 - x1)` on samples `j - 1` and `j` (`y1` when
`x2 - x1 == 0`), evaluated in binary64; that value is not promised to be the last sample's
y. -/
theorem getYValueFromSignal64_last_clamp (kv : SignalMembers) (samples : List (ℚ × ℚ))
    (x : ℚ) (htr : trackedSignalData64 kv = some (toDoubles samples)) (hne : samples ≠ [])
    (hs : SortedByX samples) :
    ((samples.getLast hne).1 < x →
      getYValueFromSignal64 kv (Double.finite x) = Double.finite (samples.getLast hne).2) ∧
    (x = (samples.getLast hne).1 →
      ∃ j, j < samples.length ∧
        (∀ i, i < j → (samples.getD i (0, 0)).1 < x) ∧ (samples.getD j (0, 0)).1 = x ∧
        (j = 0 → getYValueFromSignal64 kv (Double.finite x) =
          Double.finite (samples.getD 0 (0, 0)).2) ∧
        (0 < j →
          getYValueFromSignal64 kv (Double.finite x) =
            if Double.finite (samples.getD j (0, 0)).1 -
                Double.finite (samples.getD (j - 1) (0, 0)).1 = 0 then
              Double.finite (samples.getD (j - 1) (0, 0)).2
            else
              Double.finite (samples.getD (j - 1) (0, 0)).2 +
                (Double.finite (samples.getD j (0, 0)).2 -
                  Double.finite (samples.getD (j - 1) (0, 0)).2) *
                  (Double.finite x - Double.finite (samples.getD (j - 1) (0, 0)).1) /
                  (Double.finite (samples.getD j (0, 0)).1 -
                    Double.finite (samples.getD (j - 1) (0, 0)).1))) := by
  refine ⟨getYValueFromSignal64_gt_last kv samples x htr hne hs, ?_⟩
  intro hx
  obtain ⟨j, hj, hbelow, hat, h0, hpos⟩ :=
    getYValueFromSignal64_le_last kv samples x htr hne hs (le_of_eq hx)
  refine ⟨j, hj, hbelow, ?_, h0, hpos⟩
  apply le_antisymm _ hat
  have hlen : 0 < samples.length := List.length_pos.mpr hne
  have := sortedByX_getD hs (show j ≤ samples.length - 1 by omega) (by omega)
  rw [getD_last_eq_getLast samples hne, ← hx] at this
  exact this

/-- Witness of the amended C2 on `[(0,0), (1,10), (2,0)]` at `x = 3`, above the last x. -/
theorem getYValueFromSignal64_last_clamp_witness :
    SortedByX [(0, 0), (1, 10), (2, 0)] ∧
    (([(0, 0), (1, 10), (2, 0)] : List (ℚ × ℚ)).getLast (by simp)).1 < 3 ∧
    getYValueFromSignal64 (membersTracking (toDoubles [(0, 0), (1, 10), (2, 0)]))
      (Double.finite 3) =
      Double.finite (([(0, 0), (1, 10), (2, 0)] : List (ℚ × ℚ)).getLast (by simp)).2 :=
  ⟨by norm_num [SortedByX], by norm_num,
    (getYValueFromSignal64_last_clamp (membersTracking (toDoubles [(0, 0), (1, 10), (2, 0)]))
      [(0, 0), (1, 10), (2, 0)] 3 rfl (by simp) (by norm_num [SortedByX])).1 (by norm_num)⟩

/-- C3: for a tracked channel with non-decreasing x-values and every x strictly above the
first x and not above the last x, there is a first sample `j` whose x is at least `x`, it has
a predecessor, and `getYValueFromSignal` returns `y1 + (y2-y1)*(x-x1)/(x2-x1)` on the pair
`(j-1, j)`, or `y1` when `x2 = x1`. On `[(0,0), (1,10), (2,0)]` the values at 0.5, 1.5, -1
and 3 are 5, 5, 0 and 0. -/
theorem getYValueFromSignal_interpolates (kv : KinematicVisualizer)
    (samples : List (ℚ × ℚ)) (x : ℚ) (htr : trackedSignalData kv = some samples)
    (hne : samples ≠ []) (hs : SortedByX samples) (hlo : (samples.head hne).1 < x)
    (hhi : x ≤ (samples.getLast hne).1) :
    (∃ j, 0 < j ∧ j < samples.length ∧
      (∀ i, i < j → (samples.getD i (0, 0)).1 < x) ∧ x ≤ (samples.getD j (0, 0)).1 ∧
      getYValueFromSignal kv x =
        if (samples.getD j (0, 0)).1 = (samples.getD (j - 1) (0, 0)).1 then
          (samples.getD (j - 1) (0, 0)).2
        else
          (samples.getD (j - 1) (0, 0)).2 +
            ((samples.getD j (0, 0)).2 - (samples.getD (j - 1) (0, 0)).2) *
              (x - (samples.getD (j - 1) (0, 0)).1) /
              ((samples.getD j (0, 0)).1 - (samples.getD (j - 1) (0, 0)).1)) ∧
    getYValueFromSignal (visualizerTracking [(0, 0), (1, 10), (2, 0)]) (1 / 2) = 5 ∧
    getYValueFromSignal (visualizerTracking [(0, 0), (1, 10), (2, 0)]) (3 / 2) = 5 ∧
    getYValueFromSignal (visualizerTracking [(0, 0), (1, 10), (2, 0)]) (-1) = 0 ∧
    getYValueFromSignal (visualizerTracking [(0, 0), (1, 10), (2, 0)]) 3 = 0 := by
  refine ⟨?_, ?_, ?_, ?_, ?_⟩
  · obtain ⟨hj0, hjn, h1, h2, heq⟩ := interpolateAt_inside samples x hs hne hlo hhi
    obtain ⟨_, hbelow, _⟩ := lower_bound_spec samples x hs
    refine ⟨lower_bound samples x, hj0, hjn, hbelow, h2, ?_⟩
    rw [getYValueFromSignal_eq_interpolateAt kv samples x htr hne, heq, if_neg]
    exact ne_of_gt (lt_of_lt_of_le h1 h2)
  all_goals
    norm_num [getYValueFromSignal, trackedSignalData, visualizerTracking, interpolateAt,
      lower_bound, lowerBoundLoop]

/-- Witness of C3 on `[(0,0), (1,10), (2,0)]` at `x = 1/2`, between the first two samples. -/
theorem getYValueFromSignal_interpolates_witness :
    (([(0, 0), (1, 10), (2, 0)] : List (ℚ × ℚ)).head (by simp)).1 < 1 / 2 ∧
    (1 / 2 : ℚ) ≤ (([(0, 0), (1, 10), (2, 0)] : List (ℚ × ℚ)).getLast (by simp)).1 ∧
    getYValueFromSignal (visualizerTracking [(0, 0), (1, 10), (2, 0)]) (1 / 2) = 5 :=
  ⟨by norm_num, by norm_num,
   (getYValueFromSignal_interpolates (visualizerTracking [(0, 0), (1, 10), (2, 0)])
      [(0, 0), (1, 10), (2, 0)] (1 / 2) rfl (by simp) (by simp [SortedByX]) (by norm_num)
      (by norm_num)).2.1⟩

/-- C4, as stated, fails. In binary64 the samples `[(0, 1e16), (1, 1)]` give 0 at `x = 1`,
below both sample values and not the y of the sample at that x; the samples
`[(0, 0.3), (1, 0.9)]` (the doubles nearest to 0.3 and 0.9) give 0.9000000000000001 at
`x = 1`, above both sample values. With a repeated x, `[(0,0), (2,4), (2,6), (3,0)]`, the
value at `x = 2` is 4, not the y of the sample `(2, 6)` located at that x; this last
evaluation involves no rounding. -/
theorem getYValueFromSignal64_leaves_bracket :
    Double.round 10000000000000000 = Double.finite 10000000000000000 ∧
    SortedByX [(0, 10000000000000000), (1, 1)] ∧
    getYValueFromSignal64 (membersTracking (toDoubles [(0, 10000000000000000), (1, 1)]))
      (Double.finite 1) = Double.finite 0 ∧
    (0 : ℚ) < min 10000000000000000 1 ∧
    Double.round (3 / 10) = Double.finite (5404319552844595 / 18014398509481984) ∧
    Double.round (9 / 10) = Double.finite (8106479329266893 / 9007199254740992) ∧
    SortedByX [(0, 5404319552844595 / 18014398509481984),
      (1, 8106479329266893 / 9007199254740992)] ∧
    getYValueFromSignal64
      (membersTracking (toDoubles [(0, 5404319552844595 / 18014398509481984),
        (1, 8106479329266893 / 9007199254740992)]))
      (Double.finite 1) = Double.finite (4053239664633447 / 4503599627370496) ∧
    max (5404319552844595 / 18014398509481984 : ℚ) (8106479329266893 / 9007199254740992) <
      4053239664633447 / 4503599627370496 ∧
    SortedByX [(0, 0), (2, 4), (2, 6), (3, 0)] ∧
    getYValueFromSignal64 (membersTracking (toDoubles [(0, 0), (2, 4), (2, 6), (3, 0)]))
      (Double.finite 2) = Double.finite 4 := by
  refine ⟨by decide!, by norm_num [SortedByX], by decide!, by norm_num, by decide!, by decide!,
    by norm_num [SortedByX], by decide!, by norm_num, by norm_num [SortedByX], by decide!⟩

/-- C4 (amended): for a tracked channel of finite samples with x-values sorted ascending
and every x not above the last x (in particular within `[x_min, x_max]`), let `j` be the
first sample whose x is at least `x`. When `j = 0` the first sample's y is returned. Otherwise
`x1 < x ≤ x2` for the samples `j - 1` and `j`, and the value returned is the interpolation
of the source, `y1 + (y2 - y1) * (x - x1) / (x2 - x1)` (`y1` when `x2 - x1 == 0`), evaluated
in binary64. The exact value of that expression lies between `min(y1, y2)` and
`max(y1, y2)` and is `y2` when `x = x2`; the value returned agrees with it up to the rounding
of the four operations. -/
theorem getYValueFromSignal64_bracket (kv : SignalMembers)
    (samples : List (ℚ × ℚ)) (x : ℚ) (htr : trackedSignalData64 kv = some (toDoubles samples))
    (hne : samples ≠ []) (hs : SortedByX samples) (hhi : x ≤ (samples.getLast hne).1) :
    ∃ j, j < samples.length ∧
      (∀ i, i < j → (samples.getD i (0, 0)).1 < x) ∧ x ≤ (samples.getD j (0, 0)).1 ∧
      (j = 0 → getYValueFromSignal64 kv (Double.finite x) =
        Double.finite (samples.getD 0 (0, 0)).2) ∧
      (0 < j →
        getYValueFromSignal64 kv (Double.finite x) =
          (if Double.finite (samples.getD j (0, 0)).1 -
              Double.finite (samples.getD (j - 1) (0, 0)).1 = 0 then
            Double.finite (samples.getD (j - 1) (0, 0)).2
          else
            Double.finite (samples.getD (j - 1) (0, 0)).2 +
              (Double.finite (samples.getD j (0, 0)).2 -
                Double.finite (samples.getD (j - 1) (0, 0)).2) *
                (Double.finite x - Double.finite (samples.getD (j - 1) (0, 0)).1) /
                (Double.finite (samples.getD j (0, 0)).1 -
                  Double.finite (samples.getD (j - 1) (0, 0)).1)) ∧
        min (samples.getD (j - 1) (0, 0)).2 (samples.getD j (0, 0)).2 ≤
          (samples.getD (j - 1) (0, 0)).2 +
            ((samples.getD j (0, 0)).2 - (samples.getD (j - 1) (0, 0)).2) *
              (x - (samples.getD (j - 1) (0, 0)).1) /
              ((samples.getD j (0, 0)).1 - (samples.getD (j - 1) (0, 0)).1) ∧
        (samples.getD (j - 1) (0, 0)).2 +
            ((samples.getD j (0, 0)).2 - (samples.getD (j - 1) (0, 0)).2) *
              (x - (samples.getD (j - 1) (0, 0)).1) /
              ((samples.getD j (0, 0)).1 - (samples.getD (j - 1) (0, 0)).1) ≤
          max (samples.getD (j - 1) (0, 0)).2 (samples.getD j (0, 0)).2 ∧
        (x = (samples.getD j (0, 0)).1 →
          (samples.getD (j - 1) (0, 0)).2 +
            ((samples.getD j (0, 0)).2 - (samples.getD (j - 1) (0, 0)).2) *
              (x - (samples.getD (j - 1) (0, 0)).1) /
              ((samples.getD j (0, 0)).1 - (samples.getD (j - 1) (0, 0)).1) =
          (samples.getD j (0, 0)).2)) := by
  obtain ⟨j, hj, hbelow, hat, h0, hpos⟩ :=
    getYValueFromSignal64_le_last kv samples x htr hne hs hhi
  refine ⟨j, hj, hbelow, hat, h0, ?_⟩
  intro hj0
  obtain ⟨hb1, hb2, hb3⟩ := interpolation_exact_bracket _
    (samples.getD (j - 1) (0, 0)).2 _ (samples.getD j (0, 0)).2 x (hbelow (j - 1) (by omega)) hat
  exact ⟨hpos hj0, hb1, hb2, hb3⟩

/-- Witness of the amended C4 on `[(0,0), (1,10), (2,0)]` at `x = 1`, the x of the second
sample, where no operation rounds. -/
theorem getYValueFromSignal64_bracket_witness :
    SortedByX [(0, 0), (1, 10), (2, 0)] ∧
    (1 : ℚ) ≤ (([(0, 0), (1, 10), (2, 0)] : List (ℚ × ℚ)).getLast (by simp)).1 ∧
    getYValueFromSignal64 (membersTracking (toDoubles [(0, 0), (1, 10), (2, 0)]))
      (Double.finite 1) = Double.finite 10 := by
  refine ⟨by norm_num [SortedByX], by norm_num, ?_⟩
  obtain ⟨j, hj, hbelow, hat, _, hpos⟩ :=
    getYValueFromSignal64_bracket (membersTracking (toDoubles [(0, 0), (1, 10), (2, 0)]))
      [(0, 0), (1, 10), (2, 0)] 1 rfl (by simp) (by norm_num [SortedByX]) (by norm_num)
  have hj3 : j < 3 := hj
  have hj1 : j = 1 := by
    interval_cases j
    · exfalso
      norm_num at hat
    · rfl
    · exfalso
      have := hbelow 1 (by norm_num)
      norm_num at this
  subst hj1
  rw [(hpos (by norm_num)).1]
  decide!

/-- C5: `getYValueFromSignal` returns 0 for every x when the tracked parameter is none of
`"X"`, `"Y"`, `"Z"`, when it names a channel whose stored sequence is empty, and on an
instance fresh from the constructor, whose tracked parameter was never set. -/
theorem getYValueFromSignal_no_data (kv : KinematicVisualizer) (x : ℚ) :
    (kv.trackedParameter ≠ "X" ∧ kv.trackedParameter ≠ "Y" ∧ kv.trackedParameter ≠ "Z" →
      getYValueFromSignal kv x = 0) ∧
    (trackedSignalData kv = some [] → getYValueFromSignal kv x = 0) ∧
    (∀ (surface : QCustomPlot) (w : World),
      getYValueFromSignal ((KinematicVisualizer.ctor surface w).visualizers w.nextId) x = 0) := by
  refine ⟨?_, ?_, ?_⟩
  · rintro ⟨hX, hY, hZ⟩
    simp [getYValueFromSignal, trackedSignalData, hX, hY, hZ]
  · intro h
    simp [getYValueFromSignal, h]
  · intro surface w
    simp [getYValueFromSignal, trackedSignalData, KinematicVisualizer.ctor, setupCursorItems]

/-- Witness of C5: an instance tracking `"X"` with an empty stored sequence. -/
theorem getYValueFromSignal_no_data_witness :
    trackedSignalData (visualizerTracking []) = some [] ∧
    getYValueFromSignal (visualizerTracking []) 7 = 0 :=
  ⟨rfl, (getYValueFromSignal_no_data (visualizerTracking []) 7).2.1 rfl⟩

/-! ## Lemmas on the shared state -/

theorem foldl_invariant {α : Type} (step : World → α → World) (P : World → Prop)
    (hstep : ∀ w a, P w → P (step w a)) : ∀ (l : List α) (w : World), P w → P (l.foldl step w)
  | [], _, h => h
  | a :: l, w, h => foldl_invariant step P hstep l (step w a) (hstep w a h)

theorem sameSelection_refl (w : World) : SameSelection w w := ⟨rfl, rfl, rfl, rfl⟩

theorem hideVerticalLineStep_frame (w : World) (plot : Nat) :
    SameSelection w (hideVerticalLineStep w plot) ∧
    (hideVerticalLineStep w plot).plots = w.plots ∧
    (hideVerticalLineStep w plot).visualizers = w.visualizers := by
  unfold hideVerticalLineStep
  cases h : w.vLinesMap plot <;> exact ⟨⟨rfl, rfl, rfl, rfl⟩, rfl, rfl⟩

theorem hideAllVerticalLines_frame (w : World) :
    SameSelection w (hideAllVerticalLines w) ∧
    (hideAllVerticalLines w).plots = w.plots ∧
    (hideAllVerticalLines w).visualizers = w.visualizers := by
  unfold hideAllVerticalLines
  apply foldl_invariant hideVerticalLineStep
    (fun w1 => SameSelection w w1 ∧ w1.plots = w.plots ∧ w1.visualizers = w.visualizers)
  · intro w1 a ⟨⟨h1, h2, h3, h4⟩, hp, hv⟩
    obtain ⟨⟨g1, g2, g3, g4⟩, gp, gv⟩ := hideVerticalLineStep_frame w1 a
    exact ⟨⟨g1.trans h1, g2.trans h2, g3.trans h3, g4.trans h4⟩, gp.trans hp, gv.trans hv⟩
  · exact ⟨sameSelection_refl w, rfl, rfl⟩

theorem updateVerticalLineStep_frame (x : ℚ) (w : World) (plot : Nat) :
    SameSelection w (updateVerticalLineStep x w plot) ∧
    (updateVerticalLineStep x w plot).plots = w.plots ∧
    (updateVerticalLineStep x w plot).visualizers = w.visualizers := by
  unfold updateVerticalLineStep
  cases h : w.vLinesMap plot <;> exact ⟨⟨rfl, rfl, rfl, rfl⟩, rfl, rfl⟩

theorem updateVerticalLineInAllPlots_frame (x : ℚ) (w : World) :
    SameSelection w (updateVerticalLineInAllPlots x w) ∧
    (updateVerticalLineInAllPlots x w).plots = w.plots ∧
    (updateVerticalLineInAllPlots x w).visualizers = w.visualizers := by
  unfold updateVerticalLineInAllPlots
  apply foldl_invariant (updateVerticalLineStep x)
    (fun w1 => SameSelection w w1 ∧ w1.plots = w.plots ∧ w1.visualizers = w.visualizers)
  · intro w1 a ⟨⟨h1, h2, h3, h4⟩, hp, hv⟩
    obtain ⟨⟨g1, g2, g3, g4⟩, gp, gv⟩ := updateVerticalLineStep_frame x w1 a
    exact ⟨⟨g1.trans h1, g2.trans h2, g3.trans h3, g4.trans h4⟩, gp.trans hp, gv.trans hv⟩
  · exact ⟨sameSelection_refl w, rfl, rfl⟩

/-- Value of `vLinesMap` after the hiding loop has run over a list of surfaces. -/
theorem hideVerticalLine_foldl (l : List Nat) :
    ∀ (w : World) (p : Nat),
      (l.foldl hideVerticalLineStep w).vLinesMap p =
        if p ∈ l then (w.vLinesMap p).map fun vLine => { vLine with visible := false }
        else w.vLinesMap p := by
  induction l with
  | nil => intro w p; simp
  | cons a l ih =>
    intro w p
    rw [List.foldl_cons, ih]
    by_cases hpa : p = a
    · subst hpa
      unfold hideVerticalLineStep
      cases h : w.vLinesMap p <;> by_cases hm : p ∈ l <;> simp [hm, h]
    · have hstep : (hideVerticalLineStep w a).vLinesMap p = w.vLinesMap p := by
        unfold hideVerticalLineStep
        cases h : w.vLinesMap a <;> simp [Function.update_noteq hpa]
      rw [hstep]
      by_cases hm : p ∈ l <;> simp [hm, hpa]

/-- Value of `vLinesMap` after the update loop has run over a list of surfaces. -/
theorem updateVerticalLine_foldl (x : ℚ) (l : List Nat) :
    ∀ (w : World) (p : Nat),
      (l.foldl (updateVerticalLineStep x) w).vLinesMap p =
        if p ∈ l then (w.vLinesMap p).map fun _ =>
          { start := { x := x, y := (w.plots p).yRange.lower }
            end_ := { x := x, y := (w.plots p).yRange.upper }
            visible := true }
        else w.vLinesMap p := by
  induction l with
  | nil => intro w p; simp
  | cons a l ih =>
    intro w p
    rw [List.foldl_cons, ih, (updateVerticalLineStep_frame x w a).2.1]
    by_cases hpa : p = a
    · subst hpa
      unfold updateVerticalLineStep
      cases h : w.vLinesMap p <;> by_cases hm : p ∈ l <;> simp [hm, h]
    · have hstep : (updateVerticalLineStep x w a).vLinesMap p = w.vLinesMap p := by
        unfold updateVerticalLineStep
        cases h : w.vLinesMap a <;> simp [Function.update_noteq hpa]
      rw [hstep]
      by_cases hm : p ∈ l <;> simp [hm, hpa]

theorem ctor_customPlots (surface : QCustomPlot) (w : World) :
    (KinematicVisualizer.ctor surface w).customPlots = w.customPlots ++ [w.nextId] := by
  simp [KinematicVisualizer.ctor, setupCursorItems]

theorem ctor_vLinesMap (surface : QCustomPlot) (w : World) :
    (KinematicVisualizer.ctor surface w).vLinesMap =
      Function.update w.vLinesMap w.nextId
        (some { start := { x := 0, y := 0 }, end_ := { x := 1, y := 1 }, visible := false }) := by
  simp [KinematicVisualizer.ctor, setupCursorItems]

theorem ctor_plots (surface : QCustomPlot) (w : World) :
    (KinematicVisualizer.ctor surface w).plots = Function.update w.plots w.nextId surface := by
  simp [KinematicVisualizer.ctor, setupCursorItems]

theorem ctor_nextId (surface : QCustomPlot) (w : World) :
    (KinematicVisualizer.ctor surface w).nextId = w.nextId + 1 := by
  simp [KinematicVisualizer.ctor, setupCursorItems]

theorem ctor_guidesPresent (surface : QCustomPlot) (w : World) (h : GuidesPresent w) :
    GuidesPresent (KinematicVisualizer.ctor surface w) := by
  intro plot hp
  rw [ctor_customPlots] at hp
  rw [ctor_vLinesMap]
  by_cases hpn : plot = w.nextId
  · subst hpn; simp
  · rw [Function.update_noteq hpn]
    rcases List.mem_append.mp hp with hm | hm
    · exact h plot hm
    · exact absurd (List.mem_singleton.mp hm) hpn

theorem getSelectionRange_range_eq (w : World) (sel : Nat) (r : QCPItemRect)
    (hsel : w.selectionRect = some sel) (hr : w.rectAt sel = some r) :
    getSelectionRange w = some (QCPRange.make r.topLeft.x r.bottomRight.x) ∧
    QCPRange.make r.topLeft.x r.bottomRight.x =
      { lower := min r.topLeft.x r.bottomRight.x
        upper := max r.topLeft.x r.bottomRight.x } := by
  constructor
  · simp only [getSelectionRange, hsel, hr]
  · unfold QCPRange.make
    by_cases h : r.topLeft.x > r.bottomRight.x
    · rw [if_pos h, min_eq_right (le_of_lt h), max_eq_left (le_of_lt h)]
    · rw [if_neg h, min_eq_left (not_lt.mp h), max_eq_right (not_lt.mp h)]

/-! ## Claims on the selection range and the vertical guides -/

/-- C6: `getSelectionRange` returns `(min(topLeft.x, bottomRight.x), max(...))` whenever the
shared pointer refers to a rectangle, whatever the order of its corner x-values, and `(0, 0)`
when the pointer is null. -/
theorem getSelectionRange_normalized (w : World) :
    (∀ sel r, w.selectionRect = some sel → w.rectAt sel = some r →
      getSelectionRange w =
        some { lower := min r.topLeft.x r.bottomRight.x
               upper := max r.topLeft.x r.bottomRight.x }) ∧
    (w.selectionRect = none → getSelectionRange w = some { lower := 0, upper := 0 }) := by
  constructor
  · intro sel r hsel hr
    simp only [getSelectionRange, hsel, hr, QCPRange.make]
    by_cases h : r.topLeft.x > r.bottomRight.x
    · rw [if_pos h, min_eq_right (le_of_lt h), max_eq_left (le_of_lt h)]
    · rw [if_neg h, min_eq_left (not_lt.mp h), max_eq_right (not_lt.mp h)]
  · intro hsel
    simp [getSelectionRange, hsel, QCPRange.make]

/-- Witness of C6: a right-to-left drag from 50 to 20 yields the range `(20, 50)`. -/
theorem getSelectionRange_normalized_witness :
    getSelectionRange rightToLeftSelection = some { lower := 20, upper := 50 } := by
  have h := (getSelectionRange_normalized rightToLeftSelection).1 1
    { parentPlot := some 0, topLeft := { x := 50, y := 1 }, bottomRight := { x := 20, y := -1 } }
    rfl (by simp [World.rectAt, rightToLeftSelection])
  rw [h]
  norm_num

/-- C10: when every registered surface has its vertical line, after
`updateVerticalLineInAllPlots x` each registered surface's line is visible with end points
`(x, yRange.lower)` and `(x, yRange.upper)` of that surface, and after `hideAllVerticalLines`
each registered surface's line is invisible. The constructor keeps the premise. -/
theorem updateVerticalLineInAllPlots_broadcast (w : World) (x : ℚ) (h : GuidesPresent w) :
    (∀ plot, plot ∈ w.customPlots →
      (updateVerticalLineInAllPlots x w).vLinesMap plot =
        some { start := { x := x, y := (w.plots plot).yRange.lower }
               end_ := { x := x, y := (w.plots plot).yRange.upper }
               visible := true } ∧
      (updateVerticalLineInAllPlots x w).plots plot = w.plots plot) ∧
    (∀ plot, plot ∈ w.customPlots →
      ∃ vLine, (hideAllVerticalLines w).vLinesMap plot = some vLine ∧ vLine.visible = false) ∧
    (∀ surface, GuidesPresent (KinematicVisualizer.ctor surface w)) := by
  refine ⟨?_, ?_, fun surface => ctor_guidesPresent surface w h⟩
  · intro plot hp
    obtain ⟨v, hv⟩ := Option.isSome_iff_exists.mp (h plot hp)
    constructor
    · unfold updateVerticalLineInAllPlots
      rw [updateVerticalLine_foldl, if_pos hp, hv]
      rfl
    · rw [(updateVerticalLineInAllPlots_frame x w).2.1]
  · intro plot hp
    obtain ⟨v, hv⟩ := Option.isSome_iff_exists.mp (h plot hp)
    refine ⟨{ v with visible := false }, ?_, rfl⟩
    unfold hideAllVerticalLines
    rw [hideVerticalLine_foldl, if_pos hp, hv]
    rfl

theorem threeSurfaces_guidesPresent : GuidesPresent threeSurfaces :=
  ctor_guidesPresent _ _ (ctor_guidesPresent _ _ (ctor_guidesPresent _ _
    (fun _ hp => absurd hp (List.not_mem_nil _))))

/-- Witness of C10: three registered surfaces with y-ranges `[-1,1]`, `[0,2]`, `[-3,3]` and
`x = 2.5`. -/
theorem updateVerticalLineInAllPlots_broadcast_witness :
    threeSurfaces.customPlots = [0, 1, 2] ∧
    (updateVerticalLineInAllPlots (5 / 2) threeSurfaces).vLinesMap 0 =
      some { start := { x := 5 / 2, y := -1 }, end_ := { x := 5 / 2, y := 1 }, visible := true } ∧
    (updateVerticalLineInAllPlots (5 / 2) threeSurfaces).vLinesMap 1 =
      some { start := { x := 5 / 2, y := 0 }, end_ := { x := 5 / 2, y := 2 }, visible := true } ∧
    (updateVerticalLineInAllPlots (5 / 2) threeSurfaces).vLinesMap 2 =
      some { start := { x := 5 / 2, y := -3 }, end_ := { x := 5 / 2, y := 3 }, visible := true } := by
  have n1 : oneSurface.nextId = 1 := by
    unfold oneSurface; rw [ctor_nextId]; rfl
  have n2 : (KinematicVisualizer.ctor (exampleSurface 0 2) oneSurface).nextId = 2 := by
    rw [ctor_nextId, n1]
  have hc : threeSurfaces.customPlots = [0, 1, 2] := by
    unfold threeSurfaces
    rw [ctor_customPlots, n2, ctor_customPlots, n1]
    unfold oneSurface
    rw [ctor_customPlots]
    rfl
  have hp : threeSurfaces.plots =
      Function.update (Function.update (Function.update emptyWorld.plots 0
        (exampleSurface (-1) 1)) 1 (exampleSurface 0 2)) 2 (exampleSurface (-3) 3) := by
    unfold threeSurfaces
    rw [ctor_plots, n2, ctor_plots, n1]
    unfold oneSurface
    rw [ctor_plots]
    rfl
  have h := (updateVerticalLineInAllPlots_broadcast threeSurfaces (5 / 2)
    threeSurfaces_guidesPresent).1
  refine ⟨hc, ?_, ?_, ?_⟩
  · rw [(h 0 (by rw [hc]; simp)).1, hp]
    simp [exampleSurface]
  · rw [(h 1 (by rw [hc]; simp)).1, hp]
    simp [exampleSurface]
  · rw [(h 2 (by rw [hc]; simp)).1, hp]
    simp [exampleSurface]

/-! ## Lemmas on range propagation and on clearing the selection -/

theorem synchronizePlotsStep_frame (c : Nat) (r : QCPRange) (w : World) (plot : Nat) :
    SameSelection w (synchronizePlotsStep c r w plot) ∧
    (synchronizePlotsStep c r w plot).visualizers = w.visualizers ∧
    (synchronizePlotsStep c r w plot).vLinesMap = w.vLinesMap ∧
    (synchronizePlotsStep c r w plot).plots c = w.plots c := by
  unfold synchronizePlotsStep
  by_cases h : plot = c
  · simp [h, SameSelection]
  · have hc : c ≠ plot := fun e => h e.symm
    simp [h, SameSelection, World.blockSignals, World.storeXRange, Function.update_noteq hc]

theorem synchronizePlots_frame (this : Nat) (r : QCPRange) (w : World) :
    SameSelection w (synchronizePlots this r w) ∧
    (synchronizePlots this r w).visualizers = w.visualizers ∧
    (synchronizePlots this r w).vLinesMap = w.vLinesMap ∧
    (synchronizePlots this r w).plots (w.visualizers this).customPlot =
      w.plots (w.visualizers this).customPlot := by
  unfold synchronizePlots
  apply foldl_invariant (synchronizePlotsStep (w.visualizers this).customPlot r)
    (fun w1 => SameSelection w w1 ∧ w1.visualizers = w.visualizers ∧
      w1.vLinesMap = w.vLinesMap ∧
      w1.plots (w.visualizers this).customPlot = w.plots (w.visualizers this).customPlot)
  · intro w1 a ⟨⟨h1, h2, h3, h4⟩, hv, hl, hp⟩
    obtain ⟨⟨g1, g2, g3, g4⟩, gv, gl, gp⟩ :=
      synchronizePlotsStep_frame (w.visualizers this).customPlot r w1 a
    exact ⟨⟨g1.trans h1, g2.trans h2, g3.trans h3, g4.trans h4⟩, gv.trans hv, gl.trans hl,
      gp.trans hp⟩
  · exact ⟨sameSelection_refl w, rfl, rfl, rfl⟩

/-- Effect of `customPlot->xAxis->setRange(lower, upper)`: the instance's own surface holds
the normalized range; the selection, the instances and the guides are untouched. -/
theorem xAxis_setRange_spec (this : Nat) (lower upper : ℚ) (w : World) :
    SameSelection w (xAxis_setRange this lower upper w) ∧
    (xAxis_setRange this lower upper w).visualizers = w.visualizers ∧
    (xAxis_setRange this lower upper w).vLinesMap = w.vLinesMap ∧
    ((xAxis_setRange this lower upper w).plots (w.visualizers this).customPlot).xRange =
      QCPRange.make lower upper := by
  unfold xAxis_setRange
  simp only []
  split
  · exact ⟨⟨rfl, rfl, rfl, rfl⟩, rfl, rfl, by simp [World.storeXRange]⟩
  · obtain ⟨⟨g1, g2, g3, g4⟩, gv, gl, gp⟩ := synchronizePlots_frame this
      (QCPRange.make lower upper)
      (w.storeXRange (w.visualizers this).customPlot (QCPRange.make lower upper))
    refine ⟨⟨g1, g2, g3, g4⟩, gv, gl, ?_⟩
    have hv : (w.storeXRange (w.visualizers this).customPlot
        (QCPRange.make lower upper)).visualizers = w.visualizers := rfl
    rw [hv] at gp
    rw [gp]
    simp [World.storeXRange]

/-- Effect of `clearSelectionRect` when the shared pointer refers to a live rectangle. -/
theorem clearSelectionRect_spec (w : World) (sel : Nat) (r : QCPItemRect)
    (hsel : w.selectionRect = some sel) (hr : w.rectAt sel = some r) :
    ∃ w1, clearSelectionRect w = some w1 ∧ w1.selectionRect = none ∧ w1.plots = w.plots ∧
      w1.visualizers = w.visualizers ∧ w1.vLinesMap = w.vLinesMap ∧
      w1.customPlots = w.customPlots ∧ w1.nextId = w.nextId ∧
      w1.items = (match r.parentPlot with
        | some plot => (removeItem w plot sel).items
        | none => w.items) := by
  unfold clearSelectionRect
  rw [hsel]
  simp only [hr]
  cases hpp : r.parentPlot with
  | none => exact ⟨_, rfl, rfl, rfl, rfl, rfl, rfl, rfl, rfl⟩
  | some plot => exact ⟨_, rfl, rfl, rfl, rfl, rfl, rfl, rfl, rfl⟩

theorem clearSelectionRect_none (w : World) (hsel : w.selectionRect = none) :
    clearSelectionRect w = some w := by
  unfold clearSelectionRect
  rw [hsel]

/-! ## Claims on zoom and selection -/

/-- C7: in every state whose shared pointer refers to a live rectangle, with range
`(lo, hi) = getSelectionRange()`, `zoomToSelection` of an instance returns a state in which
the x-range of the instance's own surface is exactly `(lo, hi)`, the corner x-values in
`(min, max)` order, the shared pointer is null, and `getSelectionRange` returns `(0, 0)`. -/
theorem zoomToSelection_round_trip (this : Nat) (w : World) (sel : Nat) (r : QCPItemRect)
    (hsel : w.selectionRect = some sel) (hr : w.rectAt sel = some r) :
    ∃ w1, zoomToSelection this w = some w1 ∧
      getSelectionRange w = some (w1.plots (w.visualizers this).customPlot).xRange ∧
      (w1.plots (w.visualizers this).customPlot).xRange =
        { lower := min r.topLeft.x r.bottomRight.x
          upper := max r.topLeft.x r.bottomRight.x } ∧
      w1.selectionRect = none ∧
      getSelectionRange w1 = some { lower := 0, upper := 0 } := by
  obtain ⟨⟨g1, g2, _, _⟩, _, _, gx⟩ :=
    xAxis_setRange_spec this r.topLeft.x r.bottomRight.x w
  have hsel1 : (xAxis_setRange this r.topLeft.x r.bottomRight.x w).selectionRect = some sel := by
    rw [g1, hsel]
  have hr1 : (xAxis_setRange this r.topLeft.x r.bottomRight.x w).rectAt sel = some r := by
    unfold World.rectAt at hr ⊢
    rw [g2, hr]
  obtain ⟨w1, hc, hnone, hplots, _⟩ := clearSelectionRect_spec _ sel r hsel1 hr1
  have hrange := (getSelectionRange_range_eq w sel r hsel hr)
  refine ⟨w1, ?_, ?_, ?_, hnone, ?_⟩
  · unfold zoomToSelection
    rw [hsel]
    simp only [hr]
    exact hc
  · rw [hplots, gx, hrange.1]
  · rw [hplots, gx, hrange.2]
  · simp [getSelectionRange, hnone, QCPRange.make]

/-- Witness of C7: zooming to the right-to-left selection from 50 to 20 leaves the x-range
`(20, 50)` and no selection. -/
theorem zoomToSelection_round_trip_witness :
    ∃ w1, zoomToSelection 0 rightToLeftSelection = some w1 ∧
      (w1.plots 0).xRange = { lower := 20, upper := 50 } ∧
      getSelectionRange w1 = some { lower := 0, upper := 0 } := by
  obtain ⟨w1, hz, _, hx, _, hg⟩ := zoomToSelection_round_trip 0 rightToLeftSelection 1
    { parentPlot := some 0, topLeft := { x := 50, y := 1 }, bottomRight := { x := 20, y := -1 } }
    rfl (by simp [World.rectAt, rightToLeftSelection])
  have hc : (rightToLeftSelection.visualizers 0).customPlot = 0 := by
    simp [rightToLeftSelection, oneSurface, emptyWorld, KinematicVisualizer.ctor,
      setupCursorItems]
  rw [hc] at hx
  refine ⟨w1, hz, ?_, hg⟩
  rw [hx]
  norm_num

/-! ## Lemmas on event handlers -/

theorem extends_refl (w : World) : Extends w w := ⟨fun _ => rfl, fun _ h => h⟩

theorem extends_trans {w w1 w2 : World} (h1 : Extends w w1) (h2 : Extends w1 w2) :
    Extends w w2 :=
  ⟨fun v => (h2.1 v).trans (h1.1 v), fun p h => h2.2 p (h1.2 p h)⟩

theorem hasGuide_of_extends {w w1 : World} (h : Extends w w1) {v : Nat} (hg : HasGuide w v) :
    HasGuide w1 v := by
  unfold HasGuide at hg ⊢
  rw [h.1 v]
  exact h.2 _ hg

theorem selectionInvariant_of_same {w w1 : World} (h : SameSelection w w1)
    (hI : SelectionInvariant w) : SelectionInvariant w1 := by
  obtain ⟨h1, h2, h3, _⟩ := h
  unfold SelectionInvariant at hI ⊢
  rw [h1, h2, h3]
  exact hI

theorem hideAllVerticalLines_isSome (w : World) (p : Nat) :
    ((hideAllVerticalLines w).vLinesMap p).isSome = (w.vLinesMap p).isSome := by
  unfold hideAllVerticalLines
  rw [hideVerticalLine_foldl]
  split <;> simp

theorem updateVerticalLineInAllPlots_isSome (x : ℚ) (w : World) (p : Nat) :
    ((updateVerticalLineInAllPlots x w).vLinesMap p).isSome = (w.vLinesMap p).isSome := by
  unfold updateVerticalLineInAllPlots
  rw [updateVerticalLine_foldl]
  split <;> simp

/-- The cursor update succeeds when the surface has its vertical line; it leaves the
selection, the surfaces and the `selecting` flags as they were. -/
theorem updateCursorItems_ok (this plot : Nat) (w : World)
    (hg : (w.vLinesMap plot).isSome) :
    ∃ w1, updateCursorItems this plot w = some w1 ∧ SameSelection w w1 ∧ Extends w w1 ∧
      w1.plots = w.plots ∧
      (∀ v, (w1.visualizers v).selecting = (w.visualizers v).selecting) ∧
      (∀ v, (w1.visualizers v).cursorPos = (w.visualizers v).cursorPos) := by
  have hh : ((hideAllVerticalLines w).vLinesMap plot).isSome := by
    rw [hideAllVerticalLines_isSome]; exact hg
  obtain ⟨v0, hv0⟩ := Option.isSome_iff_exists.mp hh
  obtain ⟨⟨a1, a2, a3, a4⟩, ap, av⟩ := hideAllVerticalLines_frame w
  unfold updateCursorItems
  simp only [hv0]
  refine ⟨_, rfl, ?_, ?_, ?_, ?_, ?_⟩
  · obtain ⟨⟨b1, b2, b3, b4⟩, _, _⟩ := updateVerticalLineInAllPlots_frame
      ((w.plots plot).xAxis_pixelToCoord (w.visualizers this).cursorPos.x)
      (if plot = (w.visualizers this).customPlot then _ else _)
    refine ⟨?_, ?_, ?_, ?_⟩
    · rw [b1]; split <;> exact a1
    · rw [b2]; split <;> exact a2
    · rw [b3]; split <;> exact a3
    · rw [b4]; split <;> exact a4
  · constructor
    · intro v
      rw [(updateVerticalLineInAllPlots_frame _ _).2.2]
      split
      · by_cases hv : v = this
        · subst hv; simp [av]
        · simp [Function.update_noteq hv, av]
      · simp [av]
    · intro p hp
      rw [updateVerticalLineInAllPlots_isSome]
      have hp1 : ((hideAllVerticalLines w).vLinesMap p).isSome := by
        rw [hideAllVerticalLines_isSome]; exact hp
      split
      · by_cases hpp : p = plot
        · subst hpp; simp
        · simp [Function.update_noteq hpp, hp1]
      · by_cases hpp : p = plot
        · subst hpp; simp
        · simp [Function.update_noteq hpp, hp1]
  · rw [(updateVerticalLineInAllPlots_frame _ _).2.1]
    split <;> exact ap
  · intro v
    rw [(updateVerticalLineInAllPlots_frame _ _).2.2]
    split
    · by_cases hv : v = this
      · subst hv; simp [av]
      · simp [Function.update_noteq hv, av]
    · simp [av]
  · intro v
    rw [(updateVerticalLineInAllPlots_frame _ _).2.2]
    split
    · by_cases hv : v = this
      · subst hv; simp [av]
      · simp [Function.update_noteq hv, av]
    · simp [av]

theorem selectionInvariant_alive {w : World} (hI : SelectionInvariant w) : SelectionAlive w := by
  intro sel hsel
  rcases hI with ⟨hnone, _⟩ | ⟨sel1, r, plot, hs, hitems, _, _⟩
  · rw [hnone] at hsel; exact absurd hsel (by simp)
  · rw [hs] at hsel
    cases hsel
    simp [World.rectAt, hitems]

theorem selectionInvariant_fresh {w : World} (hI : SelectionInvariant w) : FreshIds w := by
  intro e he
  rcases hI with ⟨_, hitems⟩ | ⟨sel1, r, plot, _, hitems, _, hlt⟩
  · rw [hitems] at he; exact absurd he (List.not_mem_nil _)
  · rw [hitems] at he
    rw [List.mem_singleton.mp he]
    exact hlt

theorem selectionInvariant_items {w : World} (hI : SelectionInvariant w) :
    selectionItemsOnSurfaces w = w.selectionRect.toList := by
  rcases hI with ⟨hnone, hitems⟩ | ⟨sel1, r, plot, hs, hitems, hp, _⟩
  · simp [selectionItemsOnSurfaces, hnone, hitems]
  · simp [selectionItemsOnSurfaces, hs, hitems, hp]

/-- Under the invariant `clearSelectionRect` succeeds and leaves no rectangle item. -/
theorem clearSelectionRect_ok (w : World) (hI : SelectionInvariant w) :
    ∃ w1, clearSelectionRect w = some w1 ∧ w1.selectionRect = none ∧ w1.items = [] ∧
      w1.plots = w.plots ∧ w1.visualizers = w.visualizers ∧ w1.vLinesMap = w.vLinesMap ∧
      w1.customPlots = w.customPlots ∧ w1.nextId = w.nextId := by
  rcases hI with ⟨hnone, hitems⟩ | ⟨sel, r, plot, hs, hitems, hp, _⟩
  · exact ⟨w, clearSelectionRect_none w hnone, hnone, hitems, rfl, rfl, rfl, rfl, rfl⟩
  · have hr : w.rectAt sel = some r := by simp [World.rectAt, hitems]
    obtain ⟨w1, h1, h2, h3, h4, h5, h6, h7, h8⟩ := clearSelectionRect_spec w sel r hs hr
    refine ⟨w1, h1, h2, ?_, h3, h4, h5, h6, h7⟩
    rw [h8, hp]
    simp [removeItem, hitems, hp]

theorem dragSelectionTo_ok (this : Nat) (w : World) (hI : SelectionInvariant w) :
    ∃ w1, dragSelectionTo this w = some w1 ∧ SelectionInvariant w1 ∧
      w1.visualizers = w.visualizers ∧ w1.vLinesMap = w.vLinesMap := by
  rcases hI with ⟨hnone, hitems⟩ | ⟨sel, r, plot, hs, hitems, hp, hlt⟩
  · refine ⟨w, ?_, Or.inl ⟨hnone, hitems⟩, rfl, rfl⟩
    unfold dragSelectionTo
    rw [hnone]
  · have hr : w.rectAt sel = some r := by simp [World.rectAt, hitems]
    unfold dragSelectionTo
    rw [hs]
    simp only [hr]
    refine ⟨_, rfl, Or.inr ⟨sel, QCPItemRect.mk r.parentPlot r.topLeft
      (QPointF.mk
        ((w.plots (w.visualizers this).customPlot).xAxis_pixelToCoord
          (w.visualizers this).cursorPos.x)
        (w.plots (w.visualizers this).customPlot).yRange.lower), plot,
      hs, ?_, hp, hlt⟩, rfl, rfl⟩
    simp only [setBottomRight, hitems, List.map_cons, List.map_nil, if_true]

theorem onMouseDrag_ok (this : Nat) (w : World) (hI : SelectionInvariant w) :
    ∃ w1, onMouseDrag this w = some w1 ∧ SelectionInvariant w1 ∧
      w1.visualizers = w.visualizers ∧ w1.vLinesMap = w.vLinesMap := by
  unfold onMouseDrag
  split
  · exact dragSelectionTo_ok this w hI
  · exact ⟨w, rfl, hI, rfl, rfl⟩

theorem onMouseRelease_ok (this : Nat) (w : World) (hI : SelectionInvariant w) :
    ∃ w1, onMouseRelease this w = some w1 ∧ SelectionInvariant w1 ∧ Extends w w1 := by
  unfold onMouseRelease
  obtain ⟨w1, h1, h2, h3, h4⟩ := dragSelectionTo_ok this (w.setSelecting this false)
    (selectionInvariant_of_same ⟨rfl, rfl, rfl, rfl⟩ hI)
  refine ⟨w1, h1, h2, ?_, ?_⟩
  · intro v
    rw [h3]
    by_cases hv : v = this
    · subst hv; simp [World.setSelecting]
    · simp [World.setSelecting, Function.update_noteq hv]
  · intro p hp
    rw [h4]; exact hp

/-- A press under the invariant succeeds, keeps the invariant, and every rectangle item it
leaves is new. -/
theorem onAnyMousePress_ok (this : Nat) (pos : QPoint) (w : World)
    (hI : SelectionInvariant w) :
    ∃ w1, onAnyMousePress this pos w = some w1 ∧ SelectionInvariant w1 ∧ Extends w w1 ∧
      (∀ item, item ∈ selectionItemsOnSurfaces w1 → item ∉ selectionItemsOnSurfaces w) := by
  obtain ⟨wc, hc, hsel, hitems, hplots, hvis, hlines, _, hnext⟩ := clearSelectionRect_ok w hI
  have hfresh := selectionInvariant_fresh hI
  unfold onAnyMousePress
  simp only [hc]
  split
  · refine ⟨_, rfl, Or.inr ⟨wc.nextId,
      QCPItemRect.mk (some (wc.visualizers this).customPlot)
        (QPointF.mk
          ((wc.plots (wc.visualizers this).customPlot).xAxis_pixelToCoord
            (wc.visualizers this).cursorPos.x)
          (wc.plots (wc.visualizers this).customPlot).yRange.upper)
        (QPointF.mk
          ((wc.plots (wc.visualizers this).customPlot).xAxis_pixelToCoord
            (wc.visualizers this).cursorPos.x)
          (wc.plots (wc.visualizers this).customPlot).yRange.lower),
      (wc.visualizers this).customPlot, rfl, ?_, rfl, ?_⟩, ⟨?_, ?_⟩, ?_⟩
    · simp only [hitems, List.nil_append]
    · simp
    · intro v
      by_cases hv : v = this
      · subst hv; simp [hvis]
      · simp [Function.update_noteq hv, hvis]
    · intro p hp
      simp only [hlines]; exact hp
    · intro item hitem hold
      simp only [selectionItemsOnSurfaces, hitems, List.nil_append, List.filter_cons,
        Option.isSome_some, if_true, List.filter_nil, List.map_cons, List.map_nil,
        List.mem_singleton] at hitem
      unfold selectionItemsOnSurfaces at hold
      obtain ⟨e, he, heq⟩ := List.mem_map.mp hold
      have hlt := hfresh e (List.mem_of_mem_filter he)
      rw [heq, hitem, hnext] at hlt
      exact lt_irrefl _ hlt
  · refine ⟨wc, rfl, Or.inl ⟨hsel, hitems⟩, ⟨?_, ?_⟩, ?_⟩
    · intro v; rw [hvis]
    · intro p hp; rw [hlines]; exact hp
    · intro item hitem
      simp [selectionItemsOnSurfaces, hitems] at hitem

theorem zoomToSelection_ok (this : Nat) (w : World) (hI : SelectionInvariant w) :
    ∃ w1, zoomToSelection this w = some w1 ∧ SelectionInvariant w1 ∧ Extends w w1 := by
  rcases hI with ⟨hnone, hitems⟩ | ⟨sel, r, plot, hs, hitems, hp, hlt⟩
  · refine ⟨w, ?_, Or.inl ⟨hnone, hitems⟩, extends_refl w⟩
    unfold zoomToSelection
    rw [hnone]
  · have hr : w.rectAt sel = some r := by simp [World.rectAt, hitems]
    obtain ⟨hsame, gv, gl, _⟩ := xAxis_setRange_spec this r.topLeft.x r.bottomRight.x w
    have hI1 : SelectionInvariant (xAxis_setRange this r.topLeft.x r.bottomRight.x w) :=
      selectionInvariant_of_same hsame (Or.inr ⟨sel, r, plot, hs, hitems, hp, hlt⟩)
    obtain ⟨w1, hc, hsel, hit, _, hvis, hlines, _, _⟩ := clearSelectionRect_ok _ hI1
    refine ⟨w1, ?_, Or.inl ⟨hsel, hit⟩, ⟨?_, ?_⟩⟩
    · unfold zoomToSelection
      rw [hs]
      simp only [hr]
      exact hc
    · intro v; rw [hvis, gv]
    · intro p hp1; rw [hlines, gl]; exact hp1

theorem setCursorPos_extends (w : World) (this : Nat) (pos : QPoint) :
    Extends w (w.setCursorPos this pos) := by
  constructor
  · intro v
    by_cases hv : v = this
    · subst hv; simp [World.setCursorPos]
    · simp [World.setCursorPos, Function.update_noteq hv]
  · intro p hp; exact hp

/-- Shared tail of the two move handlers: cursor update, then the drag when a selection is
in progress. -/
theorem moveTail_ok (this : Nat) (pos : QPoint) (w : World) (hI : SelectionInvariant w)
    (hg : HasGuide w this) :
    ∃ w1, (match updateCursorItems this (w.visualizers this).customPlot
              (w.setCursorPos this pos) with
        | none => none
        | some w2 =>
          if (w2.visualizers this).selecting && w2.selectionRect.isSome then onMouseDrag this w2
          else some w2) = some w1 ∧ SelectionInvariant w1 ∧ Extends w w1 := by
  have hg1 : ((w.setCursorPos this pos).vLinesMap (w.visualizers this).customPlot).isSome := hg
  obtain ⟨w2, h2, hsame, hext, _, _, _⟩ :=
    updateCursorItems_ok this (w.visualizers this).customPlot (w.setCursorPos this pos) hg1
  have hI2 : SelectionInvariant w2 :=
    selectionInvariant_of_same hsame (selectionInvariant_of_same ⟨rfl, rfl, rfl, rfl⟩ hI)
  have hext2 : Extends w w2 := extends_trans (setCursorPos_extends w this pos) hext
  simp only [h2]
  split
  · obtain ⟨w3, h3, hI3, hv3, hl3⟩ := onMouseDrag_ok this w2 hI2
    refine ⟨w3, h3, hI3, extends_trans hext2 ⟨?_, ?_⟩⟩
    · intro v; rw [hv3]
    · intro p hp; rw [hl3]; exact hp
  · exact ⟨w2, rfl, hI2, hext2⟩

theorem eventFilter_MouseMove_ok (this : Nat) (pos : QPoint) (w : World)
    (hI : SelectionInvariant w) (hg : HasGuide w this) :
    ∃ w1, eventFilter this (QEvent.MouseMove pos) w = some w1 ∧ SelectionInvariant w1 ∧
      Extends w w1 := by
  unfold eventFilter
  exact moveTail_ok this pos w hI hg

theorem mouseMoveEvent_ok (this : Nat) (pos : QPoint) (w : World)
    (hI : SelectionInvariant w) (hg : HasGuide w this) :
    ∃ w1, mouseMoveEvent this pos w = some w1 ∧ SelectionInvariant w1 ∧ Extends w w1 := by
  unfold mouseMoveEvent
  simp only []
  split
  · exact moveTail_ok this pos w hI hg
  · exact ⟨w, rfl, hI, extends_refl w⟩

/-- Every handler succeeds and keeps the selection invariant. -/
theorem deliver_ok (e : UiEvent) (w : World) (hI : SelectionInvariant w)
    (hg : HasGuide w e.target) :
    ∃ w1, deliver e w = some w1 ∧ SelectionInvariant w1 ∧ Extends w w1 := by
  cases e with
  | press this pos =>
    obtain ⟨w1, h1, h2, h3, _⟩ := onAnyMousePress_ok this pos w hI
    exact ⟨w1, h1, h2, h3⟩
  | move this pos => exact eventFilter_MouseMove_ok this pos w hI hg
  | widgetMove this pos => exact mouseMoveEvent_ok this pos w hI hg
  | drag this =>
    obtain ⟨w1, h1, h2, h3, h4⟩ := onMouseDrag_ok this w hI
    exact ⟨w1, h1, h2, ⟨fun v => by rw [h3], fun p hp => by rw [h4]; exact hp⟩⟩
  | release this => exact onMouseRelease_ok this w hI
  | clear this =>
    obtain ⟨w1, h1, h2, h3, _, h5, h6, _, _⟩ := clearSelectionRect_ok w hI
    exact ⟨w1, h1, Or.inl ⟨h2, h3⟩, ⟨fun v => by rw [h5], fun p hp => by rw [h6]; exact hp⟩⟩
  | zoom this => exact zoomToSelection_ok this w hI

theorem deliverAll_ok (evs : List UiEvent) :
    ∀ (w : World), SelectionInvariant w → (∀ e, e ∈ evs → HasGuide w e.target) →
      ∃ w1, deliverAll evs w = some w1 ∧ SelectionInvariant w1 := by
  induction evs with
  | nil => intro w hI _; exact ⟨w, rfl, hI⟩
  | cons e evs ih =>
    intro w hI hg
    obtain ⟨w1, h1, hI1, hext⟩ := deliver_ok e w hI (hg e (List.mem_cons_self e evs))
    obtain ⟨w2, h2, hI2⟩ := ih w1 hI1
      (fun e1 he1 => hasGuide_of_extends hext (hg e1 (List.mem_cons_of_mem e he1)))
    refine ⟨w2, ?_, hI2⟩
    simp only [deliverAll, h1]
    exact h2

/-- C8: from a state with no selection rectangle, every sequence of press, move, drag,
release, clear and zoom events, delivered to instances that have their vertical line, runs to
a state in which the rectangle items on plot surfaces are exactly the one the shared pointer
refers to, so at most one; from there `clearSelectionRect` leaves none, and a press leaves no
item that existed before it. -/
theorem single_live_selection (w0 : World) (evs : List UiEvent)
    (hsel : w0.selectionRect = none) (hitems : w0.items = [])
    (hguides : ∀ e, e ∈ evs → HasGuide w0 e.target) :
    ∃ w, deliverAll evs w0 = some w ∧
      selectionItemsOnSurfaces w = w.selectionRect.toList ∧
      (selectionItemsOnSurfaces w).length ≤ 1 ∧
      (∃ wc, clearSelectionRect w = some wc ∧ selectionItemsOnSurfaces wc = []) ∧
      (∀ this pos, ∃ w2, onAnyMousePress this pos w = some w2 ∧
        selectionItemsOnSurfaces w2 = w2.selectionRect.toList ∧
        ∀ item, item ∈ selectionItemsOnSurfaces w2 → item ∉ selectionItemsOnSurfaces w) := by
  obtain ⟨w, hw, hI⟩ := deliverAll_ok evs w0 (Or.inl ⟨hsel, hitems⟩) hguides
  refine ⟨w, hw, selectionInvariant_items hI, ?_, ?_, ?_⟩
  · rw [selectionInvariant_items hI]
    cases w.selectionRect <;> simp
  · obtain ⟨wc, hc, _, hci, _⟩ := clearSelectionRect_ok w hI
    exact ⟨wc, hc, by simp [selectionItemsOnSurfaces, hci]⟩
  · intro this pos
    obtain ⟨w2, h2, hI2, _, hnew⟩ := onAnyMousePress_ok this pos w hI
    exact ⟨w2, h2, selectionInvariant_items hI2, hnew⟩

/-- Witness of C8: on three constructed visualizers, a drag on instance 0 followed by a press
on instance 1 and a zoom on instance 2. -/
theorem single_live_selection_witness :
    ∃ w, deliverAll
        [UiEvent.move 0 { x := 50, y := 5 }, UiEvent.press 0 { x := 50, y := 5 },
         UiEvent.move 0 { x := 20, y := 5 }, UiEvent.release 0,
         UiEvent.move 1 { x := 30, y := 5 }, UiEvent.press 1 { x := 30, y := 5 },
         UiEvent.zoom 2] threeSurfaces = some w ∧
      (selectionItemsOnSurfaces w).length ≤ 1 := by
  obtain ⟨w, hw, _, hlen, _⟩ := single_live_selection threeSurfaces
    [UiEvent.move 0 { x := 50, y := 5 }, UiEvent.press 0 { x := 50, y := 5 },
     UiEvent.move 0 { x := 20, y := 5 }, UiEvent.release 0,
     UiEvent.move 1 { x := 30, y := 5 }, UiEvent.press 1 { x := 30, y := 5 },
     UiEvent.zoom 2] rfl rfl
    (by
      intro e he
      simp only [List.mem_cons, List.mem_singleton, List.not_mem_nil, or_false] at he
      rcases he with h | h | h | h | h | h | h <;> subst h <;> (unfold HasGuide; rfl))
  exact ⟨w, hw, hlen⟩

theorem find?_append_fresh (items : List (Nat × QCPItemRect)) (sel : Nat) (r : QCPItemRect)
    (hfresh : ∀ e, e ∈ items → e.1 < sel) :
    ((items ++ [(sel, r)]).find? fun e => e.1 = sel).map Prod.snd = some r := by
  induction items with
  | nil => simp
  | cons a items ih =>
    have ha : a.1 ≠ sel := ne_of_lt (hfresh a (List.mem_cons_self a items))
    rw [List.cons_append, List.find?_cons_of_neg _ (by simpa using ha)]
    exact ih fun e he => hfresh e (List.mem_cons_of_mem a he)

/-- C9, as stated, fails: after a move at pixel x 10, a press at pixel x 50 inside the
viewport creates a rectangle whose corners sit at the data x of pixel 10, not of pixel 50. -/
theorem onAnyMousePress_ignores_press_position :
    ∃ w w1 r, eventFilter 0 (QEvent.MouseMove { x := 10, y := 5 }) oneSurface = some w ∧
      (w.plots (w.visualizers 0).customPlot).viewport.contains { x := 50, y := 5 } = true ∧
      onAnyMousePress 0 { x := 50, y := 5 } w = some w1 ∧
      w1.selectionRect = some 1 ∧ w1.rectAt 1 = some r ∧
      r.topLeft = { x := 10, y := 1 } ∧ r.bottomRight = { x := 10, y := -1 } ∧
      (w.plots (w.visualizers 0).customPlot).xAxis_pixelToCoord 50 = 50 ∧
      r.topLeft ≠
        { x := (w.plots (w.visualizers 0).customPlot).xAxis_pixelToCoord 50
          y := (w.plots (w.visualizers 0).customPlot).yRange.upper } :=
  ⟨_, _, _, rfl, rfl, rfl, rfl, rfl, rfl, rfl, rfl, by decide⟩

/-- C9 (amended): for a press whose position lies inside the viewport of the instance's
surface, `onAnyMousePress` leaves a selection rectangle with
`topLeft = (dataX(cursorPos.x), yRange.upper)` and
`bottomRight = (dataX(cursorPos.x), yRange.lower)`, where `cursorPos` is the position the
instance recorded at its last move event; these are the corners at `dataX(pressX)` when the
press happens at the x recorded last. -/
theorem onAnyMousePress_creates_selection (this : Nat) (pos : QPoint) (w : World)
    (halive : SelectionAlive w) (hfresh : FreshIds w)
    (hin : (w.plots (w.visualizers this).customPlot).viewport.contains pos = true) :
    ∃ w1 sel r, onAnyMousePress this pos w = some w1 ∧ w1.selectionRect = some sel ∧
      w1.rectAt sel = some r ∧
      r.topLeft =
        { x := (w.plots (w.visualizers this).customPlot).xAxis_pixelToCoord
                 (w.visualizers this).cursorPos.x
          y := (w.plots (w.visualizers this).customPlot).yRange.upper } ∧
      r.bottomRight =
        { x := (w.plots (w.visualizers this).customPlot).xAxis_pixelToCoord
                 (w.visualizers this).cursorPos.x
          y := (w.plots (w.visualizers this).customPlot).yRange.lower } ∧
      ((w.visualizers this).cursorPos.x = pos.x →
        r.topLeft =
          { x := (w.plots (w.visualizers this).customPlot).xAxis_pixelToCoord pos.x
            y := (w.plots (w.visualizers this).customPlot).yRange.upper } ∧
        r.bottomRight =
          { x := (w.plots (w.visualizers this).customPlot).xAxis_pixelToCoord pos.x
            y := (w.plots (w.visualizers this).customPlot).yRange.lower }) := by
  have hclear : ∃ wc, clearSelectionRect w = some wc ∧ wc.plots = w.plots ∧
      wc.visualizers = w.visualizers ∧ wc.nextId = w.nextId ∧
      ∀ e, e ∈ wc.items → e ∈ w.items := by
    cases hs : w.selectionRect with
    | none => exact ⟨w, clearSelectionRect_none w hs, rfl, rfl, rfl, fun e he => he⟩
    | some sel0 =>
      obtain ⟨r0, hr0⟩ := Option.isSome_iff_exists.mp (halive sel0 hs)
      obtain ⟨wc, h1, _, h3, h4, _, _, h7, h8⟩ := clearSelectionRect_spec w sel0 r0 hs hr0
      refine ⟨wc, h1, h3, h4, h7, ?_⟩
      intro e he
      rw [h8] at he
      cases hpp : r0.parentPlot with
      | none => rw [hpp] at he; exact he
      | some plot =>
        rw [hpp] at he
        exact List.mem_of_mem_filter he
  obtain ⟨wc, hc, hplots, hvis, hnext, hsub⟩ := hclear
  have hin1 : (wc.plots (wc.visualizers this).customPlot).viewport.contains pos = true := by
    rw [hplots, hvis]; exact hin
  unfold onAnyMousePress
  simp only [hc, hin1, if_true]
  refine ⟨_, wc.nextId,
    QCPItemRect.mk (some (wc.visualizers this).customPlot)
      (QPointF.mk
        ((wc.plots (wc.visualizers this).customPlot).xAxis_pixelToCoord
          (wc.visualizers this).cursorPos.x)
        (wc.plots (wc.visualizers this).customPlot).yRange.upper)
      (QPointF.mk
        ((wc.plots (wc.visualizers this).customPlot).xAxis_pixelToCoord
          (wc.visualizers this).cursorPos.x)
        (wc.plots (wc.visualizers this).customPlot).yRange.lower),
    rfl, rfl, ?_, ?_, ?_, ?_⟩
  · exact find?_append_fresh wc.items wc.nextId _
      (fun e he => by rw [hnext]; exact hfresh e (hsub e he))
  · rw [hplots, hvis]
  · rw [hplots, hvis]
  · intro hx
    rw [hplots, hvis, hx]
    exact ⟨rfl, rfl⟩

/-- Witness of the amended C9: on a fresh instance, whose `cursorPos` is still `(0, 0)`, a
press at pixel `(0, 5)` puts both corners at data x 0. -/
theorem onAnyMousePress_creates_selection_witness :
    ∃ w1 sel r, onAnyMousePress 0 { x := 0, y := 5 } oneSurface = some w1 ∧
      w1.selectionRect = some sel ∧ w1.rectAt sel = some r ∧
      r.topLeft = { x := 0, y := 1 } ∧ r.bottomRight = { x := 0, y := -1 } := by
  obtain ⟨w1, sel, r, h1, h2, h3, h4, h5, _⟩ := onAnyMousePress_creates_selection 0
    { x := 0, y := 5 } oneSurface
    (fun sel hsel => absurd hsel (by simp [oneSurface, emptyWorld, KinematicVisualizer.ctor,
      setupCursorItems]))
    (fun e he => absurd he (by simp [oneSurface, emptyWorld, KinematicVisualizer.ctor,
      setupCursorItems]))
    rfl
  refine ⟨w1, sel, r, h1, h2, h3, ?_, ?_⟩
  · rw [h4]; decide
  · rw [h5]; decide

/-! ## Claims on destruction -/

/-- C11 fails on the code: the destructor removes the surface from `customPlots` only. After
one visualizer is constructed and destroyed the registry is empty while `vLinesMap` still
holds the entry of the destroyed surface; in general the destructor leaves `vLinesMap` as it
was. Registration does add the surface and its hidden guide. -/
theorem dtor_keeps_vLinesMap_entry :
    oneSurface.customPlots = [0] ∧
    (KinematicVisualizer.dtor 0 oneSurface).customPlots = [] ∧
    ((KinematicVisualizer.dtor 0 oneSurface).vLinesMap 0).isSome = true ∧
    (∀ this w, (KinematicVisualizer.dtor this w).vLinesMap = w.vLinesMap) ∧
    (∀ surface w,
      (KinematicVisualizer.ctor surface w).customPlots = w.customPlots ++ [w.nextId] ∧
      (KinematicVisualizer.ctor surface w).vLinesMap w.nextId =
        some { start := { x := 0, y := 0 }, end_ := { x := 1, y := 1 }, visible := false }) := by
  refine ⟨rfl, rfl, rfl, fun _ _ => rfl, fun surface w => ⟨ctor_customPlots surface w, ?_⟩⟩
  rw [ctor_vLinesMap]
  simp

/-- C12 fails on the code: the destructor does not touch `selectionRect`. After a press on
instance 0 of three visualizers the rectangle is owned by surface 0; destroying instance 0
leaves the shared pointer set although the rectangle died with its surface, and
`getSelectionRange` dereferences it instead of returning `(0, 0)`. -/
theorem dtor_keeps_selectionRect :
    ∃ w1, onAnyMousePress 0 { x := 0, y := 5 } threeSurfaces = some w1 ∧
      w1.selectionRect = some 3 ∧
      (w1.rectAt 3).map (fun r => r.parentPlot) = some (some 0) ∧
      (KinematicVisualizer.dtor 0 w1).customPlots = [1, 2] ∧
      (KinematicVisualizer.dtor 0 w1).selectionRect = some 3 ∧
      (KinematicVisualizer.dtor 0 w1).rectAt 3 = none ∧
      getSelectionRange (KinematicVisualizer.dtor 0 w1) = none ∧
      getSelectionRange (KinematicVisualizer.dtor 0 w1) ≠ some { lower := 0, upper := 0 } ∧
      (∀ this w, (KinematicVisualizer.dtor this w).selectionRect = w.selectionRect) :=
  ⟨_, rfl, rfl, rfl, rfl, rfl, rfl, rfl, by decide, fun _ _ => rfl⟩

/-! ## Lemmas on range-change notification -/

theorem synchronizePlotsStep_xRange (c : Nat) (r : QCPRange) (w : World) (a p : Nat) :
    ((synchronizePlotsStep c r w a).plots p).xRange =
      if p = a ∧ a ≠ c then r else (w.plots p).xRange := by
  unfold synchronizePlotsStep
  by_cases hac : a = c
  · simp [hac]
  · by_cases hpa : p = a
    · subst hpa
      simp [hac, World.blockSignals, World.storeXRange]
    · simp [hac, hpa, World.blockSignals, World.storeXRange, Function.update_noteq hpa]

theorem synchronizePlots_foldl_xRange (c : Nat) (r : QCPRange) (l : List Nat) :
    ∀ (w : World) (p : Nat),
      ((l.foldl (synchronizePlotsStep c r) w).plots p).xRange =
        if p ∈ l ∧ p ≠ c then r else (w.plots p).xRange := by
  induction l with
  | nil => intro w p; simp
  | cons a l ih =>
    intro w p
    rw [List.foldl_cons, ih, synchronizePlotsStep_xRange]
    simp only [List.mem_cons]
    split_ifs <;> first | rfl | (exfalso; tauto) | (exfalso; omega) | (exfalso; simp_all)

/-- The loop with its calls as parameters is the loop of `synchronizePlots` when the range
is plainly assigned. -/
theorem synchronizePlots_eq_via (this : Nat) (r : QCPRange) (w : World) :
    synchronizePlots this r w =
      synchronizePlotsVia (fun p b (w1 : World) => w1.blockSignals p b)
        (fun p r1 (w1 : World) => w1.storeXRange p r1) w.customPlots
        (w.visualizers this).customPlot r w := rfl

/-! ## Claim on axis synchronization -/

/-- C13: the last sentence of the claim holds: for any number of registered surfaces
`synchronizePlots(r)` leaves every registered surface other than the caller's with x-range
`r`, and the caller's surface as it was. The muting does not: `synchronizePlots` blocks the
signals of the surface, while `rangeChanged` is emitted by its x-axis. With two constructed
visualizers and the x-range of surface 0 set to `[2, 7]`, the forced update of surface 1
runs the slot of instance 1, which assigns the range of surface 0 again. If the backend
ignores an assignment of the current range the propagation ends there, after two slot runs;
if it does not, slot calls nest up to any bound. Both surfaces end with x-range `[2, 7]`. -/
theorem synchronizePlots_feedback_not_muted :
    (∀ (this : Nat) (newRange : QCPRange) (w0 : World),
      (∀ p, p ∈ w0.customPlots → p ≠ (w0.visualizers this).customPlot →
        ((synchronizePlots this newRange w0).plots p).xRange = newRange) ∧
      (synchronizePlots this newRange w0).plots (w0.visualizers this).customPlot =
        w0.plots (w0.visualizers this).customPlot) ∧
    twoSurfaces.customPlots = [0, 1] ∧
    (rangeChangedDelivery true 2 0 { lower := 2, upper := 7 }
      (twoSurfaces, { stored := [], notified := [] })).2 =
      { stored := [0, 1], notified := [0, 1] } ∧
    (rangeChangedDelivery true 6 0 { lower := 2, upper := 7 }
      (twoSurfaces, { stored := [], notified := [] })).2 =
      { stored := [0, 1], notified := [0, 1] } ∧
    (rangeChangedDelivery false 2 0 { lower := 2, upper := 7 }
      (twoSurfaces, { stored := [], notified := [] })).2 =
      { stored := [0, 1, 0], notified := [0, 1] } ∧
    (rangeChangedDelivery false 6 0 { lower := 2, upper := 7 }
      (twoSurfaces, { stored := [], notified := [] })).2 =
      { stored := [0, 1, 0, 1, 0, 1, 0], notified := [0, 1, 0, 1, 0, 1] } ∧
    ((rangeChangedDelivery true 2 0 { lower := 2, upper := 7 }
      (twoSurfaces, { stored := [], notified := [] })).1.plots 0).xRange =
      { lower := 2, upper := 7 } ∧
    ((rangeChangedDelivery true 2 0 { lower := 2, upper := 7 }
      (twoSurfaces, { stored := [], notified := [] })).1.plots 1).xRange =
      { lower := 2, upper := 7 } := by
  refine ⟨?_, rfl, ?_, ?_, ?_, ?_, ?_, ?_⟩
  · intro this newRange w0
    refine ⟨?_, (synchronizePlots_frame this newRange w0).2.2.2⟩
    intro p hp hne
    unfold synchronizePlots
    rw [synchronizePlots_foldl_xRange, if_pos ⟨hp, hne⟩]
  all_goals decide

/-! ## Lemmas on `visualizeSignal` -/

theorem foldl_smallest_spec (t : List ℚ) :
    ∀ a : ℚ,
      t.foldl (fun smallest v => if v < smallest then v else smallest) a ∈ a :: t ∧
      ∀ b, b ∈ a :: t →
        t.foldl (fun smallest v => if v < smallest then v else smallest) a ≤ b := by
  induction t with
  | nil => intro a; simp
  | cons c t ih =>
    intro a
    rw [List.foldl_cons]
    obtain ⟨hmem, hle⟩ := ih (if c < a then c else a)
    have hstep : (if c < a then c else a) ≤ a ∧ (if c < a then c else a) ≤ c ∧
        ((if c < a then c else a) = a ∨ (if c < a then c else a) = c) := by
      split
      · rename_i h; exact ⟨le_of_lt h, le_refl _, Or.inr rfl⟩
      · rename_i h; exact ⟨le_refl _, not_lt.mp h, Or.inl rfl⟩
    constructor
    · rcases List.mem_cons.mp hmem with h | h
      · rcases hstep.2.2 with h1 | h1
        · rw [h, h1]; exact List.mem_cons_self _ _
        · rw [h, h1]; exact List.mem_cons_of_mem _ (List.mem_cons_self _ _)
      · exact List.mem_cons_of_mem _ (List.mem_cons_of_mem _ h)
    · intro b hb
      have h0 := hle _ (List.mem_cons_self _ _)
      rcases List.mem_cons.mp hb with h | h
      · rw [h]; exact le_trans h0 hstep.1
      · rcases List.mem_cons.mp h with h | h
        · rw [h]; exact le_trans h0 hstep.2.1
        · exact hle b (List.mem_cons_of_mem _ h)

theorem foldl_largest_spec (t : List ℚ) :
    ∀ a : ℚ,
      t.foldl (fun largest v => if largest < v then v else largest) a ∈ a :: t ∧
      ∀ b, b ∈ a :: t →
        b ≤ t.foldl (fun largest v => if largest < v then v else largest) a := by
  induction t with
  | nil => intro a; simp
  | cons c t ih =>
    intro a
    rw [List.foldl_cons]
    obtain ⟨hmem, hle⟩ := ih (if a < c then c else a)
    have hstep : a ≤ (if a < c then c else a) ∧ c ≤ (if a < c then c else a) ∧
        ((if a < c then c else a) = a ∨ (if a < c then c else a) = c) := by
      split
      · rename_i h; exact ⟨le_of_lt h, le_refl _, Or.inr rfl⟩
      · rename_i h; exact ⟨le_refl _, not_lt.mp h, Or.inl rfl⟩
    constructor
    · rcases List.mem_cons.mp hmem with h | h
      · rcases hstep.2.2 with h1 | h1
        · rw [h, h1]; exact List.mem_cons_self _ _
        · rw [h, h1]; exact List.mem_cons_of_mem _ (List.mem_cons_self _ _)
      · exact List.mem_cons_of_mem _ (List.mem_cons_of_mem _ h)
    · intro b hb
      have h0 := hle _ (List.mem_cons_self _ _)
      rcases List.mem_cons.mp hb with h | h
      · rw [h]; exact le_trans hstep.1 h0
      · rcases List.mem_cons.mp h with h | h
        · rw [h]; exact le_trans hstep.2.1 h0
        · exact hle b (List.mem_cons_of_mem _ h)

/-- On a non-empty vector `min_element` returns its least value. -/
theorem min_element_spec (values : List ℚ) (hne : values ≠ []) :
    ∃ m, min_element values = some m ∧ IsMinOf values m := by
  cases values with
  | nil => exact absurd rfl hne
  | cons a t => exact ⟨_, rfl, foldl_smallest_spec t a⟩

/-- On a non-empty vector `max_element` returns its greatest value. -/
theorem max_element_spec (values : List ℚ) (hne : values ≠ []) :
    ∃ m, max_element values = some m ∧ IsMaxOf values m := by
  cases values with
  | nil => exact absurd rfl hne
  | cons a t => exact ⟨_, rfl, foldl_largest_spec t a⟩

/-- The first loop succeeds on non-empty channels; its result bounds every value, is no
worse than the start, and each bound is the start or a value of some channel. -/
theorem globalRangeLoop_spec (entries : List (String × List ℚ))
    (hch : ∀ e, e ∈ entries → e.2 ≠ []) :
    ∀ g : ℚ × ℚ, ∃ r : ℚ × ℚ, globalRangeLoop entries g = some r ∧
      r.1 ≤ g.1 ∧ g.2 ≤ r.2 ∧
      (∀ v, v ∈ allValues entries → r.1 ≤ v ∧ v ≤ r.2) ∧
      (r.1 = g.1 ∨ r.1 ∈ allValues entries) ∧ (r.2 = g.2 ∨ r.2 ∈ allValues entries) := by
  induction entries with
  | nil =>
    intro g
    exact ⟨g, rfl, le_refl _, le_refl _, by simp [allValues], Or.inl rfl, Or.inl rfl⟩
  | cons it rest ih =>
    intro g
    obtain ⟨lmin, hmin, hminmem, hminle⟩ :=
      min_element_spec it.2 (hch it (List.mem_cons_self _ _))
    obtain ⟨lmax, hmax, hmaxmem, hmaxle⟩ :=
      max_element_spec it.2 (hch it (List.mem_cons_self _ _))
    obtain ⟨r, hr, h1, h2, hall, hm1, hm2⟩ :=
      ih (fun e he => hch e (List.mem_cons_of_mem _ he))
        (if lmin < g.1 then lmin else g.1, if lmax > g.2 then lmax else g.2)
    have hg1 : (if lmin < g.1 then lmin else g.1) ≤ g.1 ∧
        (if lmin < g.1 then lmin else g.1) ≤ lmin ∧
        ((if lmin < g.1 then lmin else g.1) = g.1 ∨
          (if lmin < g.1 then lmin else g.1) = lmin) := by
      split
      · rename_i h; exact ⟨le_of_lt h, le_refl _, Or.inr rfl⟩
      · rename_i h; exact ⟨le_refl _, not_lt.mp h, Or.inl rfl⟩
    have hg2 : g.2 ≤ (if lmax > g.2 then lmax else g.2) ∧
        lmax ≤ (if lmax > g.2 then lmax else g.2) ∧
        ((if lmax > g.2 then lmax else g.2) = g.2 ∨
          (if lmax > g.2 then lmax else g.2) = lmax) := by
      split
      · rename_i h; exact ⟨le_of_lt h, le_refl _, Or.inr rfl⟩
      · rename_i h; exact ⟨le_refl _, not_lt.mp h, Or.inl rfl⟩
    have hsplit : allValues (it :: rest) = it.2 ++ allValues rest := by
      simp [allValues]
    refine ⟨r, ?_, le_trans h1 hg1.1, le_trans hg2.1 h2, ?_, ?_, ?_⟩
    · simp only [globalRangeLoop, hmin, hmax]
      exact hr
    · intro v hv
      rw [hsplit] at hv
      rcases List.mem_append.mp hv with hv | hv
      · exact ⟨le_trans (le_trans h1 hg1.2.1) (hminle v hv),
          le_trans (hmaxle v hv) (le_trans hg2.2.1 h2)⟩
      · exact hall v hv
    · rw [hsplit]
      rcases hm1 with h | h
      · rcases hg1.2.2 with h3 | h3
        · exact Or.inl (h.trans h3)
        · exact Or.inr (List.mem_append_left _ (by rw [h, h3]; exact hminmem))
      · exact Or.inr (List.mem_append_right _ h)
    · rw [hsplit]
      rcases hm2 with h | h
      · rcases hg2.2.2 with h3 | h3
        · exact Or.inl (h.trans h3)
        · exact Or.inr (List.mem_append_left _ (by rw [h, h3]; exact hmaxmem))
      · exact Or.inr (List.mem_append_right _ h)

/-- On a non-empty map of non-empty channels of finite values the first loop returns the
least and the greatest of all values. -/
theorem globalRangeLoop_minmax (dataMap : List (String × List ℚ)) (hne : dataMap ≠ [])
    (hch : ∀ e, e ∈ dataMap → e.2 ≠ []) (hfin : FiniteValues dataMap) :
    ∃ gmin gmax, globalRangeLoop dataMap (DBL_MAX, -DBL_MAX) = some (gmin, gmax) ∧
      IsMinOf (allValues dataMap) gmin ∧ IsMaxOf (allValues dataMap) gmax := by
  obtain ⟨r, hr, _, _, hall, hm1, hm2⟩ := globalRangeLoop_spec dataMap hch (DBL_MAX, -DBL_MAX)
  have hbound : ∀ v, v ∈ allValues dataMap → -DBL_MAX ≤ v ∧ v ≤ DBL_MAX := by
    intro v hv
    simp only [allValues, List.mem_flatten, List.mem_map] at hv
    obtain ⟨l, ⟨e, he, hel⟩, hvl⟩ := hv
    exact hfin e he v (hel ▸ hvl)
  have hex : ∃ v, v ∈ allValues dataMap := by
    cases dataMap with
    | nil => exact absurd rfl hne
    | cons e rest =>
      obtain ⟨a, ha⟩ := List.exists_mem_of_ne_nil e.2 (hch e (List.mem_cons_self _ _))
      exact ⟨a, by simp [allValues, ha]⟩
  obtain ⟨v0, hv0⟩ := hex
  refine ⟨r.1, r.2, hr, ⟨?_, fun v hv => (hall v hv).1⟩, ⟨?_, fun v hv => (hall v hv).2⟩⟩
  · rcases hm1 with h | h
    · have h1 : v0 = r.1 :=
        le_antisymm (by rw [h]; exact (hbound v0 hv0).2) (hall v0 hv0).1
      rw [← h1]; exact hv0
    · exact h
  · rcases hm2 with h | h
    · have h1 : v0 = r.2 :=
        le_antisymm (hall v0 hv0).2 (by rw [h]; exact (hbound v0 hv0).1)
      rw [← h1]; exact hv0
    · exact h

theorem mem_allValues {dataMap : List (String × List ℚ)} {e : String × List ℚ} {v : ℚ}
    (he : e ∈ dataMap) (hv : v ∈ e.2) : v ∈ allValues dataMap := by
  simp only [allValues, List.mem_flatten, List.mem_map]
  exact ⟨e.2, ⟨e, he, rfl⟩, hv⟩

theorem isMinOf_unique {l : List ℚ} {a b : ℚ} (ha : IsMinOf l a) (hb : IsMinOf l b) : a = b :=
  le_antisymm (ha.2 b hb.1) (hb.2 a ha.1)

theorem isMaxOf_unique {l : List ℚ} {a b : ℚ} (ha : IsMaxOf l a) (hb : IsMaxOf l b) : a = b :=
  le_antisymm (hb.2 a ha.1) (ha.2 b hb.1)

theorem exampleChannels_finite : FiniteValues exampleChannels := by
  have hbig : (1000 : ℚ) ≤ DBL_MAX := by norm_num [DBL_MAX]
  have hsmall : ∀ e, e ∈ exampleChannels → ∀ v, v ∈ e.2 → -1000 ≤ v ∧ v ≤ 1000 := by decide
  intro e he v hv
  obtain ⟨h1, h2⟩ := hsmall e he v hv
  exact ⟨by linarith, by linarith⟩

theorem exampleChannels_extremes (gmin gmax : ℚ) (hmin : IsMinOf (allValues exampleChannels) gmin)
    (hmax : IsMaxOf (allValues exampleChannels) gmax) : gmin = 0 ∧ gmax = 104 :=
  ⟨isMinOf_unique hmin ⟨by decide, by decide⟩, isMaxOf_unique hmax ⟨by decide, by decide⟩⟩

theorem foldl_smallest64_finite (t : List ℚ) :
    ∀ a : ℚ,
      (t.map Double.finite).foldl (fun smallest v => if v < smallest then v else smallest)
          (Double.finite a) =
        Double.finite (t.foldl (fun smallest v => if v < smallest then v else smallest) a) := by
  induction t with
  | nil => intro a; rfl
  | cons b t ih =>
    intro a
    simp only [List.map_cons, List.foldl_cons, Double.finite_lt_finite]
    split_ifs <;> exact ih _

theorem foldl_largest64_finite (t : List ℚ) :
    ∀ a : ℚ,
      (t.map Double.finite).foldl (fun largest v => if largest < v then v else largest)
          (Double.finite a) =
        Double.finite (t.foldl (fun largest v => if largest < v then v else largest) a) := by
  induction t with
  | nil => intro a; rfl
  | cons b t ih =>
    intro a
    simp only [List.map_cons, List.foldl_cons, Double.finite_lt_finite]
    split_ifs <;> exact ih _

theorem min_element64_finite (values : List ℚ) :
    min_element64 (values.map Double.finite) = (min_element values).map Double.finite := by
  cases values with
  | nil => rfl
  | cons a t =>
    simp only [List.map_cons, min_element64, min_element, Option.map_some']
    rw [foldl_smallest64_finite]

theorem max_element64_finite (values : List ℚ) :
    max_element64 (values.map Double.finite) = (max_element values).map Double.finite := by
  cases values with
  | nil => rfl
  | cons a t =>
    simp only [List.map_cons, max_element64, max_element, Option.map_some']
    rw [foldl_largest64_finite]

theorem globalRangeLoop64_finite (entries : List (String × List ℚ)) :
    ∀ g : ℚ × ℚ,
      globalRangeLoop64 (toDoubleMap entries) (Double.finite g.1, Double.finite g.2) =
        (globalRangeLoop entries g).map fun r => (Double.finite r.1, Double.finite r.2) := by
  induction entries with
  | nil => intro g; rfl
  | cons it rest ih =>
    intro g
    have hmap : toDoubleMap (it :: rest) =
        (it.1, it.2.map Double.finite) :: toDoubleMap rest := rfl
    rw [hmap]
    unfold globalRangeLoop64 globalRangeLoop
    simp only [min_element64_finite, max_element64_finite]
    cases hmin : min_element it.2 with
    | none => simp
    | some lmin =>
      cases hmax : max_element it.2 with
      | none => simp
      | some lmax =>
        simp only [Option.map_some', gt_iff_lt, Double.finite_lt_finite]
        have := ih (if lmin < g.1 then lmin else g.1, if g.2 < lmax then lmax else g.2)
        simp only [] at this
        rw [← this]
        congr 2
        · split_ifs <;> rfl
        · split_ifs <;> rfl

theorem signalDataOf64_appendSignalData64 (kv : SignalMembers) (key c : String)
    (pairs : List (Double × Double)) (hc : c = "X" ∨ c = "Y" ∨ c = "Z") :
    signalDataOf64 (appendSignalData64 kv key pairs) c =
      if key = c then signalDataOf64 kv c ++ pairs else signalDataOf64 kv c := by
  have hXY : ("X" : String) ≠ "Y" := by decide
  have hXZ : ("X" : String) ≠ "Z" := by decide
  have hYZ : ("Y" : String) ≠ "Z" := by decide
  unfold appendSignalData64 signalDataOf64
  rcases hc with h | h | h <;> subst h <;>
    by_cases h1 : key = "X" <;> by_cases h2 : key = "Y" <;> by_cases h3 : key = "Z" <;>
    simp_all

theorem appendSignalData64_fields (kv : SignalMembers) (key : String)
    (pairs : List (Double × Double)) :
    (appendSignalData64 kv key pairs).trackedParameter = kv.trackedParameter ∧
    (appendSignalData64 kv key pairs).signalOffsets = kv.signalOffsets := by
  unfold appendSignalData64
  split_ifs <;> exact ⟨rfl, rfl⟩

/-- One pass of the second loop on a non-empty channel of finite values. -/
theorem visualizeChannel64_spec (configName : String) (samplingRate : Int)
    (globalCenter : Double)
    (st : SignalMembers × List (String × List (Double × Double)) × Double)
    (it : String × List ℚ) (hne : it.2 ≠ []) :
    ∃ kv1 maxTime, visualizeChannel64 configName samplingRate globalCenter st
        (it.1, it.2.map Double.finite) =
        some (kv1, st.2.1 ++ [graphOf64 configName samplingRate globalCenter it], maxTime) ∧
      kv1.trackedParameter = st.1.trackedParameter ∧
      kv1.signalOffsets =
        Function.update st.1.signalOffsets it.1 (some (globalCenter - localCenter64 it.2)) ∧
      (∀ c, c = "X" ∨ c = "Y" ∨ c = "Z" →
        signalDataOf64 kv1 c =
          if it.1 = c then
            signalDataOf64 st.1 c ++
              (sampleTimes64 it.2.length samplingRate).zip (it.2.map Double.finite)
          else signalDataOf64 st.1 c) := by
  obtain ⟨lmin, hmin, _⟩ := min_element_spec it.2 hne
  obtain ⟨lmax, hmax, _⟩ := max_element_spec it.2 hne
  have hlc : localCenter64 it.2 = (Double.finite lmax + Double.finite lmin) / 2 := by
    simp [localCenter64, hmin, hmax]
  have hg : graphOf64 configName samplingRate globalCenter it =
      (if configName = it.1 then configName else configName ++ " " ++ it.1,
        (sampleTimes64 it.2.length samplingRate).zip
          (it.2.map fun v => Double.finite v +
            (globalCenter - (Double.finite lmax + Double.finite lmin) / 2))) := by
    unfold graphOf64
    rw [hlc]
  unfold visualizeChannel64
  simp only [min_element64_finite, max_element64_finite, hmin, hmax, Option.map_some',
    List.length_map, List.map_map]
  rw [hg]
  refine ⟨_, _, rfl, ?_, ?_, ?_⟩
  · rw [(appendSignalData64_fields _ _ _).1]
  · rw [(appendSignalData64_fields _ _ _).2, hlc]
  · intro c hc
    rw [signalDataOf64_appendSignalData64 _ _ _ _ hc]
    rfl

/-- The second loop succeeds on non-empty channels of finite values: one graph per entry is
added, the offsets and the stored samples are the ones of `offsetsAfter64` and
`dataAfter64`. -/
theorem visualizeLoop64_spec (configName : String) (samplingRate : Int)
    (globalCenter : Double) (entries : List (String × List ℚ)) :
    ∀ (st : SignalMembers × List (String × List (Double × Double)) × Double),
      (∀ e, e ∈ entries → e.2 ≠ []) →
      ∃ kv1 maxTime, visualizeLoop64 configName samplingRate globalCenter
          (toDoubleMap entries) st =
          some (kv1, st.2.1 ++ entries.map (graphOf64 configName samplingRate globalCenter),
            maxTime) ∧
        kv1.trackedParameter = st.1.trackedParameter ∧
        kv1.signalOffsets = offsetsAfter64 globalCenter entries st.1.signalOffsets ∧
        (∀ c, c = "X" ∨ c = "Y" ∨ c = "Z" →
          signalDataOf64 kv1 c = dataAfter64 samplingRate c entries (signalDataOf64 st.1 c)) := by
  induction entries with
  | nil =>
    intro st _
    obtain ⟨kv, graphs, mt⟩ := st
    refine ⟨kv, mt, ?_, rfl, rfl, fun c _ => rfl⟩
    simp [visualizeLoop64, toDoubleMap]
  | cons it rest ih =>
    intro st hch
    obtain ⟨kv1, mt1, h1, ht1, ho1, hd1⟩ := visualizeChannel64_spec configName
      samplingRate globalCenter st it (hch it (List.mem_cons_self _ _))
    obtain ⟨kv2, mt2, h2, ht2, ho2, hd2⟩ := ih
      (kv1, st.2.1 ++ [graphOf64 configName samplingRate globalCenter it], mt1)
      (fun e he => hch e (List.mem_cons_of_mem _ he))
    have hmap : toDoubleMap (it :: rest) =
        (it.1, it.2.map Double.finite) :: toDoubleMap rest := rfl
    refine ⟨kv2, mt2, ?_, ht2.trans ht1, ?_, ?_⟩
    · rw [hmap]
      simp only [visualizeLoop64, h1, h2, List.map_cons, List.append_assoc,
        List.singleton_append]
    · rw [ho2]
      simp only [offsetsAfter64, List.foldl_cons]
      rw [ho1]
    · intro c hc
      rw [hd2 c hc]
      simp only [dataAfter64, List.foldl_cons]
      rw [hd1 c hc]

theorem offsetsAfter64_not_mem (globalCenter : Double) (entries : List (String × List ℚ)) :
    ∀ (offsets : String → Option Double) (key : String), key ∉ entries.map Prod.fst →
      offsetsAfter64 globalCenter entries offsets key = offsets key := by
  induction entries with
  | nil => intro offsets key _; rfl
  | cons it rest ih =>
    intro offsets key hk
    simp only [List.map_cons, List.mem_cons, not_or] at hk
    simp only [offsetsAfter64, List.foldl_cons]
    have h := ih (Function.update offsets it.1 (some (globalCenter - localCenter64 it.2)))
      key hk.2
    simp only [offsetsAfter64] at h
    rw [h, Function.update_noteq hk.1]

/-- With distinct keys, the offset stored for an entry is the one computed for it. -/
theorem offsetsAfter64_lookup (globalCenter : Double) (entries : List (String × List ℚ)) :
    ∀ (offsets : String → Option Double) (e : String × List ℚ),
      (entries.map Prod.fst).Nodup → e ∈ entries →
      offsetsAfter64 globalCenter entries offsets e.1 =
        some (globalCenter - localCenter64 e.2) := by
  induction entries with
  | nil => intro _ e _ he; exact absurd he (List.not_mem_nil _)
  | cons it rest ih =>
    intro offsets e hnd he
    simp only [List.map_cons, List.nodup_cons] at hnd
    rcases List.mem_cons.mp he with h | h
    · subst h
      have h1 := offsetsAfter64_not_mem globalCenter rest
        (Function.update offsets e.1 (some (globalCenter - localCenter64 e.2))) e.1 hnd.1
      simp only [offsetsAfter64, List.foldl_cons] at h1 ⊢
      rw [h1, Function.update_same]
    · have h1 := ih
        (Function.update offsets it.1 (some (globalCenter - localCenter64 it.2))) e hnd.2 h
      simp only [offsetsAfter64, List.foldl_cons] at h1 ⊢
      exact h1

theorem dataAfter64_not_mem (samplingRate : Int) (c : String)
    (entries : List (String × List ℚ)) :
    ∀ (stored : List (Double × Double)), c ∉ entries.map Prod.fst →
      dataAfter64 samplingRate c entries stored = stored := by
  induction entries with
  | nil => intro stored _; rfl
  | cons it rest ih =>
    intro stored hk
    simp only [List.map_cons, List.mem_cons, not_or] at hk
    have hne : ¬ it.1 = c := fun h => hk.1 h.symm
    simp only [dataAfter64, List.foldl_cons, if_neg hne]
    exact ih stored hk.2

/-- With distinct keys, the samples stored for channel `c` are the sample times paired with
the values of its entry. -/
theorem dataAfter64_lookup (samplingRate : Int) (c : String) (values : List ℚ)
    (entries : List (String × List ℚ)) :
    ∀ (stored : List (Double × Double)), (entries.map Prod.fst).Nodup →
      (c, values) ∈ entries →
      dataAfter64 samplingRate c entries stored =
        stored ++ (sampleTimes64 values.length samplingRate).zip (values.map Double.finite) := by
  induction entries with
  | nil => intro _ _ he; exact absurd he (List.not_mem_nil _)
  | cons it rest ih =>
    intro stored hnd he
    simp only [List.map_cons, List.nodup_cons] at hnd
    rcases List.mem_cons.mp he with h | h
    · subst h
      simp only [dataAfter64, List.foldl_cons, if_true]
      exact dataAfter64_not_mem samplingRate c rest _ hnd.1
    · have hne : ¬ it.1 = c := by
        intro heq
        apply hnd.1
        rw [heq]
        exact List.mem_map.mpr ⟨(c, values), h, rfl⟩
      simp only [dataAfter64, List.foldl_cons, if_neg hne]
      exact ih stored hnd.2 h

/-- Effect of `visualizeSignal` in binary64 on a non-empty map of non-empty channels of
finite values. -/
theorem visualizeSignal64_spec (dataMap : List (String × List ℚ))
    (configName : String) (penWidth samplingRate : Int) (kv : SignalMembers)
    (hne : dataMap ≠ []) (hch : ∀ e, e ∈ dataMap → e.2 ≠ []) (hfin : FiniteValues dataMap) :
    ∃ r gmin gmax,
      visualizeSignal64 (toDoubleMap dataMap) configName penWidth samplingRate kv = some r ∧
      IsMinOf (allValues dataMap) gmin ∧ IsMaxOf (allValues dataMap) gmax ∧
      r.members.signalOffsets =
        offsetsAfter64 ((Double.finite gmax + Double.finite gmin) / 2) dataMap
          kv.signalOffsets ∧
      (∀ c, c = "X" ∨ c = "Y" ∨ c = "Z" →
        signalDataOf64 r.members c = dataAfter64 samplingRate c dataMap []) ∧
      r.members.trackedParameter = kv.trackedParameter ∧
      r.graphs = dataMap.map
        (graphOf64 configName samplingRate
          ((Double.finite gmax + Double.finite gmin) / 2)) ∧
      r.yAxisRange =
        (Double.finite gmin - padding64 (Double.finite gmin) (Double.finite gmax),
          Double.finite gmax + padding64 (Double.finite gmin) (Double.finite gmax)) := by
  obtain ⟨gmin, gmax, hglobal, hmin, hmax⟩ := globalRangeLoop_minmax dataMap hne hch hfin
  have hg64 := globalRangeLoop64_finite dataMap (DBL_MAX, -DBL_MAX)
  rw [hglobal] at hg64
  simp only [Option.map_some'] at hg64
  obtain ⟨kv1, mt, hloop, ht1, ho1, hd1⟩ := visualizeLoop64_spec configName samplingRate
    ((Double.finite gmax + Double.finite gmin) / 2) dataMap
    ({ kv with signalDataX := [], signalDataY := [], signalDataZ := [] }, [], 0) hch
  unfold visualizeSignal64
  simp only [hg64, hloop]
  refine ⟨_, gmin, gmax, rfl, hmin, hmax, ho1, ?_, ht1, ?_, rfl⟩
  · intro c hc
    rw [hd1 c hc]
    rcases hc with h | h | h <;> subst h <;> rfl
  · simp

theorem localCenter64_spec (values : List ℚ) (hne : values ≠ []) :
    ∃ lmin lmax, IsMinOf values lmin ∧ IsMaxOf values lmax ∧
      localCenter64 values = (Double.finite lmax + Double.finite lmin) / 2 := by
  obtain ⟨lmin, hmin, hminspec⟩ := min_element_spec values hne
  obtain ⟨lmax, hmax, hmaxspec⟩ := max_element_spec values hne
  exact ⟨lmin, lmax, hminspec, hmaxspec, by simp [localCenter64, hmin, hmax]⟩

theorem sampleTimes64_length (size : Nat) (samplingRate : Int) :
    (sampleTimes64 size samplingRate).length = size := by
  unfold sampleTimes64
  rw [List.length_map, List.length_range]

/-- The time of sample `i` is finite and within `2 ^ (-53)` of `i / samplingRate`. -/
theorem sampleTime64_spec (i : Nat) (samplingRate : Int) (hr : 0 < samplingRate)
    (hr2 : samplingRate < 2 ^ 31) (hi : i < 2 ^ 31) :
    ∃ t, Double.ofInt (i : Int) / Double.ofInt samplingRate = Double.finite t ∧
      |t - (i : ℚ) / (samplingRate : ℚ)| ≤ (i : ℚ) / (samplingRate : ℚ) / 2 ^ 53 := by
  obtain ⟨n, hn⟩ : ∃ n : Nat, samplingRate = (n : Int) := ⟨samplingRate.toNat, by omega⟩
  subst hn
  have hn0 : 0 < n := by exact_mod_cast hr
  have hn31 : n < 2 ^ 31 := by exact_mod_cast hr2
  have hnq : (0 : ℚ) < (n : ℚ) := by exact_mod_cast hn0
  rw [Double.ofInt_natCast i (by omega), Double.ofInt_natCast n (by omega),
    Double.div_finite _ _ (ne_of_gt hnq)]
  push_cast
  rcases Nat.eq_zero_or_pos i with h0 | hpos
  · subst h0
    refine ⟨0, ?_, ?_⟩
    · simp [Double.round]
    · simp
  · have hiq : (1 : ℚ) ≤ (i : ℚ) := by exact_mod_cast hpos
    have hi31 : (i : ℚ) < 2 ^ 31 := by exact_mod_cast hi
    have hn31q : (n : ℚ) < 2 ^ 31 := by exact_mod_cast hn31
    have hn1 : (1 : ℚ) ≤ (n : ℚ) := by exact_mod_cast hn0
    apply Double.round_normal
    · have h1 : (2 : ℚ) ^ (-1022 : Int) ≤ 1 / 2 ^ 31 := by
        rw [zpow_neg, ← one_div]
        apply one_div_le_one_div_of_le (by positivity)
        rw [zpow_ofNat]
        exact pow_le_pow_right₀ (by norm_num) (by norm_num)
      refine le_trans h1 ?_
      rw [div_le_div_iff₀ (by positivity) hnq]
      nlinarith
    · have h1 : (i : ℚ) / (n : ℚ) ≤ (i : ℚ) := div_le_self (by linarith) hn1
      have h2 : ((2 : ℚ) ^ 31) < (2 : ℚ) ^ (1023 : Int) := by
        rw [zpow_ofNat]
        exact pow_lt_pow_right₀ (by norm_num) (by norm_num)
      linarith

/-- The vector of sample times consists of finite doubles, each within `2 ^ (-53)` of
`i / samplingRate`. -/
theorem sampleTimes64_spec (n : Nat) (samplingRate : Int) (hr : 0 < samplingRate)
    (hr2 : samplingRate < 2 ^ 31) (hn : n ≤ 2 ^ 31) :
    ∃ ts : List ℚ, sampleTimes64 n samplingRate = ts.map Double.finite ∧ ts.length = n ∧
      ∀ i, i < n →
        |ts.getD i 0 - (i : ℚ) / (samplingRate : ℚ)| ≤
          (i : ℚ) / (samplingRate : ℚ) / 2 ^ 53 := by
  refine ⟨(List.range n).map fun (i : Nat) =>
    Double.toRat (Double.ofInt (i : Int) / Double.ofInt samplingRate), ?_, by simp, ?_⟩
  · unfold sampleTimes64
    rw [List.map_map]
    apply List.map_congr_left
    intro i hi
    have hi' : i < n := List.mem_range.mp hi
    obtain ⟨t, ht, _⟩ := sampleTime64_spec i samplingRate hr hr2 (by omega)
    simp only [Function.comp, ht, Double.toRat]
  · intro i hi
    obtain ⟨t, ht, hb⟩ := sampleTime64_spec i samplingRate hr hr2 (by omega)
    rw [List.getD_eq_getElem _ _ (by simpa using hi)]
    simp only [List.getElem_map, List.getElem_range, ht, Double.toRat]
    exact hb

/-- Two numbers within `2 ^ (-53)` of `i / r` and `j / r`, `i < j`, are in this order, and
their difference does not round to zero. -/
theorem sampleTimes_apart (i j : Nat) (samplingRate : Int) (ti tj : ℚ) (hij : i < j)
    (hr : 0 < samplingRate) (hr2 : samplingRate < 2 ^ 31) (hj : j < 2 ^ 31)
    (hi1 : |ti - (i : ℚ) / (samplingRate : ℚ)| ≤ (i : ℚ) / (samplingRate : ℚ) / 2 ^ 53)
    (hj1 : |tj - (j : ℚ) / (samplingRate : ℚ)| ≤ (j : ℚ) / (samplingRate : ℚ) / 2 ^ 53) :
    ti < tj ∧ Double.finite tj - Double.finite ti ≠ 0 := by
  have hrq : (0 : ℚ) < (samplingRate : ℚ) := by exact_mod_cast hr
  have hr1 : (1 : ℚ) ≤ (samplingRate : ℚ) := by exact_mod_cast hr
  have hr31 : (samplingRate : ℚ) < 2 ^ 31 := by exact_mod_cast hr2
  have hiq : (0 : ℚ) ≤ (i : ℚ) := by positivity
  have hijq : (i : ℚ) + 1 ≤ (j : ℚ) := by exact_mod_cast hij
  have hj31 : (j : ℚ) < 2 ^ 31 := by exact_mod_cast hj
  obtain ⟨hi2, hi3⟩ := abs_le.mp hi1
  obtain ⟨hj2, hj3⟩ := abs_le.mp hj1
  have ha : (0 : ℚ) ≤ (i : ℚ) / (samplingRate : ℚ) := by positivity
  have hb : (j : ℚ) / (samplingRate : ℚ) - (i : ℚ) / (samplingRate : ℚ) =
      ((j : ℚ) - (i : ℚ)) / (samplingRate : ℚ) := by ring
  have hb1 : 1 / (samplingRate : ℚ) ≤ ((j : ℚ) - (i : ℚ)) / (samplingRate : ℚ) :=
    div_le_div_of_nonneg_right (by linarith) (le_of_lt hrq)
  have hjr : (j : ℚ) / (samplingRate : ℚ) ≤ (j : ℚ) := div_le_self (by linarith) hr1
  have hir : (i : ℚ) / (samplingRate : ℚ) ≤ (i : ℚ) := div_le_self hiq hr1
  have hinv : 1 / (2 : ℚ) ^ 31 < 1 / (samplingRate : ℚ) :=
    one_div_lt_one_div_of_lt hrq hr31
  -- the gap is at least half of 1 / samplingRate
  have hgap : 1 / (2 : ℚ) ^ 32 < tj - ti := by
    have e53 : (j : ℚ) / (samplingRate : ℚ) / 2 ^ 53 ≤ 1 / (samplingRate : ℚ) / 2 ^ 22 := by
      rw [div_div, div_div, div_le_div_iff₀ (by positivity) (by positivity)]
      nlinarith
    have e53' : (i : ℚ) / (samplingRate : ℚ) / 2 ^ 53 ≤ 1 / (samplingRate : ℚ) / 2 ^ 22 := by
      rw [div_div, div_div, div_le_div_iff₀ (by positivity) (by positivity)]
      nlinarith
    have hhalf : 1 / (samplingRate : ℚ) / 2 ^ 22 + 1 / (samplingRate : ℚ) / 2 ^ 22 ≤
        1 / (samplingRate : ℚ) / 2 := by
      have hpos : (0 : ℚ) < 1 / (samplingRate : ℚ) := by positivity
      generalize 1 / (samplingRate : ℚ) = u at hpos
      norm_num
      linarith
    have h32 : 1 / (2 : ℚ) ^ 32 = 1 / 2 ^ 31 / 2 := by norm_num
    have hinv2 : 1 / (2 : ℚ) ^ 31 / 2 < 1 / (samplingRate : ℚ) / 2 :=
      div_lt_div_of_pos_right hinv (by norm_num)
    linarith
  have hlt : ti < tj := by
    have : (0 : ℚ) < 1 / 2 ^ 32 := by positivity
    linarith
  refine ⟨hlt, ?_⟩
  rw [Double.sub_finite]
  have hup : tj - ti < (2 : ℚ) ^ (1023 : Int) := by
    have h2 : ((2 : ℚ) ^ 32) < (2 : ℚ) ^ (1023 : Int) := by
      rw [zpow_ofNat]
      exact pow_lt_pow_right₀ (by norm_num) (by norm_num)
    have e1 : (j : ℚ) / (samplingRate : ℚ) / 2 ^ 53 ≤ (j : ℚ) / (samplingRate : ℚ) :=
      div_le_self (by positivity) (by norm_num)
    have e2 : (i : ℚ) / (samplingRate : ℚ) / 2 ^ 53 ≤ (i : ℚ) / (samplingRate : ℚ) :=
      div_le_self (by positivity) (by norm_num)
    have : (2 : ℚ) ^ 32 = 2 * 2 ^ 31 := by norm_num
    linarith
  have hlow : (2 : ℚ) ^ (-1022 : Int) ≤ tj - ti := by
    have h1 : (2 : ℚ) ^ (-1022 : Int) ≤ 1 / 2 ^ 32 := by
      rw [zpow_neg, ← one_div]
      apply one_div_le_one_div_of_le (by positivity)
      rw [zpow_ofNat]
      exact pow_le_pow_right₀ (by norm_num) (by norm_num)
    exact le_trans h1 (le_of_lt hgap)
  obtain ⟨r, hr', hrb⟩ := Double.round_normal (tj - ti) hlow hup
  rw [hr', Double.zero_eq]
  intro h0
  have hr0 : r = 0 := by
    injection h0
  rw [hr0] at hrb
  have hpos : 0 < tj - ti := by linarith
  rw [zero_sub, abs_neg, abs_of_pos hpos] at hrb
  have : (tj - ti) / 2 ^ 53 < tj - ti := div_lt_self hpos (by norm_num)
  linarith

/-! ## Claims on the display offsets -/

/-- C14, as stated, fails in binary64. For the channels `"X" = [0, 0.1]` and
`"Y" = [0, 1.2]` (the doubles nearest to 0.1 and 1.2) `globalCenter` is 0.6 exactly, the
displayed values of `"X"` are its stored offset and 0.65 rounded, and their midpoint is
`2 ^ (-54)` below `globalCenter`; the stored offset is not the exact difference of the two
centers either. For the single channel `[2 ^ 1023, 3 * 2 ^ 1022]` of finite values both sums
overflow, the stored offset is NaN and so is every displayed value. -/
theorem visualizeSignal64_midpoint_off :
    Double.round (1 / 10) = Double.finite (3602879701896397 / 36028797018963968) ∧
    Double.round (12 / 10) = Double.finite (5404319552844595 / 4503599627370496) ∧
    (visualizeSignal64
        (toDoubleMap [("X", [0, 3602879701896397 / 36028797018963968]),
          ("Y", [0, 5404319552844595 / 4503599627370496])])
        "Cfg" 1 1 (membersTracking [])).map
      (fun r => (r.members.signalOffsets "X", r.graphs.map fun g => g.2.map Prod.snd)) =
      some (some (Double.finite (4953959590107545 / 9007199254740992)),
        [[Double.finite (4953959590107545 / 9007199254740992),
            Double.finite (1463669878895411 / 2251799813685248)],
          [Double.finite 0, Double.finite (5404319552844595 / 4503599627370496)]]) ∧
    (Double.finite (5404319552844595 / 4503599627370496) + Double.finite 0) / 2 =
      Double.finite (5404319552844595 / 9007199254740992) ∧
    ((1463669878895411 / 2251799813685248 : ℚ) + 4953959590107545 / 9007199254740992) / 2 =
      5404319552844595 / 9007199254740992 - 1 / 2 ^ 54 ∧
    (4953959590107545 / 9007199254740992 : ℚ) ≠
      (5404319552844595 / 4503599627370496 + 0) / 2 -
        (3602879701896397 / 36028797018963968 + 0) / 2 ∧
    (visualizeSignal64 (toDoubleMap [("X", [2 ^ 1023, 3 * 2 ^ 1022])]) "Cfg" 1 1
        (membersTracking [])).map
      (fun r => (r.members.signalOffsets "X", r.graphs.map fun g => g.2.map Prod.snd)) =
      some (some Double.nan, [[Double.nan, Double.nan]]) := by
  refine ⟨by decide!, by decide!, by decide!, by decide!, by norm_num, by norm_num, by decide!⟩

/-- C14 (amended): for a non-empty map of non-empty channels of finite values with distinct
keys, `visualizeSignal` succeeds, and the offset it stores for each channel is the binary64
result of `globalCenter - localCenter` with `globalCenter = (globalMax + globalMin) / 2` and
`localCenter = (localMax + localMin) / 2` computed in binary64 from the exact least and
greatest values of all channels and of the channel; the channel's graph holds each value
plus that offset, added in binary64. For the exact value of the offset expression the
shifted values have least value `localMin + offset`, greatest value `localMax + offset`
and midpoint exactly `(globalMax + globalMin) / 2`; the displayed midpoint agrees with it
up to the rounding of these operations. -/
theorem visualizeSignal64_offsets (dataMap : List (String × List ℚ))
    (configName : String) (penWidth samplingRate : Int) (kv : SignalMembers)
    (hne : dataMap ≠ []) (hch : ∀ e, e ∈ dataMap → e.2 ≠ [])
    (hkeys : (dataMap.map Prod.fst).Nodup) (hfin : FiniteValues dataMap) :
    ∃ r gmin gmax,
      visualizeSignal64 (toDoubleMap dataMap) configName penWidth samplingRate kv = some r ∧
      IsMinOf (allValues dataMap) gmin ∧ IsMaxOf (allValues dataMap) gmax ∧
      ∀ e, e ∈ dataMap → ∃ lmin lmax offset,
        IsMinOf e.2 lmin ∧ IsMaxOf e.2 lmax ∧
        r.members.signalOffsets e.1 = some offset ∧
        offset = (Double.finite gmax + Double.finite gmin) / 2 -
          (Double.finite lmax + Double.finite lmin) / 2 ∧
        (∃ g, g ∈ r.graphs ∧
          g.2.map Prod.snd = e.2.map fun v => Double.finite v + offset) ∧
        IsMinOf (e.2.map fun v => v + ((gmax + gmin) / 2 - (lmax + lmin) / 2))
          (lmin + ((gmax + gmin) / 2 - (lmax + lmin) / 2)) ∧
        IsMaxOf (e.2.map fun v => v + ((gmax + gmin) / 2 - (lmax + lmin) / 2))
          (lmax + ((gmax + gmin) / 2 - (lmax + lmin) / 2)) ∧
        ((lmax + ((gmax + gmin) / 2 - (lmax + lmin) / 2)) +
          (lmin + ((gmax + gmin) / 2 - (lmax + lmin) / 2))) / 2 = (gmax + gmin) / 2 := by
  obtain ⟨r, gmin, gmax, hr, hmin, hmax, hoff, _, _, hgraphs, _⟩ :=
    visualizeSignal64_spec dataMap configName penWidth samplingRate kv hne hch hfin
  refine ⟨r, gmin, gmax, hr, hmin, hmax, ?_⟩
  intro e he
  obtain ⟨lmin, lmax, hlmin, hlmax, hlc⟩ := localCenter64_spec e.2 (hch e he)
  refine ⟨lmin, lmax, _, hlmin, hlmax, ?_, rfl, ?_, ?_, ?_, by ring⟩
  · rw [hoff, offsetsAfter64_lookup _ dataMap _ e hkeys he, hlc]
  · refine ⟨graphOf64 configName samplingRate
      ((Double.finite gmax + Double.finite gmin) / 2) e, ?_, ?_⟩
    · rw [hgraphs]
      exact List.mem_map_of_mem _ he
    · unfold graphOf64
      rw [hlc]
      apply List.map_snd_zip
      rw [List.length_map, sampleTimes64_length]
  · constructor
    · exact List.mem_map_of_mem _ hlmin.1
    · intro v hv
      obtain ⟨u, hu, rfl⟩ := List.mem_map.mp hv
      have := hlmin.2 u hu
      linarith
  · constructor
    · exact List.mem_map_of_mem _ hlmax.1
    · intro v hv
      obtain ⟨u, hu, rfl⟩ := List.mem_map.mp hv
      have := hlmax.2 u hu
      linarith

/-- Witness of the amended C14: channels `"X"` = 0, 10, 0 and `"Y"` = 100, 104; the offset
stored for `"X"` is `52 - 5 = 47`, no operation rounds. -/
theorem visualizeSignal64_offsets_witness :
    ∃ r, visualizeSignal64 (toDoubleMap exampleChannels) "Cfg" 1 2 (membersTracking []) =
        some r ∧
      r.members.signalOffsets "X" = some (Double.finite 47) := by
  obtain ⟨r, gmin, gmax, hr, hmin, hmax, hall⟩ := visualizeSignal64_offsets
    exampleChannels "Cfg" 1 2 (membersTracking []) (by decide) (by decide) (by decide)
    exampleChannels_finite
  obtain ⟨lmin, lmax, offset, hlmin, hlmax, hoff, hval, _⟩ :=
    hall ("X", [0, 10, 0]) (by decide)
  obtain ⟨h1, h2⟩ := exampleChannels_extremes gmin gmax hmin hmax
  have h3 : lmin = 0 := isMinOf_unique hlmin ⟨by decide, by decide⟩
  have h4 : lmax = 10 := isMaxOf_unique hlmax ⟨by decide, by decide⟩
  refine ⟨r, hr, ?_⟩
  rw [hoff, hval, h1, h2, h3, h4]
  decide!

/-- C16, as stated, fails in binary64. For the single channel `[1e16, 1e16 + 2]` the
padding 0.2 is absorbed by the rounding of `globalMin - padding` and `globalMax + padding`:
the y-axis range set is `[1e16, 1e16 + 2]` and the two displayed values lie on its bounds,
not strictly inside. For the single channel `[2 ^ 1023, 3 * 2 ^ 1022]` of finite values the
displayed values are NaN, which lie in no range. -/
theorem visualizeSignal64_padding_absorbed :
    Double.round 10000000000000000 = Double.finite 10000000000000000 ∧
    Double.round 10000000000000002 = Double.finite 10000000000000002 ∧
    (visualizeSignal64 (toDoubleMap [("X", [10000000000000000, 10000000000000002])])
        "Cfg" 1 1 (membersTracking [])).map
      (fun r => (r.graphs.map fun g => g.2.map Prod.snd, r.yAxisRange)) =
      some ([[Double.finite 10000000000000000, Double.finite 10000000000000002]],
        (Double.finite 10000000000000000, Double.finite 10000000000000002)) ∧
    (visualizeSignal64 (toDoubleMap [("X", [2 ^ 1023, 3 * 2 ^ 1022])]) "Cfg" 1 1
        (membersTracking [])).map
      (fun r => r.graphs.map fun g => g.2.map Prod.snd) =
      some [[Double.nan, Double.nan]] := by
  refine ⟨by decide!, by decide!, by decide!, by decide!⟩

/-- C16 (amended): for a non-empty map of non-empty channels of finite values with distinct
keys, `visualizeSignal` sets the y-axis range `[globalMin - padding, globalMax + padding]`
computed in binary64, where `padding` is the binary64 product `(globalMax - globalMin) * 0.1`,
or 1 when that product is zero; each displayed value is the value plus the channel's stored
offset, added in binary64. For the exact value of the offset expression every shifted value
lies within `[globalMin, globalMax]` and strictly inside the exact range
`[globalMin - padding, globalMax + padding]` with `padding` a tenth of
`globalMax - globalMin`, or 1 when that difference is 0; in binary64 this holds up to the
rounding of these operations. -/
theorem visualizeSignal64_y_range (dataMap : List (String × List ℚ))
    (configName : String) (penWidth samplingRate : Int) (kv : SignalMembers)
    (hne : dataMap ≠ []) (hch : ∀ e, e ∈ dataMap → e.2 ≠ [])
    (hkeys : (dataMap.map Prod.fst).Nodup) (hfin : FiniteValues dataMap) :
    ∃ r gmin gmax,
      visualizeSignal64 (toDoubleMap dataMap) configName penWidth samplingRate kv = some r ∧
      IsMinOf (allValues dataMap) gmin ∧ IsMaxOf (allValues dataMap) gmax ∧
      r.yAxisRange =
        (Double.finite gmin -
            (if (Double.finite gmax - Double.finite gmin) * Double.round (1 / 10) = 0 then 1
              else (Double.finite gmax - Double.finite gmin) * Double.round (1 / 10)),
          Double.finite gmax +
            (if (Double.finite gmax - Double.finite gmin) * Double.round (1 / 10) = 0 then 1
              else (Double.finite gmax - Double.finite gmin) * Double.round (1 / 10))) ∧
      (∀ e, e ∈ dataMap → ∃ lmin lmax offset,
        IsMinOf e.2 lmin ∧ IsMaxOf e.2 lmax ∧
        r.members.signalOffsets e.1 = some offset ∧
        offset = (Double.finite gmax + Double.finite gmin) / 2 -
          (Double.finite lmax + Double.finite lmin) / 2 ∧
        (∃ g, g ∈ r.graphs ∧
          g.2.map Prod.snd = e.2.map fun v => Double.finite v + offset) ∧
        ∀ v, v ∈ e.2 →
          gmin ≤ v + ((gmax + gmin) / 2 - (lmax + lmin) / 2) ∧
          v + ((gmax + gmin) / 2 - (lmax + lmin) / 2) ≤ gmax ∧
          gmin - (if gmax - gmin = 0 then 1 else (gmax - gmin) / 10) <
            v + ((gmax + gmin) / 2 - (lmax + lmin) / 2) ∧
          v + ((gmax + gmin) / 2 - (lmax + lmin) / 2) <
            gmax + (if gmax - gmin = 0 then 1 else (gmax - gmin) / 10)) := by
  obtain ⟨r, gmin, gmax, hr, hmin, hmax, hoff, _, _, hgraphs, hy⟩ :=
    visualizeSignal64_spec dataMap configName penWidth samplingRate kv hne hch hfin
  have hle : gmin ≤ gmax := hmax.2 gmin hmin.1
  have hpos : 0 < (if gmax - gmin = 0 then (1 : ℚ) else (gmax - gmin) / 10) := by
    split
    · norm_num
    · rename_i h
      have : 0 < gmax - gmin := lt_of_le_of_ne (by linarith) (Ne.symm h)
      linarith
  refine ⟨r, gmin, gmax, hr, hmin, hmax, hy, ?_⟩
  intro e he
  obtain ⟨lmin, lmax, hlmin, hlmax, hlc⟩ := localCenter64_spec e.2 (hch e he)
  refine ⟨lmin, lmax, _, hlmin, hlmax, ?_, rfl, ?_, ?_⟩
  · rw [hoff, offsetsAfter64_lookup _ dataMap _ e hkeys he, hlc]
  · refine ⟨graphOf64 configName samplingRate
      ((Double.finite gmax + Double.finite gmin) / 2) e, ?_, ?_⟩
    · rw [hgraphs]
      exact List.mem_map_of_mem _ he
    · unfold graphOf64
      rw [hlc]
      apply List.map_snd_zip
      rw [List.length_map, sampleTimes64_length]
  · intro v hv
    have h1 := hlmin.2 v hv
    have h2 := hlmax.2 v hv
    have h3 := hmin.2 lmin (mem_allValues he hlmin.1)
    have h4 := hmax.2 lmax (mem_allValues he hlmax.1)
    refine ⟨by linarith, by linarith, by linarith, by linarith⟩

/-- Witness of the amended C16: channels `"X"` = 0, 10, 0 and `"Y"` = 100, 104; the y-axis
range set is `[0 - 10.4, 104 + 10.4]` with 10.4 and the two bounds rounded to binary64. -/
theorem visualizeSignal64_y_range_witness :
    ∃ r, visualizeSignal64 (toDoubleMap exampleChannels) "Cfg" 1 2 (membersTracking []) =
        some r ∧
      r.yAxisRange =
        (Double.finite (-5854679515581645 / 562949953421312),
          Double.finite (4025092166962381 / 35184372088832)) := by
  obtain ⟨r, gmin, gmax, hr, hmin, hmax, hy, _⟩ := visualizeSignal64_y_range
    exampleChannels "Cfg" 1 2 (membersTracking []) (by decide) (by decide) (by decide)
    exampleChannels_finite
  obtain ⟨h1, h2⟩ := exampleChannels_extremes gmin gmax hmin hmax
  refine ⟨r, hr, ?_⟩
  rw [hy, h1, h2]
  decide!

/-! ## Lemmas on the cursor readout -/

/-- The cursor update on the instance's own surface writes the readout `(x, y)` and places
the horizontal line at `y + trackedOffset`. -/
theorem updateCursorItems_own (this : Nat) (w : World)
    (hg : (w.vLinesMap (w.visualizers this).customPlot).isSome) :
    ∃ w1, updateCursorItems this (w.visualizers this).customPlot w = some w1 ∧
      SameSelection w w1 ∧ w1.plots = w.plots ∧
      (w1.visualizers this).coordText =
        ((w.plots (w.visualizers this).customPlot).xAxis_pixelToCoord
            (w.visualizers this).cursorPos.x,
          if (w.plots (w.visualizers this).customPlot).isSpectrogram then
            (w.plots (w.visualizers this).customPlot).yAxis_pixelToCoord
              (w.visualizers this).cursorPos.y
          else getYValueFromSignal (w.visualizers this)
            ((w.plots (w.visualizers this).customPlot).xAxis_pixelToCoord
              (w.visualizers this).cursorPos.x)) ∧
      (0 ≤ (w.visualizers this).cursorPos.y →
        (w.visualizers this).cursorPos.y ≤ (w.plots (w.visualizers this).customPlot).height →
        (w1.visualizers this).hLine =
          { start :=
              { x := (w.plots (w.visualizers this).customPlot).xRange.lower
                y := (w1.visualizers this).coordText.2 + trackedOffset (w.visualizers this) }
            end_ :=
              { x := (w.plots (w.visualizers this).customPlot).xRange.upper
                y := (w1.visualizers this).coordText.2 + trackedOffset (w.visualizers this) }
            visible := true }) := by
  have hh : ((hideAllVerticalLines w).vLinesMap (w.visualizers this).customPlot).isSome := by
    rw [hideAllVerticalLines_isSome]; exact hg
  obtain ⟨v0, hv0⟩ := Option.isSome_iff_exists.mp hh
  obtain ⟨w1, h1, hsame, _, hplots, _, _⟩ :=
    updateCursorItems_ok this (w.visualizers this).customPlot w hg
  refine ⟨w1, h1, hsame, hplots, ?_, ?_⟩
  · unfold updateCursorItems at h1
    simp only [hv0, if_true] at h1
    have h2 := Option.some.inj h1
    rw [← h2, (updateVerticalLineInAllPlots_frame _ _).2.2]
    simp
  · intro hy0 hy1
    unfold updateCursorItems at h1
    simp only [hv0, if_true] at h1
    have h2 := Option.some.inj h1
    rw [← h2, (updateVerticalLineInAllPlots_frame _ _).2.2]
    simp [hy0, hy1]

theorem dragSelectionTo_alive (this : Nat) (w : World) (halive : SelectionAlive w) :
    ∃ w1, dragSelectionTo this w = some w1 ∧ w1.visualizers = w.visualizers ∧
      w1.plots = w.plots := by
  unfold dragSelectionTo
  cases hs : w.selectionRect with
  | none => exact ⟨w, rfl, rfl, rfl⟩
  | some sel =>
    obtain ⟨r, hr⟩ := Option.isSome_iff_exists.mp (halive sel hs)
    simp only [hr]
    exact ⟨_, rfl, rfl, rfl⟩

theorem onMouseDrag_alive (this : Nat) (w : World) (halive : SelectionAlive w) :
    ∃ w1, onMouseDrag this w = some w1 ∧ w1.visualizers = w.visualizers := by
  unfold onMouseDrag
  split
  · obtain ⟨w1, h1, hv, _⟩ := dragSelectionTo_alive this w halive
    exact ⟨w1, h1, hv⟩
  · exact ⟨w, rfl, rfl⟩

theorem selectionAlive_of_same {w w1 : World} (h : SameSelection w w1)
    (halive : SelectionAlive w) : SelectionAlive w1 := by
  obtain ⟨h1, h2, _, _⟩ := h
  intro sel hsel
  rw [h1] at hsel
  have := halive sel hsel
  unfold World.rectAt at this ⊢
  rw [h2]
  exact this

/-- A pointer move over the instance's own surface succeeds when the instance has its
vertical line and the shared selection pointer is not dangling; the readout and the
horizontal line are the ones written by the cursor update at the new position. -/
theorem eventFilter_MouseMove_readout (this : Nat) (pos : QPoint) (w : World)
    (hg : HasGuide w this) (halive : SelectionAlive w)
    (hsp : (w.plots (w.visualizers this).customPlot).isSpectrogram = false)
    (hy0 : 0 ≤ pos.y) (hy1 : pos.y ≤ (w.plots (w.visualizers this).customPlot).height) :
    ∃ w1, eventFilter this (QEvent.MouseMove pos) w = some w1 ∧
      (w1.visualizers this).coordText =
        ((w.plots (w.visualizers this).customPlot).xAxis_pixelToCoord pos.x,
          getYValueFromSignal (w.visualizers this)
            ((w.plots (w.visualizers this).customPlot).xAxis_pixelToCoord pos.x)) ∧
      (w1.visualizers this).hLine =
        { start :=
            { x := (w.plots (w.visualizers this).customPlot).xRange.lower
              y := getYValueFromSignal (w.visualizers this)
                  ((w.plots (w.visualizers this).customPlot).xAxis_pixelToCoord pos.x) +
                trackedOffset (w.visualizers this) }
          end_ :=
            { x := (w.plots (w.visualizers this).customPlot).xRange.upper
              y := getYValueFromSignal (w.visualizers this)
                  ((w.plots (w.visualizers this).customPlot).xAxis_pixelToCoord pos.x) +
                trackedOffset (w.visualizers this) }
          visible := true } := by
  have hkv : (w.setCursorPos this pos).visualizers this =
      { w.visualizers this with cursorPos := pos } := by
    simp [World.setCursorPos]
  have hcp : ((w.setCursorPos this pos).visualizers this).customPlot =
      (w.visualizers this).customPlot := by rw [hkv]
  have hg1 : ((w.setCursorPos this pos).vLinesMap
      ((w.setCursorPos this pos).visualizers this).customPlot).isSome := by
    rw [hcp]; exact hg
  obtain ⟨w2, h2, hsame, hplots, htext, hline⟩ :=
    updateCursorItems_own this (w.setCursorPos this pos) hg1
  rw [hcp] at h2
  have hget : getYValueFromSignal ((w.setCursorPos this pos).visualizers this) =
      getYValueFromSignal (w.visualizers this) := by
    rw [hkv]; rfl
  have hoff : trackedOffset ((w.setCursorPos this pos).visualizers this) =
      trackedOffset (w.visualizers this) := by
    rw [hkv]; rfl
  have hpos : ((w.setCursorPos this pos).visualizers this).cursorPos = pos := by
    rw [hkv]
  have hpl : (w.setCursorPos this pos).plots = w.plots := rfl
  rw [hcp, hpos, hpl, hsp, hget] at htext
  simp only [Bool.false_eq_true, if_false] at htext
  have hline1 := hline (by rw [hpos]; exact hy0) (by rw [hcp, hpos, hpl]; exact hy1)
  rw [hcp, hpl, hoff, htext] at hline1
  have halive2 : SelectionAlive w2 :=
    selectionAlive_of_same hsame (selectionAlive_of_same ⟨rfl, rfl, rfl, rfl⟩ halive)
  unfold eventFilter
  simp only [h2]
  split
  · obtain ⟨w3, h3, hv3⟩ := onMouseDrag_alive this w2 halive2
    refine ⟨w3, h3, ?_, ?_⟩
    · rw [hv3]; exact htext
    · rw [hv3]; exact hline1
  · exact ⟨w2, rfl, htext, hline1⟩

theorem trackedSignalData_of (kv : KinematicVisualizer) (c : String)
    (ht : kv.trackedParameter = c) (hc : c = "X" ∨ c = "Y" ∨ c = "Z") :
    trackedSignalData kv = some (signalDataOf kv c) ∧
    trackedOffset kv = (kv.signalOffsets c).getD 0 := by
  have hYX : ("Y" : String) ≠ "X" := by decide
  have hZX : ("Z" : String) ≠ "X" := by decide
  have hZY : ("Z" : String) ≠ "Y" := by decide
  unfold trackedSignalData trackedOffset signalDataOf
  rcases hc with h | h | h <;> subst h <;> simp [ht, hYX, hZX, hZY]

theorem trackedSignalData64_of (kv : SignalMembers) (c : String)
    (ht : kv.trackedParameter = c) (hc : c = "X" ∨ c = "Y" ∨ c = "Z") :
    trackedSignalData64 kv = some (signalDataOf64 kv c) ∧
    ∀ y, adjustedY64 kv y = y + (kv.signalOffsets c).getD 0 := by
  have hYX : ("Y" : String) ≠ "X" := by decide
  have hZX : ("Z" : String) ≠ "X" := by decide
  have hZY : ("Z" : String) ≠ "Y" := by decide
  unfold trackedSignalData64 adjustedY64 signalDataOf64
  rcases hc with h | h | h <;> subst h <;> simp [ht, hYX, hZX, hZY]

theorem zip_finite (ts values : List ℚ) :
    (ts.map Double.finite).zip (values.map Double.finite) = toDoubles (ts.zip values) := by
  unfold toDoubles
  rw [List.zip_map]
  rfl

theorem zip_getD_pair (ts values : List ℚ) (i : Nat) (h1 : i < ts.length)
    (h2 : i < values.length) :
    (ts.zip values).getD i (0, 0) = (ts.getD i 0, values.getD i 0) := by
  have hlen : i < (ts.zip values).length := by
    rw [List.length_zip]; omega
  rw [List.getD_eq_getElem _ _ hlen, List.getD_eq_getElem _ _ h1, List.getD_eq_getElem _ _ h2,
    List.getElem_zip]

/-- Readout at the time of a sample after `visualizeSignal` with a positive sampling rate:
the first sample's value at the first time, and the interpolation expression of the source on
the sample and its predecessor at a later time. -/
theorem getYValueFromSignal64_at_sample_time (kv : SignalMembers) (c : String)
    (values : List ℚ) (samplingRate : Int) (hr : 0 < samplingRate)
    (hr2 : samplingRate < 2 ^ 31) (hn : values.length ≤ 2 ^ 31)
    (ht : kv.trackedParameter = c) (hc : c = "X" ∨ c = "Y" ∨ c = "Z")
    (hdata : signalDataOf64 kv c =
      (sampleTimes64 values.length samplingRate).zip (values.map Double.finite))
    (i : Nat) (hi : i < values.length) :
    (i = 0 →
      getYValueFromSignal64 kv ((sampleTimes64 values.length samplingRate).getD i 0) =
        Double.finite (values.getD 0 0)) ∧
    (0 < i →
      getYValueFromSignal64 kv ((sampleTimes64 values.length samplingRate).getD i 0) =
        Double.finite (values.getD (i - 1) 0) +
          (Double.finite (values.getD i 0) - Double.finite (values.getD (i - 1) 0)) *
            ((sampleTimes64 values.length samplingRate).getD i 0 -
              (sampleTimes64 values.length samplingRate).getD (i - 1) 0) /
            ((sampleTimes64 values.length samplingRate).getD i 0 -
              (sampleTimes64 values.length samplingRate).getD (i - 1) 0)) := by
  obtain ⟨ts, hts, hlen, hb⟩ := sampleTimes64_spec values.length samplingRate hr hr2 hn
  have htimes : ∀ k, k < values.length →
      (sampleTimes64 values.length samplingRate).getD k 0 = Double.finite (ts.getD k 0) := by
    intro k hk
    rw [hts, List.getD_eq_getElem _ _ (by simpa [hlen] using hk),
      List.getD_eq_getElem _ _ (by rw [hlen]; exact hk)]
    simp
  have hzlen : (ts.zip values).length = values.length := by
    rw [List.length_zip, hlen]; simp
  have hget : ∀ k, k < values.length →
      (ts.zip values).getD k (0, 0) = (ts.getD k 0, values.getD k 0) :=
    fun k hk => zip_getD_pair ts values k (by rw [hlen]; exact hk) hk
  have hapart : ∀ j k, j < k → k < values.length →
      ts.getD j 0 < ts.getD k 0 ∧
        Double.finite (ts.getD k 0) - Double.finite (ts.getD j 0) ≠ 0 := by
    intro j k hjk hk
    exact sampleTimes_apart j k samplingRate _ _ hjk hr hr2 (by omega) (hb j (by omega))
      (hb k hk)
  have hs : SortedByX (ts.zip values) := by
    unfold SortedByX
    rw [List.pairwise_iff_getElem]
    intro j k hj hk hjk
    rw [hzlen] at hj hk
    have h1 := hget j hj
    have h2 := hget k hk
    rw [List.getD_eq_getElem _ _ (by rw [hzlen]; exact hj)] at h1
    rw [List.getD_eq_getElem _ _ (by rw [hzlen]; exact hk)] at h2
    rw [h1, h2]
    exact le_of_lt (hapart j k hjk hk).1
  have hlb : lower_bound (ts.zip values) (ts.getD i 0) = i := by
    apply lower_bound_eq _ _ hs i (by rw [hzlen]; exact hi)
    · intro j hj
      rw [hget j (by omega)]
      exact (hapart j i hj hi).1
    · rw [hget i hi]
  have hne : toDoubles (ts.zip values) ≠ [] := by
    intro h
    have hl : (toDoubles (ts.zip values)).length = values.length := by
      rw [toDoubles_length, hzlen]
    rw [h, List.length_nil] at hl
    omega
  have htr : trackedSignalData64 kv = some (toDoubles (ts.zip values)) := by
    rw [(trackedSignalData64_of kv c ht hc).1, hdata, hts, zip_finite]
  rw [getYValueFromSignal64_eq_interpolateAt64 kv _ _ htr hne, htimes i hi,
    interpolateAt64_finite, hlb, hzlen, if_neg (by omega)]
  constructor
  · intro h0
    rw [if_pos h0, hget 0 (by omega)]
  · intro hpos
    rw [if_neg (by omega), hget i hi, hget (i - 1) (by omega), htimes (i - 1) (by omega),
      if_neg (hapart (i - 1) i (by omega) hi).2]

/-- After `visualizeSignal` with a positive sampling rate, in binary64: the stored samples of
a channel are the sample times paired with the original values, its graph holds the values
plus the stored offset, the horizontal line is placed at the readout plus that offset, and
the readout at the time of a sample is the first value at the first time and the
interpolation expression on the sample and its predecessor at a later time. -/
theorem readout64_after_visualizeSignal64 (dataMap : List (String × List ℚ))
    (configName : String) (penWidth samplingRate : Int) (kv : SignalMembers) (c : String)
    (values : List ℚ) (hr : 0 < samplingRate) (hr2 : samplingRate < 2 ^ 31)
    (hne : dataMap ≠ []) (hch : ∀ e, e ∈ dataMap → e.2 ≠ [])
    (hkeys : (dataMap.map Prod.fst).Nodup) (hfin : FiniteValues dataMap)
    (hmem : (c, values) ∈ dataMap) (hc : c = "X" ∨ c = "Y" ∨ c = "Z")
    (hn : values.length ≤ 2 ^ 31) (ht : kv.trackedParameter = c) :
    ∃ r offset,
      visualizeSignal64 (toDoubleMap dataMap) configName penWidth samplingRate kv = some r ∧
      r.members.signalOffsets c = some offset ∧
      trackedSignalData64 r.members =
        some ((sampleTimes64 values.length samplingRate).zip (values.map Double.finite)) ∧
      (∃ g, g ∈ r.graphs ∧
        g.2 = (sampleTimes64 values.length samplingRate).zip
          (values.map fun v => Double.finite v + offset)) ∧
      (∀ y, adjustedY64 r.members y = y + offset) ∧
      ∀ i, i < values.length →
        (i = 0 →
          getYValueFromSignal64 r.members
              ((sampleTimes64 values.length samplingRate).getD i 0) =
            Double.finite (values.getD 0 0)) ∧
        (0 < i →
          getYValueFromSignal64 r.members
              ((sampleTimes64 values.length samplingRate).getD i 0) =
            Double.finite (values.getD (i - 1) 0) +
              (Double.finite (values.getD i 0) - Double.finite (values.getD (i - 1) 0)) *
                ((sampleTimes64 values.length samplingRate).getD i 0 -
                  (sampleTimes64 values.length samplingRate).getD (i - 1) 0) /
                ((sampleTimes64 values.length samplingRate).getD i 0 -
                  (sampleTimes64 values.length samplingRate).getD (i - 1) 0)) := by
  obtain ⟨r, gmin, gmax, hrr, _, _, hoff, hdata, htr, hgraphs, _⟩ :=
    visualizeSignal64_spec dataMap configName penWidth samplingRate kv hne hch hfin
  have hoffc : r.members.signalOffsets c =
      some ((Double.finite gmax + Double.finite gmin) / 2 - localCenter64 values) := by
    rw [hoff]
    exact offsetsAfter64_lookup _ dataMap _ (c, values) hkeys hmem
  have hdatac : signalDataOf64 r.members c =
      (sampleTimes64 values.length samplingRate).zip (values.map Double.finite) := by
    rw [hdata c hc, dataAfter64_lookup samplingRate c values dataMap [] hkeys hmem,
      List.nil_append]
  have ht1 : r.members.trackedParameter = c := htr.trans ht
  obtain ⟨htsd, hadj⟩ := trackedSignalData64_of r.members c ht1 hc
  refine ⟨r, _, hrr, hoffc, ?_, ?_, ?_, ?_⟩
  · rw [htsd, hdatac]
  · exact ⟨graphOf64 configName samplingRate ((Double.finite gmax + Double.finite gmin) / 2)
      (c, values), by rw [hgraphs]; exact List.mem_map_of_mem _ hmem, rfl⟩
  · intro y
    rw [hadj y, hoffc]
    rfl
  · intro i hi
    exact getYValueFromSignal64_at_sample_time r.members c values samplingRate hr hr2 hn ht1
      hc hdatac i hi

/-! ## Claim on the cursor readout -/

/-- C15, as stated, fails in its second half. With sampling rate -1 the stored sample
times 0, -1, -2 are not ascending, the search stops at the first sample and the readout at
the time of sample 1 of `[0, 10, 20]` is 0, not 10. With sampling rate 1 and the channel
`[0.3, 0.9]` (the doubles nearest to 0.3 and 0.9) the readout at the time of sample 1 is
0.9000000000000001, not the sample's value, and the horizontal line is placed at that
readout plus the offset 0 while the drawn trace has y 0.9 there. -/
theorem readout64_not_the_sample :
    (visualizeSignal64 (toDoubleMap [("X", [0, 10, 20])]) "Cfg" 1 (-1)
        (membersTracking [])).map
      (fun r => (r.members.signalDataX,
        getYValueFromSignal64 r.members ((sampleTimes64 3 (-1)).getD 1 0))) =
      some ([(Double.finite 0, Double.finite 0), (Double.finite (-1), Double.finite 10),
          (Double.finite (-2), Double.finite 20)], Double.finite 0) ∧
    Double.round (3 / 10) = Double.finite (5404319552844595 / 18014398509481984) ∧
    Double.round (9 / 10) = Double.finite (8106479329266893 / 9007199254740992) ∧
    (visualizeSignal64
        (toDoubleMap [("X", [5404319552844595 / 18014398509481984,
          8106479329266893 / 9007199254740992])])
        "Cfg" 1 1 (membersTracking [])).map
      (fun r => (r.members.signalDataX,
        getYValueFromSignal64 r.members ((sampleTimes64 2 1).getD 1 0),
        adjustedY64 r.members
          (getYValueFromSignal64 r.members ((sampleTimes64 2 1).getD 1 0)),
        r.graphs.map fun g => g.2.getD 1 (0, 0))) =
      some ([(Double.finite 0, Double.finite (5404319552844595 / 18014398509481984)),
          (Double.finite 1, Double.finite (8106479329266893 / 9007199254740992))],
        Double.finite (4053239664633447 / 4503599627370496),
        Double.finite (4053239664633447 / 4503599627370496),
        [(Double.finite 1, Double.finite (8106479329266893 / 9007199254740992))]) ∧
    (8106479329266893 / 9007199254740992 : ℚ) ≠ 4053239664633447 / 4503599627370496 := by
  refine ⟨by decide!, by decide!, by decide!, by decide!, by norm_num⟩

/-- C15 (amended): for a pointer move over the instance's own surface that is not a
spectrogram, with tracked channel `c` one of `"X"`, `"Y"`, `"Z"` and the pointer's y within
the surface's height, the readout is `(x, getYValueFromSignal x)` on the stored samples of
`c`, `x` being the data coordinate of the pointer's x, and the horizontal line runs from
`(xRange.lower, y + offset(c))` to `(xRange.upper, y + offset(c))`. After `visualizeSignal`
with a sampling rate from 1 to `2 ^ 31 - 1` on finite values, in binary64: the stored
samples of `c` are the sample times paired with the original values, point `i` of the
channel's graph is the time of sample `i` with the value plus the stored offset, and the
horizontal line is placed at the readout plus that offset. At the time of sample 0 the
readout is the original value of sample 0, so that the line's y is the y of the drawn trace;
at the time of a later sample `i` the readout is the interpolation of the source on samples
`i - 1` and `i`, `y1 + (y2 - y1) * (x2 - x1) / (x2 - x1)`, evaluated in binary64. The exact
value of that expression is the value of sample `i`; the readout agrees with it up to the
rounding of the four operations. -/
theorem cursor_readout_and_guide :
    (∀ (this : Nat) (pos : QPoint) (w : World) (c : String),
      HasGuide w this → SelectionAlive w →
      (w.plots (w.visualizers this).customPlot).isSpectrogram = false →
      (w.visualizers this).trackedParameter = c → (c = "X" ∨ c = "Y" ∨ c = "Z") →
      0 ≤ pos.y → pos.y ≤ (w.plots (w.visualizers this).customPlot).height →
      ∃ w1, eventFilter this (QEvent.MouseMove pos) w = some w1 ∧
        trackedSignalData (w.visualizers this) = some (signalDataOf (w.visualizers this) c) ∧
        (w1.visualizers this).coordText =
          ((w.plots (w.visualizers this).customPlot).xAxis_pixelToCoord pos.x,
            getYValueFromSignal (w.visualizers this)
              ((w.plots (w.visualizers this).customPlot).xAxis_pixelToCoord pos.x)) ∧
        (w1.visualizers this).hLine =
          { start :=
              { x := (w.plots (w.visualizers this).customPlot).xRange.lower
                y := (w1.visualizers this).coordText.2 +
                  ((w.visualizers this).signalOffsets c).getD 0 }
            end_ :=
              { x := (w.plots (w.visualizers this).customPlot).xRange.upper
                y := (w1.visualizers this).coordText.2 +
                  ((w.visualizers this).signalOffsets c).getD 0 }
            visible := true }) ∧
    (∀ (dataMap : List (String × List ℚ)) (configName : String)
      (penWidth samplingRate : Int) (kv : SignalMembers) (c : String) (values : List ℚ),
      0 < samplingRate → samplingRate < 2 ^ 31 → dataMap ≠ [] →
      (∀ e, e ∈ dataMap → e.2 ≠ []) → (dataMap.map Prod.fst).Nodup → FiniteValues dataMap →
      (c, values) ∈ dataMap → (c = "X" ∨ c = "Y" ∨ c = "Z") → values.length ≤ 2 ^ 31 →
      kv.trackedParameter = c →
      ∃ r offset g,
        visualizeSignal64 (toDoubleMap dataMap) configName penWidth samplingRate kv =
          some r ∧
        r.members.signalOffsets c = some offset ∧
        trackedSignalData64 r.members =
          some ((sampleTimes64 values.length samplingRate).zip (values.map Double.finite)) ∧
        g ∈ r.graphs ∧
        (∀ y, adjustedY64 r.members y = y + offset) ∧
        ∀ i, i < values.length →
          g.2.getD i (0, 0) =
            ((sampleTimes64 values.length samplingRate).getD i 0,
              Double.finite (values.getD i 0) + offset) ∧
          (i = 0 →
            getYValueFromSignal64 r.members
                ((sampleTimes64 values.length samplingRate).getD i 0) =
              Double.finite (values.getD 0 0) ∧
            adjustedY64 r.members
                (getYValueFromSignal64 r.members
                  ((sampleTimes64 values.length samplingRate).getD i 0)) =
              (g.2.getD i (0, 0)).2) ∧
          (0 < i →
            getYValueFromSignal64 r.members
                ((sampleTimes64 values.length samplingRate).getD i 0) =
              Double.finite (values.getD (i - 1) 0) +
                (Double.finite (values.getD i 0) - Double.finite (values.getD (i - 1) 0)) *
                  ((sampleTimes64 values.length samplingRate).getD i 0 -
                    (sampleTimes64 values.length samplingRate).getD (i - 1) 0) /
                  ((sampleTimes64 values.length samplingRate).getD i 0 -
                    (sampleTimes64 values.length samplingRate).getD (i - 1) 0))) ∧
    (∀ y1 y2 x1 x2 : ℚ, x2 - x1 ≠ 0 → y1 + (y2 - y1) * (x2 - x1) / (x2 - x1) = y2) := by
  refine ⟨?_, ?_, ?_⟩
  · intro this pos w c hg halive hsp ht hc hy0 hy1
    obtain ⟨w1, h1, htext, hline⟩ :=
      eventFilter_MouseMove_readout this pos w hg halive hsp hy0 hy1
    obtain ⟨htr, hoff⟩ := trackedSignalData_of (w.visualizers this) c ht hc
    refine ⟨w1, h1, htr, htext, ?_⟩
    rw [hline, htext, hoff]
  · intro dataMap configName penWidth samplingRate kv c values hr hr2 hne hch hkeys hfin
      hmem hc hn ht
    obtain ⟨r, offset, hrr, hoff, hdata, ⟨g, hg, hg2⟩, hadj, hread⟩ :=
      readout64_after_visualizeSignal64 dataMap configName penWidth samplingRate kv c values
        hr hr2 hne hch hkeys hfin hmem hc hn ht
    refine ⟨r, offset, g, hrr, hoff, hdata, hg, hadj, ?_⟩
    intro i hi
    have hpoint : g.2.getD i (0, 0) =
        ((sampleTimes64 values.length samplingRate).getD i 0,
          Double.finite (values.getD i 0) + offset) := by
      have hlen : i < ((sampleTimes64 values.length samplingRate).zip
          (values.map fun v => Double.finite v + offset)).length := by
        rw [List.length_zip, sampleTimes64_length, List.length_map]
        simpa using hi
      rw [hg2, List.getD_eq_getElem _ _ hlen, List.getElem_zip,
        List.getD_eq_getElem _ _ (by rw [sampleTimes64_length]; exact hi),
        List.getD_eq_getElem _ _ hi, List.getElem_map]
    refine ⟨hpoint, ?_, (hread i hi).2⟩
    intro h0
    have hval := (hread i hi).1 h0
    refine ⟨hval, ?_⟩
    rw [hval, hadj, hpoint, h0]
  · intro y1 y2 x1 x2 hd
    rw [mul_div_assoc, div_self hd]
    ring

/-- Witness of the amended C15: on one constructed visualizer tracking `"X"` with no stored
samples a pointer at pixel `(1, 5)` reads `(1, 0)`; after `visualizeSignal` of the channels
`"X"` = 0, 10, 0 and `"Y"` = 100, 104 at sampling rate 1 the readout at the time of sample 1
is 10, no operation rounds. -/
theorem cursor_readout_and_guide_witness :
    (∃ w1, eventFilter 0 (QEvent.MouseMove { x := 1, y := 5 })
        (setTrackedParameter 0 "X" oneSurface) = some w1 ∧
      (w1.visualizers 0).coordText = (1, 0)) ∧
    (∃ r, visualizeSignal64 (toDoubleMap exampleChannels) "Cfg" 1 1 (membersTracking []) =
        some r ∧
      getYValueFromSignal64 r.members ((sampleTimes64 3 1).getD 1 0) = Double.finite 10) := by
  constructor
  · obtain ⟨w1, h1, _, htext, _⟩ := cursor_readout_and_guide.1 0 { x := 1, y := 5 }
      (setTrackedParameter 0 "X" oneSurface) "X" rfl
      (fun sel hsel => by
        have h : (none : Option Nat) = some sel := hsel
        cases h)
      rfl rfl (Or.inl rfl) (by decide) (by decide)
    refine ⟨w1, h1, ?_⟩
    rw [htext]
    rfl
  · obtain ⟨r, offset, g, hr, _, _, _, _, hread⟩ := cursor_readout_and_guide.2.1
      exampleChannels "Cfg" 1 1 (membersTracking []) "X" [0, 10, 0] (by decide) (by decide)
      (by decide) (by decide) (by decide) exampleChannels_finite (by decide) (Or.inl rfl)
      (by norm_num) rfl
    exact ⟨r, hr, ((hread 1 (by norm_num)).2.2 (by norm_num)).trans (by decide!)⟩
